import Mathlib

/-!
Verification of the github-to-sqlite ingestion-and-normalization engine.

The Python source (`github_to_sqlite/utils.py`, `cli.py`) is shallowly
embedded: JSON payloads become the inductive type `J`, SQLite tables become
lists of rows keyed by their primary-key columns, and the `save_*`
normalizer functions become pure state-passing functions over a `Db`
record.  `sqlite_utils` primitives are modelled by their documented
semantics: `insert(..., replace=True)` is INSERT OR REPLACE (delete the
conflicting row, append the new one), `upsert` is INSERT OR IGNORE followed
by UPDATE of the supplied columns, and `hash_id` derives the primary key
deterministically from the record's content.  The pagination layer is
modelled as a fuel-indexed loop over an abstract server function; the
schema maintainer as a pure function on a schema state.
-/

set_option autoImplicit false

namespace GhSql

mutual
/-- JSON values as produced by `response.json()` / `yaml.safe_load`.
Numbers are modelled as integers (every id and count in the modelled
payloads is integral).  `JList` and `JObj` are the array/object spines,
kept mutual so that decidable equality can be derived. -/
inductive J where
  | null : J
  | bool : Bool → J
  | num : Int → J
  | str : String → J
  | arr : JList → J
  | obj : JObj → J
deriving DecidableEq, Repr

inductive JList where
  | nil : JList
  | cons : J → JList → JList
deriving DecidableEq, Repr

inductive JObj where
  | nil : JObj
  | cons : String → J → JObj → JObj
deriving DecidableEq, Repr
end

/-- Spine-to-list conversion for arrays. -/
def JList.toList : JList → List J
  | .nil => []
  | .cons x xs => x :: xs.toList

/-- Spine-to-list conversion for objects. -/
def JObj.toList : JObj → List (String × J)
  | .nil => []
  | .cons k v xs => (k, v) :: xs.toList

/-- List-to-spine conversion for arrays. -/
def JList.ofList : List J → JList
  | [] => .nil
  | x :: xs => .cons x (JList.ofList xs)

/-- List-to-spine conversion for objects. -/
def JObj.ofList : List (String × J) → JObj
  | [] => .nil
  | (k, v) :: xs => .cons k v (JObj.ofList xs)

/-- Build a JSON array from a list. -/
def jarr (xs : List J) : J := .arr (JList.ofList xs)

/-- Build a JSON object from a field list. -/
def jobj (fs : List (String × J)) : J := .obj (JObj.ofList fs)

/-- Python truthiness of a JSON value (`if x:`). -/
def truthy : J → Bool
  | .null => false
  | .bool b => b
  | .num n => n != 0
  | .str s => s != ""
  | .arr xs => xs != .nil
  | .obj fs => fs != .nil

/-- Fields of a JSON object (`dict.items()`); non-objects give `[]`. -/
def objFields : J → List (String × J)
  | .obj fs => fs.toList
  | _ => []

/-- Elements of a JSON array; non-arrays give `[]`. -/
def arrElems : J → List J
  | .arr xs => xs.toList
  | _ => []

/-- The string carried by a JSON string value. -/
def strOf : J → String
  | .str s => s
  | _ => ""

/-- A stored row: a dict of column name to value. -/
abbrev Row := List (String × J)

/-- Dict lookup (`d[k]` / `d.get(k)`): value of the first matching key. -/
def getF (r : Row) (k : String) : Option J :=
  (r.find? (fun kv => kv.1 == k)).map (fun kv => kv.2)

/-- Dict lookup with `None` default (`d.get(k)`). -/
def getFD (r : Row) (k : String) : J :=
  (getF r k).getD .null

/-- Key-presence test (`k in d`). -/
def hasF (r : Row) (k : String) : Bool :=
  r.any (fun kv => kv.1 == k)

/-- Dict assignment (`d[k] = v`): update in place, else append. -/
def setF (r : Row) (k : String) (v : J) : Row :=
  if hasF r k then r.map (fun kv => if kv.1 == k then (k, v) else kv)
  else r ++ [(k, v)]

/-- Dict removal (`d.pop(k, None)`). -/
def popF (r : Row) (k : String) : Row :=
  r.filter (fun kv => kv.1 != k)

/-- Merge `upd` into `base` (`{**base, **upd}` / the UPDATE half of an
upsert): later keys override. -/
def mergeRow (base upd : Row) : Row :=
  upd.foldl (fun acc kv => setF acc kv.1 kv.2) base

/-- The tuple of values a row takes on the primary-key columns. -/
def keyOf (cols : List String) (r : Row) : List (Option J) :=
  cols.map (getF r)

/-- INSERT OR REPLACE by the primary-key columns `cols`: SQLite deletes
every row conflicting on the key, then inserts the new row. -/
def insertReplaceK (t : List Row) (cols : List String) (r : Row) : List Row :=
  t.filter (fun row => keyOf cols row != keyOf cols r) ++ [r]

/-- `sqlite_utils` upsert: INSERT OR IGNORE followed by an UPDATE of the
supplied columns, so an existing row keeps columns the record omits. -/
def upsertK (t : List Row) (cols : List String) (r : Row) : List Row :=
  if t.any (fun row => keyOf cols row == keyOf cols r) then
    t.map (fun row => if keyOf cols row == keyOf cols r then mergeRow row r else row)
  else t ++ [r]

/-- Number of rows of `t` whose key columns `cols` hold the values `ks`. -/
def countKey (t : List Row) (cols : List String) (ks : List (Option J)) : Nat :=
  (t.filter (fun row => keyOf cols row == ks)).length

/-- Distinctness of a table's primary-key values (SQLite enforces this). -/
def nodupKeys (t : List Row) (cols : List String) : Prop :=
  (t.map (keyOf cols)).Nodup

instance (t : List Row) (cols : List String) : Decidable (nodupKeys t cols) := by
  unfold nodupKeys; infer_instance

/-- The relational store: one field per table the normalizer writes.
Link tables are named as `sqlite_utils.m2m` names them (the two table
names sorted alphabetically). -/
structure Db where
  users : List Row := []
  licenses : List Row := []
  repos : List Row := []
  milestones : List Row := []
  issues : List Row := []
  labels : List Row := []
  issues_labels : List Row := []
  pull_requests : List Row := []
  labels_pull_requests : List Row := []
  releases : List Row := []
  assets : List Row := []
  raw_authors : List Row := []
  commits : List Row := []
  workflows : List Row := []
  jobs : List Row := []
  steps : List Row := []
deriving DecidableEq, Repr

/-- The pure dict pipeline of `utils.save_user`: drop `*url` keys except
`avatar_url`/`html_url`, then fall back `name := login` when `name` is
absent or null. -/
def user_to_save (u : J) : Row :=
  let to_save := (objFields u).filter
    (fun kv => kv.1 == "avatar_url" || kv.1 == "html_url" || !kv.1.endsWith "url")
  if getFD to_save "name" == .null then
    setF to_save "name" (getFD to_save "login")
  else to_save

/-- The key `save_user` returns for a raw user payload (`last_pk` of the
upsert; null for a `None` user). -/
def user_pk (u : J) : J :=
  match u with
  | .null => .null
  | u => getFD (user_to_save u) "id"

/-- `utils.save_user`: drop `*url` columns except `avatar_url`/`html_url`,
fall back `name := login`, upsert by `id`; a `None` user writes nothing and
yields a null key. -/
def save_user (db : Db) (user : J) : Db × J :=
  match user with
  | .null => (db, .null)
  | u => ({ db with users := upsertK db.users ["id"] (user_to_save u) }, user_pk u)

/-- The key `save_license` returns (`last_pk` of the replace insert; null
for a `None` license). -/
def license_pk (l : J) : J :=
  match l with
  | .null => .null
  | l => getFD (objFields l) "key"

/-- `utils.save_license`: `None` yields a null key, otherwise insert-or-
replace by `key`. -/
def save_license (db : Db) (license : J) : Db × J :=
  match license with
  | .null => (db, .null)
  | l =>
    ({ db with licenses := insertReplaceK db.licenses ["key"] (objFields l) }, license_pk l)

/-- The pure dict pipeline of `utils.save_repo`: drop `*url` keys except
`html_url`, then overwrite `owner`/`license`/`organization` with the keys
their sub-entity saves return. -/
def repo_to_save (repo : J) : Row :=
  let t := (objFields repo).filter (fun kv => kv.1 == "html_url" || !kv.1.endsWith "url")
  let t := setF t "owner" (user_pk (getFD t "owner"))
  let t := setF t "license" (license_pk (getFD t "license"))
  if hasF t "organization" then setF t "organization" (user_pk (getFD t "organization"))
  else setF t "organization" .null

/-- `utils.save_repo`: resolve `owner`, `license` and (when present)
`organization` first, in source order, then insert-or-replace the stripped
repo row by `id`. -/
def save_repo (db : Db) (repo : J) : Db × J :=
  let t0 := (objFields repo).filter (fun kv => kv.1 == "html_url" || !kv.1.endsWith "url")
  let s1 := save_user db (getFD t0 "owner")
  let s2 := save_license s1.1 (getFD t0 "license")
  let db :=
    if hasF t0 "organization" then (save_user s2.1 (getFD t0 "organization")).1 else s2.1
  ({ db with repos := insertReplaceK db.repos ["id"] (repo_to_save repo) },
   getFD (repo_to_save repo) "id")

/-- The pure dict pipeline of `utils.save_milestone`: overwrite `creator`
with its user key, attach `repo`, drop `labels_url`/`url`. -/
def milestone_row (m : J) (repo_id : J) : Row :=
  let r := setF (objFields m) "creator" (user_pk (getFD (objFields m) "creator"))
  let r := setF r "repo" repo_id
  popF (popF r "labels_url") "url"

/-- The key `save_milestone` returns. -/
def milestone_pk (m : J) (repo_id : J) : J :=
  getFD (milestone_row m repo_id) "id"

/-- `utils.save_milestone`: resolve `creator`, attach `repo`, drop
`labels_url`/`url`, insert-or-replace by `id`. -/
def save_milestone (db : Db) (milestone : J) (repo_id : J) : Db × J :=
  let s := save_user db (getFD (objFields milestone) "creator")
  ({ s.1 with milestones :=
      (insertReplaceK s.1.milestones ["id"] (milestone_row milestone repo_id)) },
   milestone_pk milestone repo_id)

/-- `sqlite_utils` `table.m2m("labels", label, pk="id")` as used for issues:
insert-or-replace the label by `id`, then insert-or-replace the link row in
the `issues_labels` table keyed by both ids. -/
def m2m_issue_label (db : Db) (issue_id : J) (label : J) : Db :=
  let lf := objFields label
  let db := { db with labels := insertReplaceK db.labels ["id"] lf }
  { db with issues_labels :=
      (insertReplaceK db.issues_labels ["issues_id", "labels_id"]
        [("issues_id", issue_id), ("labels_id", getFD lf "id")]) }

/-- `sqlite_utils` `table.m2m("labels", label, pk="id")` as used for pull
requests: the link table is `labels_pull_requests`. -/
def m2m_pull_request_label (db : Db) (pr_id : J) (label : J) : Db :=
  let lf := objFields label
  let db := { db with labels := insertReplaceK db.labels ["id"] lf }
  { db with labels_pull_requests :=
      (insertReplaceK db.labels_pull_requests ["labels_id", "pull_requests_id"]
        [("labels_id", getFD lf "id"), ("pull_requests_id", pr_id)]) }

/-- Python `s.split(sep)[1]`: the text between the first and second
occurrence of `sep` (to the end when `sep` occurs once). -/
def splitSecond (s sep : String) : String :=
  ((s.splitOn sep).getD 1 "")

/-- The pure dict pipeline of one `utils.save_issues` iteration: drop
`*url` keys, attach `repo`, flatten `pull_request` to its repo-relative
URL, overwrite `user`/`milestone`/`assignee` with their sub-entity keys,
pop `labels`/`assignees`, and add the synthetic `type` discriminator. -/
def issue_row (original : J) (repo_id : J) : Row :=
  let issue := (objFields original).filter (fun kv => !kv.1.endsWith "url")
  let issue := setF issue "repo" repo_id
  let issue :=
    if truthy (getFD issue "pull_request") then
      setF issue "pull_request"
        (.str (splitSecond (strOf (getFD (objFields (getFD issue "pull_request")) "url"))
          "https://api.github.com/repos/"))
    else issue
  let issue := setF issue "user" (user_pk (getFD issue "user"))
  let issue := popF issue "labels"
  let issue :=
    if truthy (getFD issue "milestone") then
      setF issue "milestone" (milestone_pk (getFD issue "milestone") repo_id)
    else issue
  let issue := popF issue "assignees"
  let issue :=
    if truthy (getFD issue "assignee") then
      setF issue "assignee" (user_pk (getFD issue "assignee"))
    else issue
  setF issue "type" (.str (if truthy (getFD issue "pull_request") then "pull" else "issue"))

/-- One iteration of the loop body of `utils.save_issues`: run the
sub-entity saves in source order, insert the normalized issue row, then
link its labels. -/
def save_issue_one (db : Db) (repo_id : J) (original : J) : Db :=
  let db := (save_user db (getFD (objFields original) "user")).1
  let db :=
    if truthy (getFD (objFields original) "milestone") then
      (save_milestone db (getFD (objFields original) "milestone") repo_id).1
    else db
  let db :=
    if truthy (getFD (objFields original) "assignee") then
      (save_user db (getFD (objFields original) "assignee")).1
    else db
  let db := { db with issues := (insertReplaceK db.issues ["id"] (issue_row original repo_id)) }
  (arrElems (getFD (objFields original) "labels")).foldl
    (fun db label => m2m_issue_label db (getFD (issue_row original repo_id) "id") label) db

/-- `utils.save_issues`: normalize each raw issue of the batch in order
(the `milestones`/`users` `CREATE TABLE` guards only shape the schema and
write no rows, so they do not appear in the content model). -/
def save_issues (db : Db) (issues : List J) (repo : J) : Db :=
  issues.foldl (fun db original => save_issue_one db (getFD (objFields repo) "id") original) db

/-- The pure dict pipeline of one `utils.save_pull_requests` iteration:
drop `*url` keys, attach `repo`, derive `url` from `_links.html.href` (or
the nested `pull_request.html_url`), overwrite sub-entity references with
their keys, flatten `head`/`base` to their SHAs, and pop the discarded
keys. -/
def pull_request_row (original : J) (repo_id : J) : Row :=
  let pr := (objFields original).filter (fun kv => !kv.1.endsWith "url")
  let pr := setF pr "repo" repo_id
  let pr :=
    if hasF pr "_links" then
      popF (setF pr "url" (getFD (objFields (getFD (objFields (getFD pr "_links")) "html")) "href")) "_links"
    else
      setF pr "url" (getFD (objFields (getFD pr "pull_request")) "html_url")
  let pr := setF pr "user" (user_pk (getFD pr "user"))
  let pr := popF pr "labels"
  let pr :=
    if truthy (getFD pr "merged_by") then
      setF pr "merged_by" (user_pk (getFD pr "merged_by"))
    else pr
  let pr :=
    if hasF pr "head" then
      setF (setF pr "head" (getFD (objFields (getFD pr "head")) "sha"))
        "base" (getFD (objFields (getFD pr "base")) "sha")
    else pr
  let pr :=
    if truthy (getFD pr "milestone") then
      setF pr "milestone" (milestone_pk (getFD pr "milestone") repo_id)
    else pr
  let pr := popF pr "assignees"
  let pr :=
    if truthy (getFD (objFields original) "assignee") then
      setF pr "assignee" (user_pk (getFD pr "assignee"))
    else pr
  let pr := popF pr "active_lock_reason"
  popF (popF pr "requested_reviewers") "requested_teams"

/-- One iteration of the loop body of `utils.save_pull_requests`: run the
sub-entity saves in source order, insert the normalized row, then link its
labels. -/
def save_pull_request_one (db : Db) (repo_id : J) (original : J) : Db :=
  let db := (save_user db (getFD (objFields original) "user")).1
  let db :=
    if truthy (getFD (objFields original) "merged_by") then
      (save_user db (getFD (objFields original) "merged_by")).1
    else db
  let db :=
    if truthy (getFD (objFields original) "milestone") then
      (save_milestone db (getFD (objFields original) "milestone") repo_id).1
    else db
  let db :=
    if truthy (getFD (objFields original) "assignee") then
      (save_user db (getFD (objFields original) "assignee")).1
    else db
  let db := { db with pull_requests :=
      (insertReplaceK db.pull_requests ["id"] (pull_request_row original repo_id)) }
  (arrElems (getFD (objFields original) "labels")).foldl
    (fun db label =>
      m2m_pull_request_label db (getFD (pull_request_row original repo_id) "id") label) db

/-- `utils.save_pull_requests`: normalize each raw pull request in order. -/
def save_pull_requests (db : Db) (pull_requests : List J) (repo : J) : Db :=
  pull_requests.foldl
    (fun db original => save_pull_request_one db (getFD (objFields repo) "id") original) db

mutual
/-- Deterministic serialization of a JSON value, standing in for the JSON
dump that `sqlite_utils` feeds to its content hash. -/
def jenc : J → String
  | .null => "n"
  | .bool b => if b then "t" else "f"
  | .num n => "i" ++ toString n
  | .str s => "s" ++ s
  | .arr xs => "a(" ++ jencL xs ++ ")"
  | .obj fs => "o(" ++ jencO fs ++ ")"

/-- Serialization of an array spine. -/
def jencL : JList → String
  | .nil => ""
  | .cons x xs => jenc x ++ ";" ++ jencL xs

/-- Serialization of an object spine. -/
def jencO : JObj → String
  | .nil => ""
  | .cons k v xs => k ++ "=" ++ jenc v ++ ";" ++ jencO xs
end

/-- The `hash_id="id"` primary key of a `raw_authors` record: a digest
computed deterministically from the record's `(name, email)` content
(`sqlite_utils` uses the sha1 of the serialized record; the model keeps
determinism-in-content, which is the storage contract). -/
def hash_record_id (name email : J) : String :=
  "h:" ++ jenc name ++ "," ++ jenc email

/-- `utils.save_commit_author`: content-addressed insert-or-replace of the
raw `(name, email)` identity into `raw_authors`. -/
def save_commit_author (db : Db) (raw_author : J) : Db × J :=
  let name := getFD (objFields raw_author) "name"
  let email := getFD (objFields raw_author) "email"
  let rid := hash_record_id name email
  ({ db with raw_authors :=
      (insertReplaceK db.raw_authors ["id"]
        [("id", .str rid), ("name", name), ("email", email)]) },
   .str rid)

/-- The content-addressed key `save_commit_author` returns for a raw
`(name, email)` identity. -/
def raw_author_pk (raw_author : J) : J :=
  .str (hash_record_id (getFD (objFields raw_author) "name")
    (getFD (objFields raw_author) "email"))

/-- The pure dict pipeline of one `utils.save_commits` iteration: the
explicit column dict, with `raw_author`/`raw_committer` replaced by their
content-addressed keys and `author`/`committer` by their user keys (null
when GitHub could not match the identity). -/
def commit_row (commit : J) (repo_id : J) : Row :=
  let c := objFields commit
  let cc := objFields (getFD c "commit")
  let row : Row :=
    [("sha", getFD c "sha"),
     ("message", getFD cc "message"),
     ("author_date", getFD (objFields (getFD cc "author")) "date"),
     ("committer_date", getFD (objFields (getFD cc "committer")) "date"),
     ("raw_author", raw_author_pk (getFD cc "author")),
     ("raw_committer", raw_author_pk (getFD cc "committer"))]
  let row := setF row "repo" repo_id
  let row := setF row "author"
    (if truthy (getFD c "author") then user_pk (getFD c "author") else .null)
  setF row "committer"
    (if truthy (getFD c "committer") then user_pk (getFD c "committer") else .null)

/-- One iteration of the loop body of `utils.save_commits` (the
`raw_authors`/`commits` `CREATE TABLE` guards write no rows): resolve the
raw identities and matched users in source order, then insert-or-replace
the commit row by the table's primary key `sha`. -/
def save_commit_one (db : Db) (repo_id : J) (commit : J) : Db :=
  let c := objFields commit
  let cc := objFields (getFD c "commit")
  let db := (save_commit_author db (getFD cc "author")).1
  let db := (save_commit_author db (getFD cc "committer")).1
  let db := if truthy (getFD c "author") then (save_user db (getFD c "author")).1 else db
  let db := if truthy (getFD c "committer") then (save_user db (getFD c "committer")).1 else db
  { db with commits := insertReplaceK db.commits ["sha"] (commit_row commit repo_id) }

/-- `utils.save_commits`: normalize each raw commit in order; rows are
keyed by the table's primary key `sha`. -/
def save_commits (db : Db) (commits : List J) (repo_id : J) : Db :=
  commits.foldl (fun db commit => save_commit_one db repo_id commit) db

/-- The pure dict pipeline of one `utils.save_releases` iteration: drop
`*url` keys except `html_url`, pop `assets`, attach `repo`, overwrite
`author` with its user key. -/
def release_row (original : J) (repo_id : J) : Row :=
  let rel := (objFields original).filter
    (fun kv => kv.1 == "html_url" || !kv.1.endsWith "url")
  let rel := popF rel "assets"
  let rel := setF rel "repo" repo_id
  setF rel "author" (user_pk (getFD (objFields original) "author"))

/-- The asset rows one `save_releases` iteration upserts: each asset with
`uploader` overwritten by its user key and `release` attached. -/
def asset_rows (assets : List J) (release_id : J) : List Row :=
  assets.map (fun asset =>
    setF (setF (objFields asset) "uploader" (user_pk (getFD (objFields asset) "uploader")))
      "release" release_id)

/-- One iteration of the loop body of `utils.save_releases`: resolve
`author`, insert-or-replace the release by `id`, then resolve each asset's
`uploader` in order and upsert the asset rows by `id`. -/
def save_release_one (db : Db) (repo_id : J) (original : J) : Db :=
  let assets := arrElems (getFD (objFields original) "assets")
  let db := (save_user db (getFD (objFields original) "author")).1
  let db := { db with releases :=
      (insertReplaceK db.releases ["id"] (release_row original repo_id)) }
  let db := assets.foldl
    (fun db asset => (save_user db (getFD (objFields asset) "uploader")).1) db
  { db with assets :=
      ((asset_rows assets (getFD (release_row original repo_id) "id")).foldl
        (fun t a => upsertK t ["id"] a) db.assets) }

/-- `utils.save_releases` with repo context (the claim's setting). -/
def save_releases (db : Db) (releases : List J) (repo_id : J) : Db :=
  releases.foldl (fun db original => save_release_one db repo_id original) db

/-- A parsed CI workflow document as `yaml.safe_load` returns it: a mapping
whose keys are strings, except that an unquoted `on:` trigger block parses
as the boolean key `True` (modelled as `none`). -/
abbrev YDoc := List (Option String × J)

/-- Mapping lookup on a parsed workflow document. -/
def getY (d : YDoc) (k : Option String) : Option J :=
  (d.find? (fun kv => kv.1 == k)).map (fun kv => kv.2)

/-- Mapping removal (`pop`) on a parsed workflow document. -/
def eraseY (d : YDoc) (k : Option String) : YDoc :=
  d.filter (fun kv => kv.1 != k)

/-- Forget the boolean-key possibility once no boolean key remains. -/
def ydocRow (d : YDoc) : Row :=
  d.filterMap (fun kv => kv.1.map (fun k => (k, kv.2)))

/-- The value of a row's `id` column when it is a number (surrogate ids
always are), else 0. -/
def idNum (r : Row) : Int :=
  match getF r "id" with
  | some (.num n) => n
  | _ => 0

/-- SQLite rowid allocation for an INTEGER PRIMARY KEY insert that supplies
no id: one more than the largest id in use (1 on an empty table; the model
assumes nonnegative ids, which `wf` predicates below enforce). -/
def allocId (t : List Row) : Int :=
  (t.foldl (fun m r => max m (idNum r)) 0) + 1

/-- The SQL match `repo = ? and filename = ?` used by `save_workflow` to
find a prior decomposition of the same pair. -/
def matchRF (repo_id : J) (filename : String) (r : Row) : Bool :=
  getF r "repo" == some repo_id && getF r "filename" == some (.str filename)

/-- The delete half of `utils.save_workflow`: if a workflow row for
`(repo, filename)` exists, delete the steps of its jobs, its jobs, and the
workflow row itself. -/
def workflow_delete_phase (db : Db) (repo_id : J) (filename : String) : Db :=
  match db.workflows.filter (matchRF repo_id filename) with
  | [] => db
  | e :: _ =>
    let eid := getFD e "id"
    let jobIds := (db.jobs.filter (fun jb => getFD jb "workflow" == eid)).map
      (fun jb => getFD jb "id")
    let db := { db with steps := (db.steps.filter (fun st => !(jobIds.contains (getFD st "job")))) }
    let db := { db with jobs := (db.jobs.filter (fun jb => getFD jb "workflow" != eid)) }
    { db with workflows := (db.workflows.filter (fun w => getFD w "id" != eid)) }

/-- The `jobs` mapping popped off the parsed document
(`workflow.pop("jobs", None) or` the empty dict). -/
def jobs_obj (doc : YDoc) : J :=
  match getY doc (some "jobs") with
  | some v => if truthy v then v else .obj .nil
  | none => .obj .nil

/-- The workflow dict that remains after popping `jobs` and renaming the
boolean `True` key (YAML parse of an unquoted `on:`) back to `on`. -/
def workflow_doc_rest (doc : YDoc) : Row :=
  let wf0 := eraseY doc (some "jobs")
  match getY wf0 none with
  | some v => setF (ydocRow (eraseY wf0 none)) "on" v
  | none => ydocRow wf0

/-- The workflow row inserted for surrogate id `wid`: the remaining
document fields with `repo`, `filename` and `name` (defaulting to the
filename) merged over them. -/
def workflow_row (wid : Int) (repo_id : J) (filename : String) (doc : YDoc) : Row :=
  [("id", J.num wid)] ++
    mergeRow (workflow_doc_rest doc)
      [("repo", repo_id), ("filename", .str filename),
       ("name", (getF (workflow_doc_rest doc) "name").getD (.str filename))]

/-- The `steps` list popped off one job body
(`job_details.pop("steps", None) or` the empty list). -/
def job_steps (jd : Row) : List J :=
  match getF jd "steps" with
  | some v => if truthy v then arrElems v else []
  | none => []

/-- The job row inserted for surrogate id `jid`: the job body (with
`steps` popped) merged over the `workflow`/`name`/`repo` base columns. -/
def job_row (wid jid : Int) (repo_id : J) (jobName : String) (jd : Row) : Row :=
  [("id", J.num jid)] ++
    mergeRow [("workflow", J.num wid), ("name", .str jobName), ("repo", repo_id)]
      (popF jd "steps")

/-- One step row: the step dict merged over the `seq`/`job`/`repo` base
columns, with the next surrogate id prepended. -/
def step_row (sid : Int) (jid : Int) (repo_id : J) (i : Nat) (st : J) : Row :=
  [("id", J.num sid)] ++
    mergeRow [("seq", J.num (Int.ofNat i + 1)), ("job", J.num jid), ("repo", repo_id)]
      (objFields st)

/-- The `insert_all` of the steps of one job: append each step row,
surrogate ids assigned by rowid allocation as each lands. -/
def insert_steps (t : List Row) (jid : Int) (repo_id : J) (steps : List J) : List Row :=
  steps.enum.foldl (fun t ist => t ++ [step_row (allocId t) jid repo_id ist.1 ist.2]) t

/-- The insert half of `utils.save_workflow`: insert the workflow row, then
each job with its steps, surrogate ids assigned by rowid allocation. -/
def workflow_insert_phase (db : Db) (repo_id : J) (filename : String) (doc : YDoc) : Db :=
  let wid := allocId db.workflows
  let db := { db with workflows := (db.workflows ++ [workflow_row wid repo_id filename doc]) }
  (objFields (jobs_obj doc)).foldl
    (fun db jkv =>
      let jd := objFields jkv.2
      let jid := allocId db.jobs
      let db := { db with jobs := (db.jobs ++ [job_row wid jid repo_id jkv.1 jd]) }
      { db with steps := (insert_steps db.steps jid repo_id (job_steps jd)) })
    db

/-- `utils.save_workflow` on an already-parsed document (`yaml.safe_load`
is the external parser): full replace of any prior decomposition of the
same `(repo, filename)` pair, then fresh insert.  The unique index it
creates is schema-only and writes no rows. -/
def save_workflow (db : Db) (repo_id : J) (filename : String) (doc : YDoc) : Db :=
  workflow_insert_phase (workflow_delete_phase db repo_id filename) repo_id filename doc

/-- One HTTP response as the pagination loop sees it after the retry
transport resolves: final status code, parsed JSON body, and the URL of
the "next" link relation if the response carries one. -/
structure GhResponse where
  status : Nat
  body : J
  next : Option String
deriving DecidableEq, Repr

/-- Prefix test on character lists. -/
def listPrefix : List Char → List Char → Bool
  | [], _ => true
  | _ :: _, [] => false
  | p :: ps, c :: cs => p == c && listPrefix ps cs

/-- Substring test on character lists. -/
def listContains (pat : List Char) : List Char → Bool
  | [] => pat.isEmpty
  | c :: cs => listPrefix pat (c :: cs) || listContains pat cs

/-- The `"git repository is empty" in message.lower()` check of
`GitHubError.from_response`: lowercase the message, then test for the
pattern as a substring. -/
def containsSub (s pat : String) : Bool :=
  listContains pat.data (s.data.map Char.toLower)

/-- The classified error `GitHubError.from_response` builds from a response
whose body carries a `message`: `empty` marks the
`GitHubRepositoryEmpty` subclass, selected when the lowercased message
contains "git repository is empty". -/
structure GhError where
  empty : Bool
  message : String
  status : Nat
deriving DecidableEq, Repr

/-- `GitHubError.from_response` on a body whose `message` is `msg`. -/
def ghErrorFromResponse (msg : String) (status : Nat) : GhError :=
  { empty := containsSub msg "git repository is empty",
    message := msg, status := status }

/-- What one run of `utils.paginate` produces: the pages yielded in order,
the classified errors printed to stderr along the way, and whether the
loop reached one of its own exits (a 204, or a missing "next" link on a
200) rather than running out of fuel. -/
structure PageResult where
  pages : List J
  logs : List GhError
  finished : Bool
deriving DecidableEq, Repr

/-- The `while url:` loop of `utils.paginate`, fuel-indexed: fetch the
current URL; stop silently on 204; if the body is an object with a truthy
`message`, print (not raise) the classified error; advance to the "next"
link only when the status is 200, otherwise keep the same URL; yield the
page; loop while a URL remains. -/
def paginateLoop (server : String → GhResponse) : Nat → String → PageResult
  | 0, _ => { pages := [], logs := [], finished := false }
  | fuel + 1, url =>
    let r := server url
    if r.status == 204 then { pages := [], logs := [], finished := true }
    else
      let logs0 :=
        if truthy (getFD (objFields r.body) "message") && (r.body matches .obj _) then
          [ghErrorFromResponse (strOf (getFD (objFields r.body) "message")) r.status]
        else []
      let nextUrl := if r.status == 200 then r.next else some url
      match nextUrl with
      | none => { pages := [r.body], logs := logs0, finished := true }
      | some u =>
        let rest := paginateLoop server fuel u
        { pages := r.body :: rest.pages, logs := logs0 ++ rest.logs,
          finished := rest.finished }

/-- The page-size hint `utils.paginate` appends to the seed URL before the
loop starts. -/
def perPageUrl (url : String) : String :=
  url ++ (if url.contains '?' then "&" else "?") ++ "per_page=100"

/-- `utils.paginate`: append the page-size hint, then run the loop. -/
def paginate (server : String → GhResponse) (fuel : Nat) (url : String) : PageResult :=
  paginateLoop server fuel (perPageUrl url)

/-- Python iteration over a JSON value (`for commit in commits:`): array
elements for an array, key strings for an object (the error-body case). -/
def pyIter : J → List J
  | .arr xs => xs.toList
  | .obj fs => fs.toList.map (fun kv => .str kv.1)
  | _ => []

/-- The inner loop of `utils.fetch_commits` over one page: yield each
record until the stop predicate fires, in which case the whole walk ends
without yielding that record. -/
def takeUntilStop (stop : J → Bool) : List J → List J × Bool
  | [] => ([], false)
  | c :: cs =>
    if stop c then ([], true)
    else
      let r := takeUntilStop stop cs
      (c :: r.1, r.2)

/-- The page loop of `utils.fetch_commits`: walk the yielded pages,
short-circuiting every remaining page once the stop predicate fires. -/
def commitsFromPages (stop : J → Bool) : List J → List J × Bool
  | [] => ([], false)
  | page :: rest =>
    let r := takeUntilStop stop (pyIter page)
    if r.2 then (r.1, true)
    else
      let r2 := commitsFromPages stop rest
      (r.1 ++ r2.1, r2.2)

/-- The commit-history URL `utils.fetch_commits` seeds the walk with. -/
def commitsUrl (repo : String) : String :=
  "https://api.github.com/repos/" ++ repo ++ "/commits"

/-- `utils.fetch_commits` (stop predicate supplied; `None` becomes the
constantly-false predicate): returns the yielded records and whether the
walk came to an end on its own (stop fired or `paginate` finished; the
`except GitHubRepositoryEmpty` handler is modelled nowhere because
`paginate` only prints errors and never raises them). -/
def fetch_commits (server : String → GhResponse) (fuel : Nat) (stop : J → Bool)
    (repo : String) : List J × Bool :=
  let pr := paginate server fuel (commitsUrl repo)
  let r := commitsFromPages stop pr.pages
  (r.1, r.2 || pr.finished)

/-- The per-record predicate `cli.commits.stop_when` binds to the store:
true iff the `commits` table already holds a row whose primary key `sha`
is the candidate record's `sha`. -/
def stop_when (db : Db) (commit : J) : Bool :=
  db.commits.any (fun r => getF r "sha" == some (getFD (objFields commit) "sha"))

/-- A finite chain of successfully-fetched pages starting at `url`: every
response is a 200 carrying the next page's URL, except the last, which
carries no "next" link. -/
inductive Chain (server : String → GhResponse) : String → List J → Prop where
  | last {u p} : server u = { status := 200, body := p, next := none } →
      Chain server u [p]
  | cons {u u2 p ps} : server u = { status := 200, body := p, next := some u2 } →
      Chain server u2 ps → Chain server u (p :: ps)

/-- The schema-level state `ensure_db_shape` reconciles: which tables
exist (base tables, embedding tables and `*_fts` shadow tables alike),
their columns, the declared foreign keys, the indexes created for foreign
keys, other named indexes, and the defined views (name paired with the
index of its static definition). -/
structure Schema where
  tables : List String := []
  cols : List (String × List String) := []
  fks : List (String × String × String × String) := []
  fkIndexes : List (String × String) := []
  otherIndexes : List String := []
  views : List (String × Nat) := []
deriving DecidableEq, Repr

/-- Columns of a table in the schema state. -/
def colsOf (s : Schema) (t : String) : List String :=
  ((s.cols.find? (fun kv => kv.1 == t)).map (fun kv => kv.2)).getD []

/-- The static expected-foreign-key list `utils.FOREIGN_KEYS`. -/
def FOREIGN_KEYS : List (String × String × String × String) :=
  [("repos", "license", "licenses", "key")]

/-- The static FTS table-to-columns map `utils.FTS_CONFIG`. -/
def FTS_CONFIG : List (String × List String) :=
  [("commits", ["message"]),
   ("issue_comments", ["body"]),
   ("issues", ["title", "body"]),
   ("pull_requests", ["title", "body"]),
   ("labels", ["name", "description"]),
   ("licenses", ["name"]),
   ("milestones", ["title", "description"]),
   ("releases", ["name", "body"]),
   ("repos", ["name", "description"]),
   ("users", ["login", "name"])]

/-- The static view list `utils.VIEWS`: each view's name and required
tables (the SQL body is a fixed external text, so only its identity
matters to the schema state). -/
def VIEWS : List (String × List String) :=
  [("dependent_repos", ["repos", "dependents"]),
   ("repos_starred", ["stars", "repos", "users"]),
   ("recent_releases", ["repos", "releases"])]

/-- `utils.ensure_foreign_keys`: add each expected foreign key whose
tables and columns exist but which is not yet declared. -/
def ensure_foreign_keys (s : Schema) : Schema :=
  FOREIGN_KEYS.foldl
    (fun s fk =>
      if !(s.fks.contains fk) && s.tables.contains fk.1 && s.tables.contains fk.2.2.1
          && (colsOf s fk.1).contains fk.2.1 && (colsOf s fk.2.2.1).contains fk.2.2.2
      then { s with fks := s.fks ++ [fk] }
      else s)
    s

/-- `sqlite_utils` `db.index_foreign_keys()`: create an index on every
foreign-key column that does not have one yet. -/
def index_foreign_keys (s : Schema) : Schema :=
  { s with fkIndexes :=
      (s.fks.foldl
        (fun idxs fk =>
          if idxs.contains (fk.1, fk.2.1) then idxs else idxs ++ [(fk.1, fk.2.1)])
        s.fkIndexes) }

/-- Whether the optional `sqlite_vec` module imports, and whether loading
the extension into a connection succeeds; fixed properties of the process
environment. -/
structure VecEnv where
  importOk : Bool
  loadOk : Bool
deriving DecidableEq, Repr

/-- Process-wide mutable state around `utils._SQLITE_VEC_LOADED`: the
module-level cache, plus a trace of the connections on which
`sqlite_vec.load(db.conn)` was attempted. -/
structure VecProc where
  cache : Option Bool := none
  loads : List Nat := []
deriving DecidableEq, Repr

/-- `utils._maybe_load_sqlite_vec`: return the module-global cache when
set; otherwise import the module, attempt the load on this connection,
and cache the outcome in the module-global flag. -/
def maybe_load_sqlite_vec (env : VecEnv) (conn : Nat) (p : VecProc) : VecProc × Bool :=
  match p.cache with
  | some b => (p, b)
  | none =>
    if !env.importOk then ({ p with cache := some false }, false)
    else
      let p := { p with loads := p.loads ++ [conn] }
      if env.loadOk then ({ p with cache := some true }, true)
      else ({ p with cache := some false }, false)

/-- The `repo_embeddings` block of `utils.ensure_embedding_tables`
(`ts0` is the snapshot of table names): create the table if the snapshot
misses it; a non-virtual creation declares the `repo_id` foreign key to
`repos.id` when `repos` is in the snapshot, the vec virtual table
carries no foreign key. -/
def emb_step1 (usingVec : Bool) (ts0 : List String) (s : Schema) : Schema :=
  if ts0.contains "repo_embeddings" then s
  else
    let s := { s with tables := s.tables ++ ["repo_embeddings"] }
    if usingVec then s
    else if ts0.contains "repos" then
      { s with fks := s.fks ++ [("repo_embeddings", "repo_id", "repos", "id")] }
    else s

/-- The `readme_chunk_embeddings` block: as `emb_step1`, except the vec
branch also creates the `readme_chunk_idx` index when missing. -/
def emb_step2 (usingVec : Bool) (ts0 : List String) (s : Schema) : Schema :=
  if ts0.contains "readme_chunk_embeddings" then s
  else
    let s := { s with tables := s.tables ++ ["readme_chunk_embeddings"] }
    if usingVec then
      if s.otherIndexes.contains "readme_chunk_idx" then s
      else { s with otherIndexes := s.otherIndexes ++ ["readme_chunk_idx"] }
    else if ts0.contains "repos" then
      { s with fks := s.fks ++ [("readme_chunk_embeddings", "repo_id", "repos", "id")] }
    else s

/-- The `repo_build_files` block: always a regular table, with the
`repo_id` foreign key when `repos` is in the snapshot. -/
def emb_step3 (ts0 : List String) (s : Schema) : Schema :=
  if ts0.contains "repo_build_files" then s
  else
    let s := { s with tables := s.tables ++ ["repo_build_files"] }
    if ts0.contains "repos" then
      { s with fks := s.fks ++ [("repo_build_files", "repo_id", "repos", "id")] }
    else s

/-- The `repo_metadata` block: always a regular table, with the
`repo_id` foreign key when `repos` is in the snapshot. -/
def emb_step4 (ts0 : List String) (s : Schema) : Schema :=
  if ts0.contains "repo_metadata" then s
  else
    let s := { s with tables := s.tables ++ ["repo_metadata"] }
    if ts0.contains "repos" then
      { s with fks := s.fks ++ [("repo_metadata", "repo_id", "repos", "id")] }
    else s

/-- `utils.ensure_embedding_tables` given the vec-availability outcome:
the four creation blocks in source order, all guarded against the one
snapshot of table names taken before any creation. -/
def ensure_embedding_tables (usingVec : Bool) (s : Schema) : Schema :=
  emb_step4 s.tables (emb_step3 s.tables (emb_step2 usingVec s.tables
    (emb_step1 usingVec s.tables s)))

/-- The FTS step of `ensure_db_shape`: against a snapshot of the table
names, enable FTS (creating the `{table}_fts` shadow table) for each
configured table that exists and is not yet FTS-enabled. -/
def fts_pass (s : Schema) : Schema :=
  let ts0 := s.tables
  { s with tables := s.tables ++
      ((FTS_CONFIG.filter
        (fun tc => ts0.contains tc.1 && !ts0.contains (tc.1 ++ "_fts"))).map
        (fun tc => tc.1 ++ "_fts")) }

/-- `db.create_view(name, sql, replace=True)`: replace the definition in
place, or add the view. -/
def setView (vs : List (String × Nat)) (n : String) (d : Nat) : List (String × Nat) :=
  if vs.any (fun kv => kv.1 == n) then
    vs.map (fun kv => if kv.1 == n then (n, d) else kv)
  else vs ++ [(n, d)]

/-- The view step of `ensure_db_shape`: (re)create each static view whose
required tables all exist. -/
def views_pass (s : Schema) : Schema :=
  VIEWS.enum.foldl
    (fun s iv =>
      if iv.2.2.all (fun t => s.tables.contains t) then
        { s with views := setView s.views iv.2.1 iv.1 }
      else s)
    s

/-- `utils.ensure_db_shape`: foreign keys, foreign-key indexes, embedding
tables (with the vec-availability probe hoisted out of
`ensure_embedding_tables`), FTS, then views. -/
def ensure_db_shape (env : VecEnv) (conn : Nat) (p : VecProc) (s : Schema) :
    VecProc × Schema :=
  let s := ensure_foreign_keys s
  let s := index_foreign_keys s
  let mv := maybe_load_sqlite_vec env conn p
  let s := ensure_embedding_tables mv.2 s
  let s := fts_pass s
  (mv.1, views_pass s)

/-- Well-formedness of the schema state: no duplicate table names,
foreign keys, indexes, or view names. -/
def schemaNodup (s : Schema) : Prop :=
  s.tables.Nodup ∧ s.fks.Nodup ∧ s.fkIndexes.Nodup ∧ s.otherIndexes.Nodup ∧
    (s.views.map (fun kv => kv.1)).Nodup

instance (s : Schema) : Decidable (schemaNodup s) := by
  unfold schemaNodup; infer_instance

/-- Dict keys are pairwise distinct (true of every parsed JSON object). -/
def rowKeysNodup : Row → Bool
  | [] => true
  | kv :: r => !(hasF r kv.1) && rowKeysNodup r

/-- A JSON object test. -/
def isObj : J → Bool
  | .obj _ => true
  | _ => false

/-- The in-place update map used by the `hasF` branch of `setF`. -/
def setMap (r : Row) (k : String) (v : J) : Row :=
  r.map (fun kv => if kv.1 == k then (k, v) else kv)

lemma setF_eq (r : Row) (k : String) (v : J) :
    setF r k v = if hasF r k then setMap r k v else r ++ [(k, v)] := rfl

lemma hasF_nil (k : String) : hasF [] k = false := rfl

lemma hasF_cons (kv : String × J) (r : Row) (k : String) :
    hasF (kv :: r) k = (kv.1 == k || hasF r k) := by
  simp [hasF]

lemma hasF_append (r1 r2 : Row) (k : String) :
    hasF (r1 ++ r2) k = (hasF r1 k || hasF r2 k) := by
  simp [hasF]

lemma getF_nil (k : String) : getF [] k = none := rfl

lemma getF_cons (kv : String × J) (r : Row) (k : String) :
    getF (kv :: r) k = if kv.1 == k then some kv.2 else getF r k := by
  simp only [getF, List.find?]
  cases h : kv.1 == k <;> simp [h]

lemma getF_append (r1 r2 : Row) (k : String) :
    getF (r1 ++ r2) k = if hasF r1 k then getF r1 k else getF r2 k := by
  induction r1 with
  | nil => simp [hasF_nil, getF_nil]
  | cons kv r1 ih =>
    rw [List.cons_append, getF_cons, getF_cons, hasF_cons]
    by_cases h : kv.1 == k <;> simp [h, ih]

lemma getF_eq_none_of_not_hasF {r : Row} {k : String} (h : hasF r k = false) :
    getF r k = none := by
  induction r with
  | nil => rfl
  | cons kv r ih =>
    rw [hasF_cons] at h
    rcases Bool.or_eq_false_iff.mp h with ⟨h1, h2⟩
    rw [getF_cons, h1, if_neg (by simp)]
    exact ih h2

lemma hasF_eq_true_of_getF {r : Row} {k : String} {v : J} (h : getF r k = some v) :
    hasF r k = true := by
  cases hh : hasF r k
  · rw [getF_eq_none_of_not_hasF hh] at h; cases h
  · rfl

lemma hasF_setMap (r : Row) (k v k2) : hasF (setMap r k v) k2 = hasF r k2 := by
  induction r with
  | nil => rfl
  | cons kv r ih =>
    simp only [setMap, List.map_cons]
    by_cases h : kv.1 == k
    · rw [if_pos h, hasF_cons, hasF_cons, ← ih]
      rw [beq_iff_eq] at h
      rw [h]
      rfl
    · rw [if_neg h, hasF_cons, hasF_cons, ← ih]
      rfl

lemma hasF_setF (r : Row) (k : String) (v : J) (k2 : String) :
    hasF (setF r k v) k2 = (hasF r k2 || k == k2) := by
  rw [setF_eq]
  by_cases h : hasF r k
  · rw [if_pos h, hasF_setMap]
    by_cases h2 : k == k2
    · rw [beq_iff_eq] at h2
      subst h2
      simp [h]
    · simp [h2]
  · rw [if_neg h, hasF_append, hasF_cons, hasF_nil]
    simp

lemma getF_setMap_self {r : Row} {k : String} (v : J) (h : hasF r k = true) :
    getF (setMap r k v) k = some v := by
  induction r with
  | nil => cases h
  | cons kv r ih =>
    rw [hasF_cons] at h
    simp only [setMap, List.map_cons]
    by_cases hk : kv.1 == k
    · rw [if_pos hk, getF_cons]
      simp
    · rw [if_neg hk, getF_cons, if_neg hk]
      exact ih (by simpa [hk] using h)

lemma getF_setF_self (r : Row) (k : String) (v : J) :
    getF (setF r k v) k = some v := by
  rw [setF_eq]
  by_cases h : hasF r k
  · rw [if_pos h]; exact getF_setMap_self v h
  · rw [if_neg h, getF_append, if_neg (by simp [h]), getF_cons, if_pos (by simp)]

lemma getF_setMap_ne {k k2 : String} (r : Row) (v : J) (h : (k == k2) = false) :
    getF (setMap r k v) k2 = getF r k2 := by
  induction r with
  | nil => rfl
  | cons kv r ih =>
    simp only [setMap, List.map_cons] at ih ⊢
    by_cases hk : kv.1 == k
    · have hkv : kv.1 = k := beq_iff_eq.mp hk
      rw [if_pos hk, getF_cons, getF_cons, ih, hkv]
      simp [h]
    · rw [if_neg hk, getF_cons, getF_cons, ih]

lemma getF_setF_ne (r : Row) (k : String) (v : J) (k2 : String) (h : (k == k2) = false) :
    getF (setF r k v) k2 = getF r k2 := by
  rw [setF_eq]
  by_cases hh : hasF r k
  · rw [if_pos hh, getF_setMap_ne r v h]
  · rw [if_neg hh, getF_append]
    by_cases h2 : hasF r k2
    · rw [if_pos h2]
    · rw [if_neg h2, getF_cons, getF_nil, if_neg (by simp [h]),
        getF_eq_none_of_not_hasF (by simpa using h2)]

lemma setMap_setMap (r : Row) (k : String) (v v2 : J) :
    setMap (setMap r k v) k v2 = setMap r k v2 := by
  induction r with
  | nil => rfl
  | cons kv r ih =>
    simp only [setMap, List.map_cons] at ih ⊢
    by_cases hk : kv.1 == k <;> simp [hk, ih] <;>
      (intro a b hab; by_cases h2 : a = k <;> simp [h2])

lemma setMap_eq_self_of_not_hasF {r : Row} {k : String} (v : J) (h : hasF r k = false) :
    setMap r k v = r := by
  induction r with
  | nil => rfl
  | cons kv r ih =>
    rw [hasF_cons] at h
    rcases Bool.or_eq_false_iff.mp h with ⟨h1, h2⟩
    simp only [setMap, List.map_cons] at ih ⊢
    rw [if_neg (by simp [h1]), ih h2]

lemma setF_setF (r : Row) (k : String) (v v2 : J) :
    setF (setF r k v) k v2 = setF r k v2 := by
  rw [setF_eq r, setF_eq]
  by_cases h : hasF r k
  · rw [if_pos h, if_pos (by rw [hasF_setMap]; exact h), setF_eq, if_pos h, setMap_setMap]
  · rw [if_neg h, if_pos (by rw [hasF_append, hasF_cons]; simp), setF_eq, if_neg h]
    unfold setMap
    rw [List.map_append]
    have h1 : setMap r k v2 = r := setMap_eq_self_of_not_hasF v2 (by simpa using h)
    unfold setMap at h1
    rw [h1]
    simp

lemma setMap_comm {k k2 : String} (r : Row) (v v2 : J) (h : (k2 == k) = false) :
    setMap (setMap r k2 v2) k v = setMap (setMap r k v) k2 v2 := by
  have hne : ¬(k2 = k) := by simpa using h
  induction r with
  | nil => rfl
  | cons kv r ih =>
    simp only [setMap, List.map_cons] at ih ⊢
    rw [ih]
    congr 1
    by_cases h1 : kv.1 = k2
    · simp [h1, hne, Ne.symm hne]
    · by_cases h2 : kv.1 = k
      · simp [h1, h2, hne, Ne.symm hne]
      · simp [h1, h2]

lemma setF_setF_comm {k k2 : String} (r : Row) (v v2 : J)
    (hr : hasF r k = true) (h : (k2 == k) = false) :
    setF (setF r k2 v2) k v = setF (setF r k v) k2 v2 := by
  by_cases h2 : hasF r k2
  · rw [setF_eq r k2, if_pos h2, setF_eq (setMap r k2 v2), hasF_setMap, if_pos hr,
      setF_eq r k, if_pos hr, setF_eq (setMap r k v), hasF_setMap, if_pos h2,
      setMap_comm _ _ _ h]
  · rw [setF_eq r k2, if_neg h2, setF_eq (r ++ [(k2, v2)]),
      hasF_append, hr, Bool.true_or, if_pos rfl, setF_eq r k, if_pos hr,
      setF_eq (setMap r k v), hasF_setMap, if_neg h2]
    unfold setMap
    rw [List.map_append]
    congr 1
    simp only [List.map_cons, List.map_nil]
    rw [if_neg (by simpa using h)]

lemma mergeRow_nil (b : Row) : mergeRow b [] = b := rfl

lemma mergeRow_cons (b : Row) (kv : String × J) (u : Row) :
    mergeRow b (kv :: u) = mergeRow (setF b kv.1 kv.2) u := rfl

lemma hasF_mergeRow (b u : Row) (k : String) :
    hasF (mergeRow b u) k = (hasF b k || hasF u k) := by
  induction u generalizing b with
  | nil => simp [mergeRow_nil, hasF_nil]
  | cons kv u ih =>
    rw [mergeRow_cons, ih, hasF_setF, hasF_cons]
    by_cases h1 : kv.1 == k
    · have : (kv.1 == k) = true := h1
      simp [this, Bool.or_comm, Bool.or_assoc]
    · simp [h1]

lemma setF_mergeRow_comm (u : Row) (k : String) (v : J) :
    ∀ b : Row, hasF b k = true → hasF u k = false →
      setF (mergeRow b u) k v = mergeRow (setF b k v) u := by
  induction u with
  | nil => intro b _ _; simp [mergeRow_nil]
  | cons kv u ih =>
    intro b hb hu
    rw [hasF_cons] at hu
    rcases Bool.or_eq_false_iff.mp hu with ⟨h1, h2⟩
    rw [mergeRow_cons, mergeRow_cons, ih _ (by rw [hasF_setF]; simp [hb]) h2,
      setF_setF_comm _ _ _ hb h1]

lemma mergeRow_self_merge (u : Row) (hu : rowKeysNodup u = true) :
    ∀ b : Row, mergeRow (mergeRow b u) u = mergeRow b u := by
  induction u with
  | nil => intro b; simp [mergeRow_nil]
  | cons kv u ih =>
    simp only [rowKeysNodup, Bool.and_eq_true] at hu
    rcases hu with ⟨h1, h2⟩
    intro b
    rw [mergeRow_cons, mergeRow_cons,
      setF_mergeRow_comm _ _ _ _ (by rw [hasF_setF]; simp) (by simpa using h1),
      setF_setF]
    exact ih h2 _

lemma getF_mergeRow_not_hasF (u : Row) {k : String} (hu : hasF u k = false) :
    ∀ b : Row, getF (mergeRow b u) k = getF b k := by
  induction u with
  | nil => intro b; rfl
  | cons kv u ih =>
    rw [hasF_cons] at hu
    rcases Bool.or_eq_false_iff.mp hu with ⟨h1, h2⟩
    intro b
    rw [mergeRow_cons, ih h2, getF_setF_ne _ _ _ _ h1]

lemma getF_mergeRow_of_getF (u : Row) {k : String} {v : J}
    (hu : rowKeysNodup u = true) (hv : getF u k = some v) :
    ∀ b : Row, getF (mergeRow b u) k = some v := by
  induction u with
  | nil => cases hv
  | cons kv u ih =>
    simp only [rowKeysNodup, Bool.and_eq_true] at hu
    rcases hu with ⟨h1, h2⟩
    rw [getF_cons] at hv
    intro b
    by_cases hk : kv.1 == k
    · rw [if_pos hk] at hv
      have e1 : kv.1 = k := beq_iff_eq.mp hk
      rw [mergeRow_cons,
        getF_mergeRow_not_hasF _ (by rw [← e1]; simpa using h1),
        e1, getF_setF_self]
      exact hv
    · rw [if_neg hk] at hv
      rw [mergeRow_cons, ih h2 hv]

lemma getF_isSome_of_hasF {r : Row} {k : String} (h : hasF r k = true) :
    ∃ v, getF r k = some v := by
  induction r with
  | nil => cases h
  | cons kv r ih =>
    rw [hasF_cons] at h
    rw [getF_cons]
    by_cases hk : kv.1 == k
    · exact ⟨kv.2, by rw [if_pos hk]⟩
    · rw [if_neg hk]
      exact ih (by simpa [hk] using h)

lemma getF_of_mem_nodup {r : Row} {kv : String × J}
    (hr : rowKeysNodup r = true) (hm : kv ∈ r) : getF r kv.1 = some kv.2 := by
  induction r with
  | nil => cases hm
  | cons h0 r ih =>
    simp only [rowKeysNodup, Bool.and_eq_true] at hr
    rcases hr with ⟨h1, h2⟩
    rw [getF_cons]
    rcases List.mem_cons.mp hm with he | ht
    · subst he
      rw [if_pos (by simp)]
    · by_cases hk : h0.1 == kv.1
      · have e : h0.1 = kv.1 := beq_iff_eq.mp hk
        have hh : hasF r h0.1 = true := by
          unfold hasF
          exact List.any_eq_true.mpr ⟨kv, ht, by rw [e]; simp⟩
        rw [hh] at h1
        simp at h1
      · rw [if_neg hk]
        exact ih h2 ht

lemma setF_eq_self_of_getF {r : Row} {k : String} {v : J}
    (hr : rowKeysNodup r = true) (hg : getF r k = some v) : setF r k v = r := by
  rw [setF_eq, if_pos (hasF_eq_true_of_getF hg)]
  induction r with
  | nil => cases hg
  | cons kv r ih =>
    simp only [rowKeysNodup, Bool.and_eq_true] at hr
    rcases hr with ⟨h1, h2⟩
    rw [getF_cons] at hg
    simp only [setMap, List.map_cons]
    by_cases hk : kv.1 == k
    · rw [if_pos hk] at hg
      have e : kv.1 = k := beq_iff_eq.mp hk
      rw [if_pos hk]
      have : setMap r k v = r := setMap_eq_self_of_not_hasF v (by rw [← e]; simpa using h1)
      unfold setMap at this
      rw [this]
      cases hg
      rw [← e]
    · rw [if_neg hk] at hg
      rw [if_neg hk]
      have := ih h2 hg
      unfold setMap at this
      rw [this]

lemma mergeRow_fix (r : Row) (hr : rowKeysNodup r = true) :
    ∀ u : Row, (∀ kv ∈ u, getF r kv.1 = some kv.2) → mergeRow r u = r := by
  intro u
  induction u with
  | nil => intro _; rfl
  | cons kv u ih =>
    intro hu
    rw [mergeRow_cons, setF_eq_self_of_getF hr (hu kv (by simp))]
    exact ih (fun kv2 h2 => hu kv2 (by simp [h2]))

lemma mergeRow_self (r : Row) (hr : rowKeysNodup r = true) : mergeRow r r = r :=
  mergeRow_fix r hr r (fun kv hm => getF_of_mem_nodup hr hm)

/-- Whether a row carries every key column (true of real payload rows). -/
def hasCols (r : Row) (cols : List String) : Bool :=
  cols.all (fun c => hasF r c)

lemma keyOf_mergeRow {r : Row} {cols : List String} (b : Row)
    (hr : rowKeysNodup r = true) (hc : hasCols r cols = true) :
    keyOf cols (mergeRow b r) = keyOf cols r := by
  unfold keyOf
  apply List.map_congr_left
  intro c hcm
  have hcc : hasF r c = true := by
    have := List.all_eq_true.mp hc c hcm
    simpa using this
  obtain ⟨v, hv⟩ := getF_isSome_of_hasF hcc
  rw [hv, getF_mergeRow_of_getF r hr hv b]

lemma filter_idem {α : Type} (p : α → Bool) (l : List α) :
    (l.filter p).filter p = l.filter p := by
  induction l with
  | nil => rfl
  | cons x l ih =>
    by_cases h : p x <;> simp [List.filter_cons, h, ih]

lemma insertReplaceK_idem (t : List Row) (cols : List String) (r : Row) :
    insertReplaceK (insertReplaceK t cols r) cols r = insertReplaceK t cols r := by
  unfold insertReplaceK
  rw [List.filter_append, filter_idem]
  have h2 : List.filter (fun row => keyOf cols row != keyOf cols r) [r] = [] := by
    simp [List.filter_cons]
  rw [h2, List.append_nil]

lemma countKey_insertReplaceK (t : List Row) (cols : List String) (r : Row) :
    countKey (insertReplaceK t cols r) cols (keyOf cols r) = 1 := by
  unfold countKey insertReplaceK
  rw [List.filter_append]
  have h1 : List.filter (fun row => keyOf cols row == keyOf cols r)
      (List.filter (fun row => keyOf cols row != keyOf cols r) t) = [] := by
    rw [List.filter_eq_nil_iff]
    intro a ha hp
    have hne := (List.mem_filter.mp ha).2
    rw [bne_iff_ne] at hne
    exact hne (beq_iff_eq.mp hp)
  rw [h1, List.nil_append]
  simp [List.filter_cons]

lemma map_eq_self_of_eq {α : Type} (l : List α) (f : α → α) (h : ∀ a ∈ l, f a = a) :
    l.map f = l := by
  induction l with
  | nil => rfl
  | cons x l ih => simp [h x (by simp), ih (fun a ha => h a (by simp [ha]))]

lemma upsertK_idem (t : List Row) (cols : List String) (r : Row)
    (hr : rowKeysNodup r = true) (hc : hasCols r cols = true) :
    upsertK (upsertK t cols r) cols r = upsertK t cols r := by
  unfold upsertK
  by_cases h : t.any (fun row => keyOf cols row == keyOf cols r)
  · rw [if_pos h]
    obtain ⟨row0, hm0, hp0⟩ := List.any_eq_true.mp h
    have hany2 : (t.map (fun row => if keyOf cols row == keyOf cols r then mergeRow row r else row)).any
        (fun row => keyOf cols row == keyOf cols r) = true := by
      apply List.any_eq_true.mpr
      refine ⟨mergeRow row0 r, List.mem_map.mpr ⟨row0, hm0, by rw [if_pos hp0]⟩, ?_⟩
      rw [keyOf_mergeRow _ hr hc]
      simpa using hp0
    rw [if_pos hany2, List.map_map]
    apply List.map_congr_left
    intro row _
    simp only [Function.comp]
    by_cases hp : (keyOf cols row == keyOf cols r) = true
    · have hP2 : (keyOf cols (mergeRow row r) == keyOf cols r) = true := by
        rw [keyOf_mergeRow _ hr hc]; simp
      simp [hp, hP2, mergeRow_self_merge r hr]
    · simp [hp]
  · rw [if_neg h]
    have hany2 : (t ++ [r]).any (fun row => keyOf cols row == keyOf cols r) = true := by
      apply List.any_eq_true.mpr
      exact ⟨r, by simp, by simp⟩
    rw [if_pos hany2, List.map_append]
    have hmapid : t.map (fun row => if keyOf cols row == keyOf cols r then mergeRow row r else row) = t := by
      apply map_eq_self_of_eq
      intro row hm
      rw [if_neg (by
        cases hp : keyOf cols row == keyOf cols r
        · simp [hp]
        · exact absurd (List.any_eq_true.mpr ⟨row, hm, hp⟩) h)]
    rw [hmapid]
    simp only [List.map_cons, List.map_nil]
    rw [if_pos (by simp), mergeRow_self r hr]

lemma countP_key_eq_one {t : List Row} {cols : List String} {ks : List (Option J)}
    (ht : nodupKeys t cols) (h : t.any (fun row => keyOf cols row == ks) = true) :
    t.countP (fun row => keyOf cols row == ks) = 1 := by
  induction t with
  | nil => cases h
  | cons t0 t ih =>
    unfold nodupKeys at ht ih
    simp only [List.map_cons, List.nodup_cons] at ht
    rw [List.countP_cons]
    by_cases hp : (keyOf cols t0 == ks) = true
    · have hzero : t.countP (fun row => keyOf cols row == ks) = 0 := by
        rw [List.countP_eq_zero]
        intro a ha
        intro hpa
        have e1 : keyOf cols a = ks := beq_iff_eq.mp hpa
        have e0 : keyOf cols t0 = ks := beq_iff_eq.mp hp
        exact ht.1 (e0 ▸ e1 ▸ List.mem_map.mpr ⟨a, ha, rfl⟩)
      simp [hp, hzero]
    · simp only [hp, if_false]
      rcases List.any_eq_true.mp h with ⟨a, hm, hpa⟩
      rcases List.mem_cons.mp hm with he | hm1
      · exact absurd (he ▸ hpa) (by simpa using hp)
      · simpa using ih ht.2 (List.any_eq_true.mpr ⟨a, hm1, hpa⟩)

lemma countKey_upsertK (t : List Row) (cols : List String) (r : Row)
    (hr : rowKeysNodup r = true) (hc : hasCols r cols = true)
    (ht : nodupKeys t cols) :
    countKey (upsertK t cols r) cols (keyOf cols r) = 1 := by
  unfold upsertK countKey
  rw [← List.countP_eq_length_filter]
  by_cases h : t.any (fun row => keyOf cols row == keyOf cols r)
  · rw [if_pos h, List.countP_map]
    have hpt : ∀ row,
        ((fun row => keyOf cols row == keyOf cols r) ∘
          (fun row => if keyOf cols row == keyOf cols r then mergeRow row r else row)) row =
        (fun row => keyOf cols row == keyOf cols r) row := by
      intro row
      simp only [Function.comp]
      by_cases hp : (keyOf cols row == keyOf cols r) = true
      · rw [if_pos hp, keyOf_mergeRow _ hr hc]
        simp [hp]
      · rw [if_neg hp]
    rw [funext hpt]
    exact countP_key_eq_one ht h
  · rw [if_neg h, List.countP_append]
    have h0 : t.countP (fun row => keyOf cols row == keyOf cols r) = 0 := by
      rw [List.countP_eq_zero]
      intro a ha hpa
      exact absurd (List.any_eq_true.mpr ⟨a, ha, hpa⟩) h
    rw [h0]
    simp [List.countP_cons]

/-- Validity of a raw user payload for the modelled domain: `None`, or an
object with distinct keys, an `id`, and a non-null `name` or a `login` to
fall back on (`save_user` reads `to_save["login"]` in the fallback). -/
def validUser (u : J) : Bool :=
  u == .null ||
    (isObj u && rowKeysNodup (objFields u) && hasF (objFields u) "id" &&
      (getFD (objFields u) "name" != .null || hasF (objFields u) "login"))

/-- Validity of a raw license payload: `None` or an object with distinct
keys and a `key`. -/
def validLicense (l : J) : Bool :=
  l == .null || (isObj l && rowKeysNodup (objFields l) && hasF (objFields l) "key")

/-- Validity of a raw repo payload: an object with distinct keys, an `id`,
an `owner` and a `license` (looked up unconditionally by `save_repo`), each
valid when present. -/
def validRepo (r : J) : Bool :=
  isObj r && rowKeysNodup (objFields r) && hasF (objFields r) "id" &&
    hasF (objFields r) "owner" && validUser (getFD (objFields r) "owner") &&
    hasF (objFields r) "license" && validLicense (getFD (objFields r) "license") &&
    (!hasF (objFields r) "organization" || validUser (getFD (objFields r) "organization"))

/-- Validity of a raw milestone payload. -/
def validMilestone (m : J) : Bool :=
  isObj m && rowKeysNodup (objFields m) && hasF (objFields m) "id" &&
    hasF (objFields m) "creator" && validUser (getFD (objFields m) "creator")

/-- Validity of a raw issue payload: the keys `save_issues` reads
unconditionally must exist, and nested sub-entities must be valid. -/
def validIssue (i : J) : Bool :=
  isObj i && rowKeysNodup (objFields i) && hasF (objFields i) "id" &&
    hasF (objFields i) "user" && validUser (getFD (objFields i) "user") &&
    hasF (objFields i) "labels" &&
    hasF (objFields i) "milestone" &&
    (!truthy (getFD (objFields i) "milestone") ||
      validMilestone (getFD (objFields i) "milestone")) &&
    hasF (objFields i) "assignee" &&
    (!truthy (getFD (objFields i) "assignee") ||
      validUser (getFD (objFields i) "assignee"))

/-- Validity of a raw pull-request payload. -/
def validPullRequest (p : J) : Bool :=
  isObj p && rowKeysNodup (objFields p) && hasF (objFields p) "id" &&
    hasF (objFields p) "user" && validUser (getFD (objFields p) "user") &&
    hasF (objFields p) "labels" &&
    hasF (objFields p) "milestone" &&
    (!truthy (getFD (objFields p) "milestone") ||
      validMilestone (getFD (objFields p) "milestone")) &&
    hasF (objFields p) "assignee" &&
    (!truthy (getFD (objFields p) "assignee") ||
      validUser (getFD (objFields p) "assignee")) &&
    hasF (objFields p) "active_lock_reason" &&
    (!truthy (getFD (objFields p) "merged_by") ||
      validUser (getFD (objFields p) "merged_by"))

/-- Validity of a raw commit payload: `sha` plus the nested
`commit.author.date` / `commit.committer.date` structure, and valid user
objects when `author` / `committer` resolved. -/
def validCommit (c : J) : Bool :=
  isObj c && rowKeysNodup (objFields c) && hasF (objFields c) "sha" &&
    (!truthy (getFD (objFields c) "author") || validUser (getFD (objFields c) "author")) &&
    (!truthy (getFD (objFields c) "committer") ||
      validUser (getFD (objFields c) "committer"))

/-- Validity of a raw release payload: distinct keys, an `id`, an `assets`
key (popped unconditionally) and a valid `author`. -/
def validRelease (r : J) : Bool :=
  isObj r && rowKeysNodup (objFields r) && hasF (objFields r) "id" &&
    hasF (objFields r) "assets" && validUser (getFD (objFields r) "author")

/-- Validity of a parsed workflow document for the modelled domain: no
top-level `id` key (the insert's surrogate primary key), distinct keys,
`jobs` (when present and truthy) an object of job-name to object job
bodies none of which carries an `id`/`workflow`/`repo` override, and each
step an object with no `id`/`job` override. -/
def validWorkflowDoc (doc : YDoc) : Bool :=
  (doc.map (fun kv => kv.1)).Nodup &&
    !(doc.any (fun kv => kv.1 == some "id")) &&
    ((getY doc (some "jobs")).getD .null == .null ||
      (isObj ((getY doc (some "jobs")).getD .null) &&
        (objFields ((getY doc (some "jobs")).getD .null)).all (fun jkv =>
          isObj jkv.2 &&
            !(hasF (objFields jkv.2) "id") && !(hasF (objFields jkv.2) "workflow") &&
            (arrElems (getFD (objFields jkv.2) "steps")).all (fun st =>
              isObj st && !(hasF (objFields st) "id") && !(hasF (objFields st) "job")))))

lemma save_user_snd (db : Db) (u : J) : (save_user db u).2 = user_pk u := by
  cases u <;> rfl

lemma save_license_snd (db : Db) (l : J) : (save_license db l).2 = license_pk l := by
  cases l <;> rfl

lemma save_user_keeps (db : Db) (u : J) :
    (save_user db u).1.repos = db.repos ∧ (save_user db u).1.issues = db.issues ∧
    (save_user db u).1.pull_requests = db.pull_requests ∧
    (save_user db u).1.commits = db.commits ∧ (save_user db u).1.releases = db.releases ∧
    (save_user db u).1.raw_authors = db.raw_authors ∧
    (save_user db u).1.workflows = db.workflows := by
  cases u <;> simp [save_user]

lemma save_license_keeps (db : Db) (l : J) :
    (save_license db l).1.repos = db.repos := by
  cases l <;> simp [save_license]

lemma save_milestone_snd (db : Db) (m : J) (rid : J) :
    (save_milestone db m rid).2 = milestone_pk m rid := rfl

lemma save_milestone_keeps (db : Db) (m rid : J) :
    (save_milestone db m rid).1.issues = db.issues ∧
    (save_milestone db m rid).1.pull_requests = db.pull_requests := by
  simp only [save_milestone]
  simp [(save_user_keeps db (getFD (objFields m) "creator")).2.1,
    (save_user_keeps db (getFD (objFields m) "creator")).2.2.1]

lemma save_commit_author_snd (db : Db) (a : J) :
    (save_commit_author db a).2 = raw_author_pk a := rfl

lemma save_commit_author_keeps (db : Db) (a : J) :
    (save_commit_author db a).1.commits = db.commits ∧
    (save_commit_author db a).1.users = db.users := ⟨rfl, rfl⟩

lemma m2m_issue_label_keeps (db : Db) (i l : J) :
    (m2m_issue_label db i l).issues = db.issues := rfl

lemma m2m_issue_fold_keeps (labels : List J) (db : Db) (i : J) :
    (labels.foldl (fun db label => m2m_issue_label db i label) db).issues = db.issues := by
  induction labels generalizing db with
  | nil => rfl
  | cons l labels ih => rw [List.foldl_cons, ih, m2m_issue_label_keeps]

lemma m2m_pr_label_keeps (db : Db) (i l : J) :
    (m2m_pull_request_label db i l).pull_requests = db.pull_requests := rfl

lemma m2m_pr_fold_keeps (labels : List J) (db : Db) (i : J) :
    (labels.foldl (fun db label => m2m_pull_request_label db i label) db).pull_requests =
      db.pull_requests := by
  induction labels generalizing db with
  | nil => rfl
  | cons l labels ih => rw [List.foldl_cons, ih, m2m_pr_label_keeps]

lemma save_user_users (db : Db) (u : J) (h : (u == .null) = false) :
    (save_user db u).1.users = upsertK db.users ["id"] (user_to_save u) := by
  cases u <;> simp_all [save_user]

lemma save_repo_repos (db : Db) (repo : J) :
    (save_repo db repo).1.repos = insertReplaceK db.repos ["id"] (repo_to_save repo) := by
  simp only [save_repo]
  by_cases h : hasF ((objFields repo).filter
      (fun kv => kv.1 == "html_url" || !kv.1.endsWith "url")) "organization"
  · simp only [h, if_true]
    rw [(save_user_keeps _ _).1, save_license_keeps, (save_user_keeps _ _).1]
  · rw [if_neg (by simp [h])]
    rw [save_license_keeps, (save_user_keeps _ _).1]

lemma save_issue_one_issues (db : Db) (rid : J) (original : J) :
    (save_issue_one db rid original).issues =
      insertReplaceK db.issues ["id"] (issue_row original rid) := by
  simp only [save_issue_one]
  rw [m2m_issue_fold_keeps]
  simp only []
  congr 1
  by_cases hm : truthy (getFD (objFields original) "milestone") <;>
    by_cases ha : truthy (getFD (objFields original) "assignee") <;>
      simp [hm, ha, (save_user_keeps _ _).2.1, (save_milestone_keeps _ _ _).1]

lemma save_pull_request_one_prs (db : Db) (rid : J) (original : J) :
    (save_pull_request_one db rid original).pull_requests =
      insertReplaceK db.pull_requests ["id"] (pull_request_row original rid) := by
  simp only [save_pull_request_one]
  rw [m2m_pr_fold_keeps]
  simp only []
  congr 1
  by_cases hb : truthy (getFD (objFields original) "merged_by") <;>
    by_cases hm : truthy (getFD (objFields original) "milestone") <;>
      by_cases ha : truthy (getFD (objFields original) "assignee") <;>
        simp [hb, hm, ha, (save_user_keeps _ _).2.2.1, (save_milestone_keeps _ _ _).2]

lemma save_commit_one_commits (db : Db) (rid : J) (commit : J) :
    (save_commit_one db rid commit).commits =
      insertReplaceK db.commits ["sha"] (commit_row commit rid) := by
  simp only [save_commit_one]
  congr 1
  by_cases hau : truthy (getFD (objFields commit) "author") <;>
    by_cases hc : truthy (getFD (objFields commit) "committer") <;>
      simp [hau, hc, (save_user_keeps _ _).2.2.2.1, (save_commit_author_keeps _ _).1]

lemma uploader_fold_keeps (assets : List J) (db : Db) :
    (assets.foldl (fun db asset => (save_user db (getFD (objFields asset) "uploader")).1) db).releases =
      db.releases := by
  induction assets generalizing db with
  | nil => rfl
  | cons a assets ih => rw [List.foldl_cons, ih, (save_user_keeps _ _).2.2.2.2.1]

lemma save_release_one_releases (db : Db) (rid : J) (original : J) :
    (save_release_one db rid original).releases =
      insertReplaceK db.releases ["id"] (release_row original rid) := by
  simp only [save_release_one]
  rw [uploader_fold_keeps]
  simp only []
  congr 1
  rw [(save_user_keeps _ _).2.2.2.2.1]

lemma hasF_of_filter {r : Row} {p : String × J → Bool} {k : String}
    (h : hasF (r.filter p) k = true) : hasF r k = true := by
  rcases List.any_eq_true.mp h with ⟨kv, hm, hk⟩
  exact List.any_eq_true.mpr ⟨kv, (List.mem_filter.mp hm).1, hk⟩

lemma hasF_filter_of_keep {r : Row} {p : String × J → Bool} {k : String}
    (hp : ∀ v, p (k, v) = true) : hasF (r.filter p) k = hasF r k := by
  induction r with
  | nil => rfl
  | cons kv r ih =>
    rw [List.filter_cons]
    by_cases hpk : p kv = true
    · rw [if_pos hpk, hasF_cons, hasF_cons, ih]
    · have hne : (kv.1 == k) = false := by
        cases hq : kv.1 == k
        · rfl
        · have e : kv.1 = k := beq_iff_eq.mp hq
          exact absurd (by rw [show kv = (k, kv.2) from by rw [← e]]; exact hp kv.2) hpk
      rw [if_neg hpk, hasF_cons, hne, Bool.false_or, ih]

lemma rowKeysNodup_filter {r : Row} (p : String × J → Bool)
    (h : rowKeysNodup r = true) : rowKeysNodup (r.filter p) = true := by
  induction r with
  | nil => rfl
  | cons kv r ih =>
    simp only [rowKeysNodup, Bool.and_eq_true] at h
    rw [List.filter_cons]
    by_cases hpk : p kv = true
    · rw [if_pos hpk]
      simp only [rowKeysNodup, Bool.and_eq_true]
      refine ⟨?_, ih h.2⟩
      cases hq : hasF (r.filter p) kv.1
      · rfl
      · rw [hasF_of_filter hq] at h
        simpa using h.1
    · rw [if_neg hpk]
      exact ih h.2

lemma keys_setMap (r : Row) (k : String) (v : J) :
    (setMap r k v).map Prod.fst = r.map Prod.fst := by
  induction r with
  | nil => rfl
  | cons kv r ih =>
    simp only [setMap, List.map_cons] at ih ⊢
    by_cases hk : kv.1 == k
    · rw [if_pos hk, ih]
      simp [beq_iff_eq.mp hk]
    · rw [if_neg hk, ih]

lemma rowKeysNodup_setMap (r : Row) (k : String) (v : J)
    (h : rowKeysNodup r = true) : rowKeysNodup (setMap r k v) = true := by
  induction r with
  | nil => rfl
  | cons kv r ih =>
    simp only [rowKeysNodup, Bool.and_eq_true] at h
    simp only [setMap, List.map_cons]
    by_cases hk : kv.1 == k
    · simp only [if_pos hk, rowKeysNodup, Bool.and_eq_true]
      have hm := ih h.2
      unfold setMap at hm
      refine ⟨?_, hm⟩
      rw [show (hasF (List.map (fun kv => if (kv.1 == k) = true then (k, v) else kv) r) k) =
          hasF (setMap r k v) k from rfl, hasF_setMap,
        ← beq_iff_eq.mp hk]
      simpa using h.1
    · simp only [if_neg hk, rowKeysNodup, Bool.and_eq_true]
      have hm := ih h.2
      unfold setMap at hm
      refine ⟨?_, hm⟩
      rw [show (hasF (List.map (fun kv => if (kv.1 == k) = true then (k, v) else kv) r) kv.1) =
          hasF (setMap r k v) kv.1 from rfl, hasF_setMap]
      simpa using h.1

lemma rowKeysNodup_append_one {r : Row} {k : String} (v : J)
    (h : rowKeysNodup r = true) (hk : hasF r k = false) :
    rowKeysNodup (r ++ [(k, v)]) = true := by
  induction r with
  | nil => simp [rowKeysNodup, hasF_nil]
  | cons kv r ih =>
    simp only [rowKeysNodup, Bool.and_eq_true] at h
    rw [hasF_cons] at hk
    rcases Bool.or_eq_false_iff.mp hk with ⟨h1, h2⟩
    simp only [List.cons_append, rowKeysNodup, Bool.and_eq_true]
    refine ⟨?_, ih h.2 h2⟩
    have he : List.append r [(k, v)] = r ++ [(k, v)] := rfl
    rw [he, hasF_append]
    have hr1 : hasF r kv.1 = false := by simpa using h.1
    have hr2 : hasF [(k, v)] kv.1 = false := by
      rw [hasF_cons, hasF_nil]
      cases hq : k == kv.1
      · rfl
      · rw [beq_iff_eq.mp hq] at h1
        simp at h1
    rw [hr1, hr2]
    rfl

lemma rowKeysNodup_setF (r : Row) (k : String) (v : J)
    (h : rowKeysNodup r = true) : rowKeysNodup (setF r k v) = true := by
  rw [setF_eq]
  by_cases hk : hasF r k
  · rw [if_pos hk]
    exact rowKeysNodup_setMap r k v h
  · rw [if_neg hk]
    exact rowKeysNodup_append_one v h (by simpa using hk)

lemma user_to_save_nodup {u : J} (h : validUser u = true) (hn : (u == .null) = false) :
    rowKeysNodup (user_to_save u) = true := by
  unfold validUser at h
  rw [hn, Bool.false_or] at h
  simp only [Bool.and_eq_true] at h
  unfold user_to_save
  by_cases hname : getFD ((objFields u).filter
      (fun kv => kv.1 == "avatar_url" || kv.1 == "html_url" || !kv.1.endsWith "url")) "name" == .null
  · rw [if_pos hname]
    exact rowKeysNodup_setF _ _ _ (rowKeysNodup_filter _ h.1.1.2)
  · rw [if_neg hname]
    exact rowKeysNodup_filter _ h.1.1.2

lemma foldl_max_init_le (l : List Row) (init : Int) :
    init ≤ l.foldl (fun m r => max m (idNum r)) init := by
  induction l generalizing init with
  | nil => exact le_refl _
  | cons r l ih => exact le_trans (le_max_left _ _) (ih _)

lemma foldl_max_mono (l : List Row) {a b : Int} (h : a ≤ b) :
    l.foldl (fun m r => max m (idNum r)) a ≤ l.foldl (fun m r => max m (idNum r)) b := by
  induction l generalizing a b with
  | nil => exact h
  | cons r l ih => exact ih (max_le_max h (le_refl _))

lemma idNum_le_fold {t : List Row} {row : Row} (hm : row ∈ t) :
    idNum row ≤ t.foldl (fun m r => max m (idNum r)) 0 := by
  induction t with
  | nil => cases hm
  | cons r t ih =>
    rcases List.mem_cons.mp hm with he | hm2
    · subst he
      exact le_trans (le_max_right _ _) (foldl_max_init_le t _)
    · rw [List.foldl_cons]
      exact le_trans (ih hm2) (foldl_max_mono t (le_max_left _ _))

lemma allocId_le_append (t u : List Row) : allocId t ≤ allocId (t ++ u) := by
  unfold allocId
  rw [List.foldl_append]
  exact add_le_add_right (foldl_max_init_le u _) 1

lemma idNum_lt_allocId_append {t u : List Row} {row : Row} (hm : row ∈ t) :
    idNum row < allocId (t ++ u) := by
  calc idNum row ≤ t.foldl (fun m r => max m (idNum r)) 0 := idNum_le_fold hm
    _ < allocId t := by unfold allocId; omega
    _ ≤ allocId (t ++ u) := allocId_le_append t u

lemma getFD_id_ne_of_mem {t u : List Row} {row : Row} {n : Int} (hm : row ∈ t)
    (hn : allocId (t ++ u) ≤ n) : getFD row "id" ≠ J.num n := by
  intro he
  have hi : idNum row = n := by
    unfold getFD at he
    cases hg : getF row "id" with
    | none => rw [hg] at he; simp at he
    | some v =>
      rw [hg] at he
      simp only [Option.getD_some] at he
      unfold idNum
      rw [hg, he]
  have := idNum_lt_allocId_append (u := u) hm
  omega

lemma getF_id_ne_of_mem {t u : List Row} {row : Row} {n : Int} (hm : row ∈ t)
    (hn : allocId (t ++ u) ≤ n) : getF row "id" ≠ some (J.num n) := by
  intro he
  exact getFD_id_ne_of_mem hm hn (by unfold getFD; rw [he]; rfl)

lemma user_to_save_has_id {u : J} (h : validUser u = true) (hn : (u == .null) = false) :
    hasCols (user_to_save u) ["id"] = true := by
  unfold validUser at h
  rw [hn, Bool.false_or] at h
  simp only [Bool.and_eq_true] at h
  unfold user_to_save hasCols
  simp only [List.all_cons, List.all_nil, Bool.and_true]
  have hid : hasF ((objFields u).filter
      (fun kv => kv.1 == "avatar_url" || kv.1 == "html_url" || !kv.1.endsWith "url")) "id" = true := by
    rw [hasF_filter_of_keep (by intro v; rfl)]
    exact h.1.2
  by_cases hname : getFD ((objFields u).filter
      (fun kv => kv.1 == "avatar_url" || kv.1 == "html_url" || !kv.1.endsWith "url")) "name" == .null
  · rw [if_pos hname, hasF_setF, hid, Bool.true_or]
  · rw [if_neg hname]
    exact hid

lemma hasF_popF_false {jd : Row} {k k2 : String} (h : hasF jd k = false) :
    hasF (popF jd k2) k = false := by
  cases hq : hasF (popF jd k2) k
  · rfl
  · rw [hasF_of_filter hq] at h
    cases h

lemma workflow_row_id (wid : Int) (rid : J) (f : String) (doc : YDoc) :
    getF (workflow_row wid rid f doc) "id" = some (J.num wid) := by
  unfold workflow_row
  rw [List.singleton_append, getF_cons, if_pos (by simp)]

lemma workflow_row_match (wid : Int) (rid : J) (f : String) (doc : YDoc) :
    matchRF rid f (workflow_row wid rid f doc) = true := by
  unfold matchRF workflow_row
  rw [List.singleton_append, getF_cons, getF_cons,
    if_neg (by simp), if_neg (by simp),
    getF_mergeRow_of_getF _ (by rfl) (by rfl) _,
    getF_mergeRow_of_getF _ (by rfl) (by rfl) _]
  simp

lemma job_row_id (wid jid : Int) (rid : J) (jobName : String) (jd : Row) :
    getF (job_row wid jid rid jobName jd) "id" = some (J.num jid) := by
  unfold job_row
  rw [List.singleton_append, getF_cons, if_pos (by simp)]

lemma job_row_workflow (wid jid : Int) (rid : J) (jobName : String) (jd : Row)
    (h : hasF jd "workflow" = false) :
    getF (job_row wid jid rid jobName jd) "workflow" = some (J.num wid) := by
  unfold job_row
  rw [List.singleton_append, getF_cons, if_neg (by simp),
    getF_mergeRow_not_hasF _ (hasF_popF_false h), getF_cons, if_pos (by simp)]

lemma step_row_job (sid jid : Int) (rid : J) (i : Nat) (st : J)
    (h : hasF (objFields st) "job" = false) :
    getF (step_row sid jid rid i st) "job" = some (J.num jid) := by
  unfold step_row
  rw [List.singleton_append, getF_cons, if_neg (by simp),
    getF_mergeRow_not_hasF _ h, getF_cons, if_neg (by simp), getF_cons, if_pos (by simp)]

lemma insert_steps_fold_shape (jid : Int) (rid : J) (l : List (Nat × J))
    (hl : ∀ ist ∈ l, hasF (objFields ist.2) "job" = false) :
    ∀ t : List Row,
      ∃ G, (l.foldl (fun t ist => t ++ [step_row (allocId t) jid rid ist.1 ist.2]) t) = t ++ G ∧
        (∀ g ∈ G, getFD g "job" = J.num jid) ∧ G.length = l.length := by
  induction l with
  | nil => intro t; exact ⟨[], by simp, by simp, rfl⟩
  | cons ist l ih =>
    intro t
    obtain ⟨G, hG, hGj, hGl⟩ :=
      ih (fun i hi => hl i (by simp [hi])) (t ++ [step_row (allocId t) jid rid ist.1 ist.2])
    refine ⟨step_row (allocId t) jid rid ist.1 ist.2 :: G, ?_, ?_, by simp [hGl]⟩
    · rw [List.foldl_cons, hG]
      simp
    · intro g hg
      rcases List.mem_cons.mp hg with he | hm
      · subst he
        unfold getFD
        rw [step_row_job _ _ _ _ _ (hl ist (by simp))]
        rfl
      · exact hGj g hm

lemma insert_steps_shape (t : List Row) (jid : Int) (rid : J) (steps : List J)
    (hs : ∀ st ∈ steps, hasF (objFields st) "job" = false) :
    ∃ G, insert_steps t jid rid steps = t ++ G ∧
      (∀ g ∈ G, getFD g "job" = J.num jid) ∧ G.length = steps.length := by
  obtain ⟨G, hG, hGj, hGl⟩ := insert_steps_fold_shape jid rid steps.enum
    (fun ist hi => hs ist.2 (by
      have := List.mem_enum_iff_getElem?.mp hi
      exact List.getElem?_mem this)) t
  exact ⟨G, hG, hGj, by rw [hGl, List.enum_length]⟩

lemma jobs_fold_shape (wid : Int) (rid : J) (jobList : List (String × J))
    (hv : ∀ jkv ∈ jobList, hasF (objFields jkv.2) "workflow" = false ∧
      ∀ st ∈ job_steps (objFields jkv.2), hasF (objFields st) "job" = false) :
    ∀ db : Db, ∃ F G,
      (jobList.foldl
        (fun db jkv =>
          let jd := objFields jkv.2
          let jid := allocId db.jobs
          let db := { db with jobs := (db.jobs ++ [job_row wid jid rid jkv.1 jd]) }
          { db with steps := (insert_steps db.steps jid rid (job_steps jd)) })
        db) =
        { db with jobs := (db.jobs ++ F), steps := (db.steps ++ G) } ∧
      (∀ jb ∈ F, getF jb "workflow" = some (J.num wid) ∧
        ∃ n : Int, getF jb "id" = some (J.num n) ∧ allocId db.jobs ≤ n) ∧
      (∀ g ∈ G, ∃ jb ∈ F, getFD g "job" = getFD jb "id") ∧
      F.length = jobList.length ∧
      G.length = (jobList.map (fun jkv => (job_steps (objFields jkv.2)).length)).sum := by
  induction jobList with
  | nil =>
    intro db
    exact ⟨[], [], by simp, by simp, by simp, rfl, rfl⟩
  | cons jkv jobList ih =>
    intro db
    rcases hv jkv (by simp) with ⟨hw, hsteps⟩
    set jid := allocId db.jobs with hjid
    set jrow := job_row wid jid rid jkv.1 (objFields jkv.2) with hjrow
    obtain ⟨G0, hG0, hG0j, hG0l⟩ :=
      insert_steps_shape db.steps jid rid (job_steps (objFields jkv.2)) hsteps
    set dbA : Db := { db with jobs := (db.jobs ++ [jrow]), steps := (db.steps ++ G0) }
      with hdbA
    obtain ⟨F, G, hfold, hF, hG, hFl, hGl⟩ := ih (fun j hj => hv j (by simp [hj])) dbA
    refine ⟨jrow :: F, G0 ++ G, ?_, ?_, ?_, by simp [hFl], by simp [hG0l, hGl]⟩
    · rw [List.foldl_cons]
      simp only []
      rw [hG0]
      have harg : ({ db with jobs := (db.jobs ++ [job_row wid jid rid jkv.1 (objFields jkv.2)]), steps := (db.steps ++ G0) } : Db) = dbA := by
        rw [hdbA, ← hjrow]
      rw [harg, hfold, hdbA]
      simp [List.append_assoc]
    · intro jb hjb
      rcases List.mem_cons.mp hjb with he | hm
      · subst he
        refine ⟨job_row_workflow _ _ _ _ _ hw, jid, job_row_id _ _ _ _ _, le_refl _⟩
      · rcases hF jb hm with ⟨h1, n, h2, h3⟩
        refine ⟨h1, n, h2, le_trans ?_ h3⟩
        have : dbA.jobs = db.jobs ++ [jrow] := rfl
        rw [this]
        exact allocId_le_append _ _
    · intro g hg
      rcases List.mem_append.mp hg with hm0 | hm
      · refine ⟨jrow, by simp, ?_⟩
        rw [hG0j g hm0]
        unfold getFD
        rw [hjrow, job_row_id]
        rfl
      · rcases hG g hm with ⟨jb, hjb, he⟩
        exact ⟨jb, by simp [hjb], he⟩

lemma validWorkflowDoc_jobs {doc : YDoc} (h : validWorkflowDoc doc = true) :
    ∀ jkv ∈ objFields (jobs_obj doc),
      hasF (objFields jkv.2) "workflow" = false ∧
      ∀ st ∈ job_steps (objFields jkv.2), hasF (objFields st) "job" = false := by
  unfold validWorkflowDoc at h
  simp only [Bool.and_eq_true] at h
  have hc := h.2
  unfold jobs_obj
  cases hg : getY doc (some "jobs") with
  | none =>
    intro jkv hm
    simp [objFields, JObj.toList] at hm
  | some v =>
    rw [hg] at hc
    simp only [Option.getD_some] at hc
    by_cases hv : (v == J.null) = true
    · have : v = J.null := beq_iff_eq.mp hv
      subst this
      intro jkv hm
      simp [truthy, objFields, JObj.toList] at hm
    · rw [Bool.or_eq_true] at hc
      rcases hc with hc | hc
      · exact absurd hc hv
      · simp only [Bool.and_eq_true] at hc
        by_cases ht : truthy v = true
        · simp only []
          rw [if_pos ht]
          intro jkv hm
          have hall := List.all_eq_true.mp hc.2 jkv hm
          simp only [Bool.and_eq_true] at hall
          refine ⟨by simpa using hall.1.2, ?_⟩
          intro st hst
          have hst2 : st ∈ arrElems (getFD (objFields jkv.2) "steps") := by
            unfold job_steps at hst
            unfold getFD
            cases hq : getF (objFields jkv.2) "steps" with
            | none => rw [hq] at hst; simp at hst
            | some sv =>
              rw [hq] at hst
              simp only [] at hst
              simp only [Option.getD_some]
              by_cases htv : truthy sv = true
              · rw [if_pos htv] at hst
                exact hst
              · rw [if_neg htv] at hst
                simp at hst
          have := List.all_eq_true.mp hall.2 st hst2
          simp only [Bool.and_eq_true] at this
          simpa using this.2
        · simp only []
          rw [if_neg ht]
          intro jkv hm
          simp [objFields, JObj.toList] at hm

lemma workflow_insert_phase_shape (db : Db) (rid : J) (f : String) (doc : YDoc)
    (hdoc : validWorkflowDoc doc = true) :
    ∃ F G,
      workflow_insert_phase db rid f doc =
        { db with
          workflows := (db.workflows ++ [workflow_row (allocId db.workflows) rid f doc]),
          jobs := (db.jobs ++ F), steps := (db.steps ++ G) } ∧
      (∀ jb ∈ F, getF jb "workflow" = some (J.num (allocId db.workflows)) ∧
        ∃ n : Int, getF jb "id" = some (J.num n) ∧ allocId db.jobs ≤ n) ∧
      (∀ g ∈ G, ∃ jb ∈ F, getFD g "job" = getFD jb "id") ∧
      F.length = (objFields (jobs_obj doc)).length ∧
      G.length = ((objFields (jobs_obj doc)).map
        (fun jkv => (job_steps (objFields jkv.2)).length)).sum := by
  obtain ⟨F, G, hfold, hF, hG, hFl, hGl⟩ :=
    jobs_fold_shape (allocId db.workflows) rid (objFields (jobs_obj doc))
      (validWorkflowDoc_jobs hdoc)
      { db with workflows := (db.workflows ++ [workflow_row (allocId db.workflows) rid f doc]) }
  refine ⟨F, G, ?_, hF, hG, hFl, hGl⟩
  unfold workflow_insert_phase
  simp only []
  rw [hfold]

lemma delete_phase_other_fields (db : Db) (rid : J) (f : String) :
    (workflow_delete_phase db rid f).users = db.users ∧
    (workflow_delete_phase db rid f).licenses = db.licenses ∧
    (workflow_delete_phase db rid f).repos = db.repos ∧
    (workflow_delete_phase db rid f).milestones = db.milestones ∧
    (workflow_delete_phase db rid f).issues = db.issues ∧
    (workflow_delete_phase db rid f).labels = db.labels ∧
    (workflow_delete_phase db rid f).issues_labels = db.issues_labels ∧
    (workflow_delete_phase db rid f).pull_requests = db.pull_requests ∧
    (workflow_delete_phase db rid f).labels_pull_requests = db.labels_pull_requests ∧
    (workflow_delete_phase db rid f).releases = db.releases ∧
    (workflow_delete_phase db rid f).assets = db.assets ∧
    (workflow_delete_phase db rid f).raw_authors = db.raw_authors ∧
    (workflow_delete_phase db rid f).commits = db.commits := by
  unfold workflow_delete_phase
  cases db.workflows.filter (matchRF rid f) <;> simp

lemma delete_phase_no_match (db : Db) (rid : J) (f : String)
    (h : (db.workflows.filter (matchRF rid f)).length ≤ 1) :
    (workflow_delete_phase db rid f).workflows.filter (matchRF rid f) = [] := by
  unfold workflow_delete_phase
  cases hfil : db.workflows.filter (matchRF rid f) with
  | nil => simp only []; exact hfil
  | cons e rest =>
    have hrest : rest = [] := by
      rw [hfil] at h
      simp only [List.length_cons] at h
      exact List.length_eq_zero.mp (by omega)
    simp only []
    rw [List.filter_comm, hfil, hrest]
    simp only [List.filter_cons, List.filter_nil]
    rw [if_neg (by simp)]

lemma delete_phase_jobs_fk (db : Db) (rid : J) (f : String)
    (hj : ∀ jb ∈ db.jobs, ∃ w ∈ db.workflows, getFD jb "workflow" = getFD w "id") :
    ∀ jb ∈ (workflow_delete_phase db rid f).jobs,
      ∃ w ∈ (workflow_delete_phase db rid f).workflows,
        getFD jb "workflow" = getFD w "id" := by
  unfold workflow_delete_phase
  cases hfil : db.workflows.filter (matchRF rid f) with
  | nil => simp only []; exact hj
  | cons e rest =>
    simp only []
    intro jb hjb
    have hm := List.mem_filter.mp hjb
    rcases hj jb hm.1 with ⟨w, hw, he⟩
    refine ⟨w, List.mem_filter.mpr ⟨hw, ?_⟩, he⟩
    have hne := hm.2
    rw [← he]
    exact hne

lemma delete_phase_steps_fk (db : Db) (rid : J) (f : String)
    (hs : ∀ st ∈ db.steps, ∃ jb ∈ db.jobs, getFD st "job" = getFD jb "id") :
    ∀ st ∈ (workflow_delete_phase db rid f).steps,
      ∃ jb ∈ (workflow_delete_phase db rid f).jobs,
        getFD st "job" = getFD jb "id" := by
  unfold workflow_delete_phase
  cases hfil : db.workflows.filter (matchRF rid f) with
  | nil => simp only []; exact hs
  | cons e rest =>
    simp only []
    intro st hst
    have hm := List.mem_filter.mp hst
    rcases hs st hm.1 with ⟨jb, hjb, he⟩
    refine ⟨jb, List.mem_filter.mpr ⟨hjb, ?_⟩, he⟩
    cases hq : getFD jb "workflow" == getFD e "id"
    · have hbne : (getFD jb "workflow" != getFD e "id") = !(getFD jb "workflow" == getFD e "id") := rfl
      rw [hbne, hq]
      rfl
    · exfalso
      have hin : getFD jb "id" ∈ (db.jobs.filter
          (fun jb2 => getFD jb2 "workflow" == getFD e "id")).map (fun jb2 => getFD jb2 "id") :=
        List.mem_map.mpr ⟨jb, List.mem_filter.mpr ⟨hjb, hq⟩, rfl⟩
      have hcont : ((db.jobs.filter
          (fun jb2 => getFD jb2 "workflow" == getFD e "id")).map
            (fun jb2 => getFD jb2 "id")).contains (getFD st "job") = true := by
        rw [he]
        simpa using hin
      have := hm.2
      rw [hcont] at this
      cases this

lemma bne_true_of_ne {a b : J} (h : a ≠ b) : (a != b) = true := by
  have : (a != b) = !(a == b) := rfl
  rw [this]
  cases hq : a == b
  · rfl
  · exact absurd (beq_iff_eq.mp hq) h

lemma workflow_absorb_core (T0 : Db) (rid : J) (f : String) (doc : YDoc)
    (hW : T0.workflows.filter (matchRF rid f) = [])
    (hJ : ∀ jb ∈ T0.jobs, ∃ w ∈ T0.workflows, getFD jb "workflow" = getFD w "id")
    (hS : ∀ st ∈ T0.steps, ∃ jb ∈ T0.jobs, getFD st "job" = getFD jb "id")
    (hdoc : validWorkflowDoc doc = true) :
    workflow_delete_phase (workflow_insert_phase T0 rid f doc) rid f = T0 := by
  obtain ⟨F, G, hshape, hF, hG, hFl, hGl⟩ := workflow_insert_phase_shape T0 rid f doc hdoc
  have heid : getFD (workflow_row (allocId T0.workflows) rid f doc) "id" =
      J.num (allocId T0.workflows) := by
    unfold getFD
    rw [workflow_row_id]
    rfl
  have hwfresh : ∀ w ∈ T0.workflows, getFD w "id" ≠ J.num (allocId T0.workflows) := by
    intro w hw
    exact getFD_id_ne_of_mem (u := []) hw (by rw [List.append_nil])
  have hjfresh : ∀ jb ∈ T0.jobs, ∀ n : Int, allocId T0.jobs ≤ n →
      getFD jb "id" ≠ J.num n := by
    intro jb hjb n hn
    exact getFD_id_ne_of_mem (u := []) hjb (by rw [List.append_nil]; exact hn)
  have hjold : ∀ jb ∈ T0.jobs,
      (getFD jb "workflow" == getFD (workflow_row (allocId T0.workflows) rid f doc) "id") = false := by
    intro jb hjb
    rcases hJ jb hjb with ⟨w, hw, he⟩
    rw [heid, he]
    cases hq : getFD w "id" == J.num (allocId T0.workflows)
    · rfl
    · exact absurd (beq_iff_eq.mp hq) (hwfresh w hw)
  have hjnew : ∀ jb ∈ F,
      (getFD jb "workflow" == getFD (workflow_row (allocId T0.workflows) rid f doc) "id") = true := by
    intro jb hjb
    rw [heid]
    unfold getFD
    rw [(hF jb hjb).1]
    simp
  have hfiljobs : (T0.jobs ++ F).filter
      (fun jb => getFD jb "workflow" == getFD (workflow_row (allocId T0.workflows) rid f doc) "id") = F := by
    rw [List.filter_append, List.filter_eq_nil_iff.mpr (fun jb hm => by rw [hjold jb hm]; simp),
      List.nil_append]
    exact List.filter_eq_self.mpr (fun jb hm => hjnew jb hm)
  rw [hshape]
  unfold workflow_delete_phase
  simp only []
  rw [List.filter_append, hW, List.nil_append, List.filter_cons,
    if_pos (by rw [workflow_row_match]), List.filter_nil]
  simp only []
  rw [hfiljobs]
  have hstepsT0 : ∀ st ∈ T0.steps,
      (!(F.map (fun jb => getFD jb "id")).contains (getFD st "job")) = true := by
    intro st hst
    rcases hS st hst with ⟨jb0, hjb0, he0⟩
    cases hc : (F.map (fun jb => getFD jb "id")).contains (getFD st "job")
    · rfl
    · exfalso
      have hmem : getFD st "job" ∈ F.map (fun jb => getFD jb "id") := by simpa using hc
      rcases List.mem_map.mp hmem with ⟨jb, hjb, he⟩
      rcases (hF jb hjb).2 with ⟨n, hid, hn⟩
      have : getFD jb "id" = J.num n := by unfold getFD; rw [hid]; rfl
      rw [this] at he
      exact hjfresh jb0 hjb0 n hn (by rw [← he0, ← he])
  have hstepsG : ∀ g ∈ G,
      (!(F.map (fun jb => getFD jb "id")).contains (getFD g "job")) = false := by
    intro g hg
    rcases hG g hg with ⟨jb, hjb, he⟩
    have hmem : getFD g "job" ∈ F.map (fun jb => getFD jb "id") := by
      rw [he]
      exact List.mem_map.mpr ⟨jb, hjb, rfl⟩
    have : (F.map (fun jb => getFD jb "id")).contains (getFD g "job") = true := by
      simpa using hmem
    rw [this]
    rfl
  have hsteps_final : (T0.steps ++ G).filter
      (fun st => !(F.map (fun jb => getFD jb "id")).contains (getFD st "job")) = T0.steps := by
    rw [List.filter_append, List.filter_eq_self.mpr hstepsT0,
      List.filter_eq_nil_iff.mpr (fun g hm => by rw [hstepsG g hm]; simp), List.append_nil]
  have hjobs_final : (T0.jobs ++ F).filter
      (fun jb => getFD jb "workflow" != getFD (workflow_row (allocId T0.workflows) rid f doc) "id") =
      T0.jobs := by
    rw [List.filter_append,
      List.filter_eq_self.mpr (fun jb hm => by
        have hbne : (getFD jb "workflow" != getFD (workflow_row (allocId T0.workflows) rid f doc) "id") =
            !(getFD jb "workflow" == getFD (workflow_row (allocId T0.workflows) rid f doc) "id") := rfl
        rw [hbne, hjold jb hm]
        rfl),
      List.filter_eq_nil_iff.mpr (fun jb hm => by
        have hbne : (getFD jb "workflow" != getFD (workflow_row (allocId T0.workflows) rid f doc) "id") =
            !(getFD jb "workflow" == getFD (workflow_row (allocId T0.workflows) rid f doc) "id") := rfl
        rw [hbne, hjnew jb hm]
        simp), List.append_nil]
  have hwf_final : (T0.workflows ++ [workflow_row (allocId T0.workflows) rid f doc]).filter
      (fun w => getFD w "id" != getFD (workflow_row (allocId T0.workflows) rid f doc) "id") =
      T0.workflows := by
    rw [List.filter_append,
      List.filter_eq_self.mpr (fun w hm => bne_true_of_ne (by rw [heid]; exact hwfresh w hm)),
      List.filter_cons,
      if_neg (by
        have hbne : (getFD (workflow_row (allocId T0.workflows) rid f doc) "id" !=
            getFD (workflow_row (allocId T0.workflows) rid f doc) "id") =
            !(getFD (workflow_row (allocId T0.workflows) rid f doc) "id" ==
              getFD (workflow_row (allocId T0.workflows) rid f doc) "id") := rfl
        rw [hbne]
        simp),
      List.filter_nil, List.append_nil]
  rw [hsteps_final, hjobs_final, hwf_final]

lemma save_workflow_absorb (db : Db) (rid : J) (f : String) (d1 d2 : YDoc)
    (h1 : (db.workflows.filter (matchRF rid f)).length ≤ 1)
    (hj : ∀ jb ∈ db.jobs, ∃ w ∈ db.workflows, getFD jb "workflow" = getFD w "id")
    (hs : ∀ st ∈ db.steps, ∃ jb ∈ db.jobs, getFD st "job" = getFD jb "id")
    (hd1 : validWorkflowDoc d1 = true) :
    save_workflow (save_workflow db rid f d1) rid f d2 = save_workflow db rid f d2 := by
  unfold save_workflow
  rw [workflow_absorb_core (workflow_delete_phase db rid f) rid f d1
    (delete_phase_no_match db rid f h1)
    (delete_phase_jobs_fk db rid f hj)
    (delete_phase_steps_fk db rid f hs) hd1]

lemma save_workflow_count (db : Db) (rid : J) (f : String) (doc : YDoc)
    (hdoc : validWorkflowDoc doc = true) :
    countKey (save_workflow db rid f doc).workflows ["id"]
      [some (J.num (allocId (workflow_delete_phase db rid f).workflows))] = 1 := by
  unfold save_workflow
  obtain ⟨F, G, hshape, _, _, _, _⟩ :=
    workflow_insert_phase_shape (workflow_delete_phase db rid f) rid f doc hdoc
  rw [hshape]
  unfold countKey
  simp only []
  rw [List.filter_append]
  have hT0 : ∀ w ∈ (workflow_delete_phase db rid f).workflows,
      ¬((keyOf ["id"] w ==
        [some (J.num (allocId (workflow_delete_phase db rid f).workflows))]) = true) := by
    intro w hm hq
    have he := beq_iff_eq.mp hq
    unfold keyOf at he
    simp only [List.map_cons, List.map_nil, List.cons.injEq, and_true] at he
    exact getF_id_ne_of_mem (u := []) hm (by rw [List.append_nil]) he
  rw [List.filter_eq_nil_iff.mpr hT0, List.nil_append, List.filter_cons,
    if_pos (by
      unfold keyOf
      simp only [List.map_cons, List.map_nil]
      rw [workflow_row_id]
      simp),
    List.filter_nil]
  rfl

lemma toList_ofList (l : List J) : (JList.ofList l).toList = l := by
  induction l with
  | nil => rfl
  | cons x l ih => simp [JList.ofList, JList.toList, ih]

lemma pyIter_jarr (l : List J) : pyIter (jarr l) = l := by
  unfold pyIter jarr
  exact toList_ofList l

lemma paginateLoop_chain {server : String → GhResponse} {u : String} {ps : List J}
    (hc : Chain server u ps) : ∀ fuel, ps.length ≤ fuel →
    (paginateLoop server fuel u).pages = ps ∧ (paginateLoop server fuel u).finished = true := by
  induction hc with
  | last h =>
    intro fuel hf
    cases fuel with
    | zero => simp at hf
    | succ n =>
      unfold paginateLoop
      rw [h]
      simp only []
      exact ⟨rfl, rfl⟩
  | cons h hc2 ih =>
    intro fuel hf
    cases fuel with
    | zero => simp at hf
    | succ n =>
      unfold paginateLoop
      rw [h]
      simp only []
      rw [if_neg (by decide : ¬(((200:Nat) == 204) = true)),
        if_pos (by decide : (((200:Nat) == 200) = true))]
      simp only []
      have hn : _ ≤ n := Nat.le_of_succ_le_succ (by simpa using hf)
      rcases ih n hn with ⟨hp, hfin⟩
      rw [hp, hfin]
      exact ⟨rfl, rfl⟩

lemma paginateLoop_stuck {server : String → GhResponse} {u : String} {st : Nat} {body : J}
    {nx : Option String} (h : server u = { status := st, body := body, next := nx })
    (h200 : st ≠ 200) (h204 : st ≠ 204) :
    ∀ fuel, (paginateLoop server fuel u).pages = List.replicate fuel body ∧
      (paginateLoop server fuel u).finished = false := by
  intro fuel
  induction fuel with
  | zero => exact ⟨rfl, rfl⟩
  | succ n ih =>
    unfold paginateLoop
    rw [h]
    simp only []
    rw [if_neg (by simpa using h204), if_neg (by simpa using h200)]
    simp only []
    rcases ih with ⟨hp, hf⟩
    rw [hp, hf]
    exact ⟨by rw [List.replicate_succ], rfl⟩

lemma takeUntilStop_eq (stop : J → Bool) (l : List J) :
    takeUntilStop stop l = (l.takeWhile (fun c => !stop c), l.any stop) := by
  induction l with
  | nil => rfl
  | cons c l ih =>
    unfold takeUntilStop
    rw [List.takeWhile_cons, List.any_cons]
    by_cases hs : stop c = true
    · rw [if_pos hs, hs]
      simp
    · rw [if_neg hs, ih]
      have hs2 : stop c = false := by simpa using hs
      rw [hs2]
      simp

lemma takeWhile_append_all {p : J → Bool} (l1 l2 : List J) (h : ∀ c ∈ l1, p c = true) :
    (l1 ++ l2).takeWhile p = l1 ++ l2.takeWhile p := by
  induction l1 with
  | nil => rfl
  | cons c l1 ih =>
    rw [List.cons_append, List.takeWhile_cons, if_pos (h c (by simp)), List.cons_append,
      ih (fun c hc => h c (by simp [hc]))]

lemma takeWhile_append_stop {p : J → Bool} (l1 l2 : List J) {c0 : J} (hm : c0 ∈ l1)
    (hc : p c0 = false) : (l1 ++ l2).takeWhile p = l1.takeWhile p := by
  induction l1 with
  | nil => cases hm
  | cons c l1 ih =>
    rw [List.cons_append, List.takeWhile_cons, List.takeWhile_cons]
    by_cases hp : p c = true
    · rw [if_pos hp, if_pos hp]
      rcases List.mem_cons.mp hm with he | hm2
      · subst he
        exact absurd hp (by simp [hc])
      · rw [ih hm2]
    · rw [if_neg hp, if_neg hp]

lemma takeWhile_eq_self_of_all {p : J → Bool} (l : List J) (h : ∀ c ∈ l, p c = true) :
    l.takeWhile p = l := by
  induction l with
  | nil => rfl
  | cons c l ih =>
    rw [List.takeWhile_cons, if_pos (h c (by simp)), ih (fun c2 hm => h c2 (by simp [hm]))]

lemma commitsFromPages_eq (stop : J → Bool) (pages : List J) :
    commitsFromPages stop pages =
      ((pages.map pyIter).flatten.takeWhile (fun c => !stop c),
        (pages.map pyIter).flatten.any stop) := by
  induction pages with
  | nil => rfl
  | cons page rest ih =>
    unfold commitsFromPages
    rw [takeUntilStop_eq, ih]
    simp only [List.map_cons, List.flatten_cons, List.any_append]
    by_cases ha : (pyIter page).any stop = true
    · rw [if_pos ha]
      rcases List.any_eq_true.mp ha with ⟨c0, hm, hs⟩
      rw [takeWhile_append_stop _ _ hm (by simp [hs]), ha]
      simp
    · rw [if_neg ha]
      have ha2 : (pyIter page).any stop = false := by simpa using ha
      rw [ha2]
      have hall : ∀ c ∈ pyIter page, (!stop c) = true := by
        intro c hc
        cases hq : stop c
        · rfl
        · exact absurd (List.any_eq_true.mpr ⟨c, hc, hq⟩) (by simp [ha2])
      rw [takeWhile_append_all _ _ hall, takeWhile_eq_self_of_all _ hall]
      simp

lemma takeWhile_eq_take {stop : J → Bool} :
    ∀ (cs : List J) (k : Nat), k ≤ cs.length →
      (∀ c ∈ cs.take k, stop c = false) →
      (∀ c, (cs.drop k).head? = some c → stop c = true) →
      cs.takeWhile (fun c => !stop c) = cs.take k := by
  intro cs
  induction cs with
  | nil => intro k _ _ _; simp
  | cons c cs ih =>
    intro k hk h2 h3
    cases k with
    | zero =>
      have hs := h3 c (by simp)
      rw [List.takeWhile_cons, if_neg (by simp [hs])]
      simp
    | succ k2 =>
      have hc : stop c = false := h2 c (by simp)
      rw [List.takeWhile_cons, if_pos (by simp [hc]), List.take_succ_cons,
        ih k2 (by simpa using hk) (fun c2 hm => h2 c2 (by simp [hm]))
          (fun c2 hh => h3 c2 (by simpa using hh))]

lemma map_pyIter_jarr (pages : List (List J)) : (pages.map jarr).map pyIter = pages := by
  induction pages with
  | nil => rfl
  | cons p rest ih => simp [pyIter_jarr, ih]

/-- C3: along a finite chain of successful pages, each carrying a "next"
link except the last, `paginate` yields every page exactly once, in
server order, and the loop terminates on its own (it exits on the missing
"next" link rather than by exhausting fuel). -/
theorem paginate_yields_chain_in_order_and_terminates (server : String → GhResponse)
    (url : String) (ps : List J) (fuel : Nat)
    (hc : Chain server (perPageUrl url) ps) (hf : ps.length ≤ fuel) :
    (paginate server fuel url).pages = ps ∧ (paginate server fuel url).finished = true :=
  paginateLoop_chain hc fuel hf

def c3serverW : String → GhResponse := fun u =>
  if u == "u2" then { status := 200, body := J.str "p2", next := none }
  else { status := 200, body := J.str "p1", next := some "u2" }

/-- Witness for C3 on a two-page chain. -/
theorem paginate_yields_chain_in_order_and_terminates_witness :
    (paginate c3serverW 2 "a").pages = [J.str "p1", J.str "p2"] ∧
      (paginate c3serverW 2 "a").finished = true :=
  paginate_yields_chain_in_order_and_terminates c3serverW "a" [J.str "p1", J.str "p2"] 2
    (Chain.cons rfl (Chain.last rfl)) (by decide)

/-- C10: when the response for the current URL persistently carries a
status other than 200 and 204, `paginate` yields that response body as a
page on every iteration and never advances the URL, so the walk never
terminates on its own: it re-fetches the same URL until fuel runs out. -/
theorem non_ok_page_refetched_indefinitely (server : String → GhResponse)
    (url : String) (st : Nat) (body : J) (nx : Option String)
    (h : server (perPageUrl url) = { status := st, body := body, next := nx })
    (h200 : st ≠ 200) (h204 : st ≠ 204) (fuel : Nat) :
    (paginate server fuel url).pages = List.replicate fuel body ∧
      (paginate server fuel url).finished = false :=
  paginateLoop_stuck h h200 h204 fuel

def c10serverW : String → GhResponse :=
  fun _ => { status := 403, body := J.str "limited", next := none }

/-- Witness for C10 on a constant 403 responder. -/
theorem non_ok_page_refetched_indefinitely_witness :
    (paginate c10serverW 3 "a").pages =
        [J.str "limited", J.str "limited", J.str "limited"] ∧
      (paginate c10serverW 3 "a").finished = false :=
  non_ok_page_refetched_indefinitely c10serverW "a" 403 (J.str "limited") none rfl
    (by decide) (by decide) 3

/-- The 409 body GitHub serves for an empty repository. -/
def emptyRepoBody : J := jobj [("message", J.str "Git Repository is empty.")]

/-- A server that answers every request with the empty-repository error. -/
def emptyRepoServer : String → GhResponse :=
  fun _ => { status := 409, body := emptyRepoBody, next := none }

/-- The classified error the loop prints for that body. -/
def emptyRepoErr : GhError :=
  { empty := true, message := "Git Repository is empty.", status := 409 }

lemma emptyRepo_loop (fuel : Nat) (u : String) :
    paginateLoop emptyRepoServer fuel u =
      { pages := List.replicate fuel emptyRepoBody,
        logs := List.replicate fuel emptyRepoErr, finished := false } := by
  induction fuel generalizing u with
  | zero => rfl
  | succ n ih =>
    unfold paginateLoop
    have hs : emptyRepoServer u = { status := 409, body := emptyRepoBody, next := none } := rfl
    rw [hs]
    dsimp only
    rw [if_neg (by decide : ¬(((409:Nat) == 204) = true)),
      if_neg (by decide : ¬(((409:Nat) == 200) = true))]
    dsimp only
    rw [ih u]
    have hlog :
        (if truthy (getFD (objFields emptyRepoBody) "message") &&
            (emptyRepoBody matches J.obj _) then
          [ghErrorFromResponse (strOf (getFD (objFields emptyRepoBody) "message")) 409]
        else []) = [emptyRepoErr] := by decide
    rw [hlog]
    simp [List.replicate_succ]

lemma flatten_replicate_singleton (n : Nat) (x : J) :
    (List.replicate n [x]).flatten = List.replicate n x := by
  induction n with
  | zero => rfl
  | succ k ih => simp [List.replicate_succ, ih]

/-- C6 (divergence witness): against a server that persistently answers
the empty-repository 409, the walk classifies the condition as
`GitHubRepositoryEmpty` on every iteration but only prints it — the
`except GitHubRepositoryEmpty` handler in `fetch_commits` never fires
because `paginate` never raises. Instead of yielding zero commits and
stopping, `fetch_commits` yields the error object's key string "message"
once per iteration and never terminates on its own (the URL never
advances), for any stop predicate that does not fire on that string. -/
theorem empty_repo_not_swallowed (stop : J → Bool) (repo : String) (fuel : Nat)
    (hstop : stop (J.str "message") = false) :
    fetch_commits emptyRepoServer fuel stop repo =
        (List.replicate fuel (J.str "message"), false) ∧
      (paginate emptyRepoServer fuel (commitsUrl repo)).logs =
        List.replicate fuel emptyRepoErr := by
  unfold fetch_commits paginate
  rw [emptyRepo_loop]
  dsimp only
  refine ⟨?_, rfl⟩
  rw [commitsFromPages_eq]
  have hmap : (List.replicate fuel emptyRepoBody).map pyIter =
      List.replicate fuel [J.str "message"] := by
    rw [List.map_replicate]
    rfl
  rw [hmap, flatten_replicate_singleton]
  have hall : ∀ c ∈ List.replicate fuel (J.str "message"), (!stop c) = true := by
    intro c hm
    rw [List.eq_of_mem_replicate hm, hstop]
    rfl
  rw [takeWhile_eq_self_of_all _ hall]
  have hany : (List.replicate fuel (J.str "message")).any stop = false := by
    rw [List.any_eq_false]
    intro c hm
    rw [List.eq_of_mem_replicate hm, hstop]
    simp
  rw [hany]
  rfl

/-- Witness for C6 with the stop predicate bound to an empty store. -/
theorem empty_repo_not_swallowed_witness :
    fetch_commits emptyRepoServer 2 (stop_when {}) "dummy/empty" =
        ([J.str "message", J.str "message"], false) ∧
      (paginate emptyRepoServer 2 (commitsUrl "dummy/empty")).logs =
        [emptyRepoErr, emptyRepoErr] :=
  empty_repo_not_swallowed (stop_when {}) "dummy/empty" 2 (by decide)

/-- C2: when the commit-history resource serves a finite chain of pages
whose records flatten to `[c1..cN]`, and index `k` marks the first record
whose `sha` the store already holds (every earlier record unknown; `k = N`
when none is known), `fetch_commits` driven by the `stop_when` predicate
yields exactly the first `k` records in order and the walk comes to an
end on its own. -/
theorem stop_predicate_yields_known_prefix (server : String → GhResponse) (db : Db)
    (repo : String) (pages : List (List J)) (fuel k : Nat)
    (hc : Chain server (perPageUrl (commitsUrl repo)) (pages.map jarr))
    (hf : pages.length ≤ fuel)
    (hk : k ≤ pages.flatten.length)
    (hnew : ∀ c ∈ pages.flatten.take k, stop_when db c = false)
    (hknown : ∀ c, (pages.flatten.drop k).head? = some c → stop_when db c = true) :
    fetch_commits server fuel (stop_when db) repo = (pages.flatten.take k, true) := by
  unfold fetch_commits
  have hpr := paginateLoop_chain hc fuel (by simpa using hf)
  unfold paginate
  simp only [hpr.1, hpr.2]
  rw [commitsFromPages_eq, map_pyIter_jarr]
  dsimp only
  rw [takeWhile_eq_take pages.flatten k hk hnew hknown]
  rw [Bool.or_true]

def c2cA : J := jobj [("sha", J.str "aaa")]
def c2cB : J := jobj [("sha", J.str "bbb")]
def c2cC : J := jobj [("sha", J.str "ccc")]

def c2serverW : String → GhResponse := fun u =>
  if u == "u2" then { status := 200, body := jarr [c2cC], next := none }
  else { status := 200, body := jarr [c2cA, c2cB], next := some "u2" }

def c2dbW : Db := { commits := [[("sha", J.str "bbb")]] }

/-- Witness for C2: two pages `[cA, cB] / [cC]` with `cB` already stored;
the walk yields exactly `[cA]`. -/
theorem stop_predicate_yields_known_prefix_witness :
    fetch_commits c2serverW 2 (stop_when c2dbW) "o/r" =
      ([[c2cA, c2cB], [c2cC]].flatten.take 1, true) :=
  stop_predicate_yields_known_prefix c2serverW c2dbW "o/r" [[c2cA, c2cB], [c2cC]] 2 1
    (Chain.cons rfl (Chain.last rfl)) (by decide) (by decide)
    (by decide) (by decide)

/-- C8: a `None` user payload writes no row — `save_user` returns the
store unchanged together with a null key, so parent rows referencing a
deleted account store a null foreign key instead of failing. -/
theorem save_user_none_writes_nothing (db : Db) :
    save_user db J.null = (db, J.null) := rfl

/-- C9: two raw author payloads with identical `(name, email)` content
resolve to the same content-addressed key; saving the second after the
first leaves `raw_authors` unchanged, and the table holds exactly one row
under that key. -/
theorem raw_author_dedup (db : Db) (a1 a2 : J)
    (hn : getFD (objFields a1) "name" = getFD (objFields a2) "name")
    (he : getFD (objFields a1) "email" = getFD (objFields a2) "email") :
    (save_commit_author db a1).2 = (save_commit_author db a2).2 ∧
    (save_commit_author (save_commit_author db a1).1 a2).1.raw_authors =
      (save_commit_author db a1).1.raw_authors ∧
    countKey (save_commit_author (save_commit_author db a1).1 a2).1.raw_authors
      ["id"] [some (raw_author_pk a1)] = 1 := by
  unfold save_commit_author raw_author_pk
  simp only [← hn, ← he]
  refine ⟨trivial, ?_, ?_⟩
  · rw [insertReplaceK_idem]
  · rw [insertReplaceK_idem]
    have hc := countKey_insertReplaceK db.raw_authors ["id"]
      [("id", J.str (hash_record_id (getFD (objFields a1) "name")
          (getFD (objFields a1) "email"))),
       ("name", getFD (objFields a1) "name"),
       ("email", getFD (objFields a1) "email")]
    simpa [keyOf, getF] using hc

/-- Witness for C9 on two payloads sharing `(name, email)`. -/
theorem raw_author_dedup_witness :
    ((save_commit_author {} (jobj [("name", J.str "Ann"), ("email", J.str "ann@x")])).2 =
        (save_commit_author {}
          (jobj [("email", J.str "ann@x"), ("name", J.str "Ann"),
            ("date", J.str "2020-01-01")])).2) ∧
      (save_commit_author
          (save_commit_author {} (jobj [("name", J.str "Ann"), ("email", J.str "ann@x")])).1
          (jobj [("email", J.str "ann@x"), ("name", J.str "Ann"),
            ("date", J.str "2020-01-01")])).1.raw_authors =
        (save_commit_author {}
          (jobj [("name", J.str "Ann"), ("email", J.str "ann@x")])).1.raw_authors ∧
      countKey
        (save_commit_author
          (save_commit_author {} (jobj [("name", J.str "Ann"), ("email", J.str "ann@x")])).1
          (jobj [("email", J.str "ann@x"), ("name", J.str "Ann"),
            ("date", J.str "2020-01-01")])).1.raw_authors
        ["id"] [some (raw_author_pk (jobj [("name", J.str "Ann"), ("email", J.str "ann@x")]))] = 1 :=
  raw_author_dedup {} (jobj [("name", J.str "Ann"), ("email", J.str "ann@x")])
    (jobj [("email", J.str "ann@x"), ("name", J.str "Ann"), ("date", J.str "2020-01-01")])
    (by decide) (by decide)

lemma vec_cache_after (env : VecEnv) (c : Nat) (p : VecProc) :
    (maybe_load_sqlite_vec env c p).1.cache = some (maybe_load_sqlite_vec env c p).2 := by
  unfold maybe_load_sqlite_vec
  cases hp : p.cache with
  | some b => simp [hp]
  | none =>
    cases hi : env.importOk with
    | false => simp [hi]
    | true =>
      cases hl : env.loadOk with
      | false => simp [hi, hl]
      | true => simp [hi, hl]

/-- C7 (counterexample): with the extension importable and loadable, open
connection 1 and then connection 2; the load is attempted on connection 1
only — the module-global cache short-circuits the second call, so no
detection or load ever touches connection 2. -/
theorem vec_detection_not_per_connection :
    (maybe_load_sqlite_vec { importOk := true, loadOk := true } 2
        (maybe_load_sqlite_vec { importOk := true, loadOk := true } 1 {}).1).1.loads =
      [1] := by decide

/-- C7 (amended): the `_SQLITE_VEC_LOADED` cache is per-process, not
per-connection — after any first call, a call on any later connection
returns the cached result and leaves the process state (including the
trace of attempted loads) unchanged, so no load is ever attempted on the
second connection. -/
theorem vec_detection_cached_per_process (env : VecEnv) (c1 c2 : Nat) (p0 : VecProc) :
    maybe_load_sqlite_vec env c2 (maybe_load_sqlite_vec env c1 p0).1 =
      ((maybe_load_sqlite_vec env c1 p0).1, (maybe_load_sqlite_vec env c1 p0).2) := by
  have h := vec_cache_after env c1 p0
  set q := maybe_load_sqlite_vec env c1 p0 with hq
  unfold maybe_load_sqlite_vec
  rw [h]

/-- C4: re-ingesting a revised workflow document for the same
`(repo, filename)` erases the first version's workflow, job and step rows
entirely before inserting the second decomposition: the store after
ingesting `d1` then `d2` equals the store after ingesting `d2` alone. -/
theorem workflow_replace_on_reimport (db : Db) (rid : J) (f : String) (d1 d2 : YDoc)
    (h1 : (db.workflows.filter (matchRF rid f)).length ≤ 1)
    (hj : ∀ jb ∈ db.jobs, ∃ w ∈ db.workflows, getFD jb "workflow" = getFD w "id")
    (hs : ∀ st ∈ db.steps, ∃ jb ∈ db.jobs, getFD st "job" = getFD jb "id")
    (hd1 : validWorkflowDoc d1 = true) :
    save_workflow (save_workflow db rid f d1) rid f d2 = save_workflow db rid f d2 :=
  save_workflow_absorb db rid f d1 d2 h1 hj hs hd1

def c4d1W : YDoc :=
  [(some "name", J.str "CI"),
   (some "jobs", jobj
     [("build", jobj [("steps", jarr
        [jobj [("run", J.str "s1")], jobj [("run", J.str "s2")],
         jobj [("run", J.str "s3")]])]),
      ("test", jobj [("steps", jarr
        [jobj [("run", J.str "s4")], jobj [("run", J.str "s5")]])])])]

def c4d2W : YDoc :=
  [(some "name", J.str "CI v2"),
   (some "jobs", jobj
     [("build", jobj [("steps", jarr
        [jobj [("run", J.str "t1")], jobj [("run", J.str "t2")]])])])]

/-- Witness for C4: 2 jobs and 5 steps, re-ingested as 1 job and 2 steps,
leaves exactly 1 workflow, 1 job and 2 steps. -/
theorem workflow_replace_on_reimport_witness :
    (save_workflow (save_workflow {} (J.num 9) "ci.yml" c4d1W) (J.num 9) "ci.yml" c4d2W =
        save_workflow {} (J.num 9) "ci.yml" c4d2W) ∧
      (save_workflow (save_workflow {} (J.num 9) "ci.yml" c4d1W) (J.num 9) "ci.yml"
        c4d2W).workflows.length = 1 ∧
      (save_workflow (save_workflow {} (J.num 9) "ci.yml" c4d1W) (J.num 9) "ci.yml"
        c4d2W).jobs.length = 1 ∧
      (save_workflow (save_workflow {} (J.num 9) "ci.yml" c4d1W) (J.num 9) "ci.yml"
        c4d2W).steps.length = 2 ∧
      (save_workflow {} (J.num 9) "ci.yml" c4d1W).jobs.length = 2 ∧
      (save_workflow {} (J.num 9) "ci.yml" c4d1W).steps.length = 5 :=
  ⟨workflow_replace_on_reimport {} (J.num 9) "ci.yml" c4d1W c4d2W (by decide) (by decide)
      (by decide) (by decide),
    by decide, by decide, by decide, by decide, by decide⟩

/-- C1: for each of the seven entity types, ingesting the same raw
payload twice through its `save_*` entry point leaves the entity table
exactly as a single ingestion left it, holding exactly one row under the
payload's primary key. Users upsert by `id`; repos, issues, pull
requests, commits and releases insert-or-replace by their primary keys;
workflows replace their whole `(repo, filename)` decomposition. -/
theorem idempotent_reingestion (db : Db) (u repo repoJ issue pr commit release : J)
    (crid rrid wrid : J) (wf : String) (wdoc : YDoc)
    (hu0 : (u == J.null) = false) (hu : validUser u = true)
    (husers : nodupKeys db.users ["id"])
    (hw1 : (db.workflows.filter (matchRF wrid wf)).length ≤ 1)
    (hwj : ∀ jb ∈ db.jobs, ∃ w ∈ db.workflows, getFD jb "workflow" = getFD w "id")
    (hws : ∀ st ∈ db.steps, ∃ jb ∈ db.jobs, getFD st "job" = getFD jb "id")
    (hwd : validWorkflowDoc wdoc = true) :
    ((save_user (save_user db u).1 u).1.users = (save_user db u).1.users ∧
      countKey (save_user (save_user db u).1 u).1.users ["id"]
        (keyOf ["id"] (user_to_save u)) = 1) ∧
    ((save_repo (save_repo db repo).1 repo).1.repos = (save_repo db repo).1.repos ∧
      countKey (save_repo (save_repo db repo).1 repo).1.repos ["id"]
        (keyOf ["id"] (repo_to_save repo)) = 1) ∧
    ((save_issues (save_issues db [issue] repoJ) [issue] repoJ).issues =
        (save_issues db [issue] repoJ).issues ∧
      countKey (save_issues (save_issues db [issue] repoJ) [issue] repoJ).issues ["id"]
        (keyOf ["id"] (issue_row issue (getFD (objFields repoJ) "id"))) = 1) ∧
    ((save_pull_requests (save_pull_requests db [pr] repoJ) [pr] repoJ).pull_requests =
        (save_pull_requests db [pr] repoJ).pull_requests ∧
      countKey (save_pull_requests (save_pull_requests db [pr] repoJ) [pr]
          repoJ).pull_requests ["id"]
        (keyOf ["id"] (pull_request_row pr (getFD (objFields repoJ) "id"))) = 1) ∧
    ((save_commits (save_commits db [commit] crid) [commit] crid).commits =
        (save_commits db [commit] crid).commits ∧
      countKey (save_commits (save_commits db [commit] crid) [commit] crid).commits ["sha"]
        (keyOf ["sha"] (commit_row commit crid)) = 1) ∧
    ((save_releases (save_releases db [release] rrid) [release] rrid).releases =
        (save_releases db [release] rrid).releases ∧
      countKey (save_releases (save_releases db [release] rrid) [release] rrid).releases
        ["id"] (keyOf ["id"] (release_row release rrid)) = 1) ∧
    (save_workflow (save_workflow db wrid wf wdoc) wrid wf wdoc =
        save_workflow db wrid wf wdoc ∧
      countKey (save_workflow (save_workflow db wrid wf wdoc) wrid wf wdoc).workflows
        ["id"] [some (J.num (allocId (workflow_delete_phase db wrid wf).workflows))] = 1) := by
  have hr := user_to_save_nodup hu hu0
  have hcid := user_to_save_has_id hu hu0
  have habsorb := save_workflow_absorb db wrid wf wdoc wdoc hw1 hwj hws hwd
  have hiss : ∀ d : Db, save_issues d [issue] repoJ =
      save_issue_one d (getFD (objFields repoJ) "id") issue := fun d => rfl
  have hprs : ∀ d : Db, save_pull_requests d [pr] repoJ =
      save_pull_request_one d (getFD (objFields repoJ) "id") pr := fun d => rfl
  have hcms : ∀ d : Db, save_commits d [commit] crid =
      save_commit_one d crid commit := fun d => rfl
  have hrls : ∀ d : Db, save_releases d [release] rrid =
      save_release_one d rrid release := fun d => rfl
  refine ⟨⟨?_, ?_⟩, ⟨?_, ?_⟩, ⟨?_, ?_⟩, ⟨?_, ?_⟩, ⟨?_, ?_⟩, ⟨?_, ?_⟩, ⟨?_, ?_⟩⟩
  · rw [save_user_users _ u hu0, save_user_users db u hu0]
    exact upsertK_idem db.users ["id"] (user_to_save u) hr hcid
  · rw [save_user_users _ u hu0, save_user_users db u hu0,
      upsertK_idem db.users ["id"] (user_to_save u) hr hcid]
    exact countKey_upsertK db.users ["id"] (user_to_save u) hr hcid husers
  · rw [save_repo_repos, save_repo_repos]
    exact insertReplaceK_idem db.repos ["id"] (repo_to_save repo)
  · rw [save_repo_repos, save_repo_repos,
      insertReplaceK_idem db.repos ["id"] (repo_to_save repo)]
    exact countKey_insertReplaceK db.repos ["id"] (repo_to_save repo)
  · rw [hiss, hiss, save_issue_one_issues, save_issue_one_issues]
    exact insertReplaceK_idem db.issues ["id"] _
  · rw [hiss, hiss, save_issue_one_issues, save_issue_one_issues,
      insertReplaceK_idem db.issues ["id"] _]
    exact countKey_insertReplaceK db.issues ["id"] _
  · rw [hprs, hprs, save_pull_request_one_prs, save_pull_request_one_prs]
    exact insertReplaceK_idem db.pull_requests ["id"] _
  · rw [hprs, hprs, save_pull_request_one_prs, save_pull_request_one_prs,
      insertReplaceK_idem db.pull_requests ["id"] _]
    exact countKey_insertReplaceK db.pull_requests ["id"] _
  · rw [hcms, hcms, save_commit_one_commits, save_commit_one_commits]
    exact insertReplaceK_idem db.commits ["sha"] _
  · rw [hcms, hcms, save_commit_one_commits, save_commit_one_commits,
      insertReplaceK_idem db.commits ["sha"] _]
    exact countKey_insertReplaceK db.commits ["sha"] _
  · rw [hrls, hrls, save_release_one_releases, save_release_one_releases]
    exact insertReplaceK_idem db.releases ["id"] _
  · rw [hrls, hrls, save_release_one_releases, save_release_one_releases,
      insertReplaceK_idem db.releases ["id"] _]
    exact countKey_insertReplaceK db.releases ["id"] _
  · exact habsorb
  · rw [habsorb]
    exact save_workflow_count db wrid wf wdoc hwd

def c1uW : J := jobj [("id", J.num 1), ("login", J.str "lo")]

def c1repoW : J := jobj [("id", J.num 2)]

def c1issueW : J := jobj [("id", J.num 3)]

def c1prW : J := jobj [("id", J.num 4)]

def c1commitW : J := jobj [("sha", J.str "abc")]

def c1releaseW : J := jobj [("id", J.num 5)]

/-- Witness for C1 on an empty store and minimal payloads of the seven
entity types. -/
theorem idempotent_reingestion_witness :
    ((save_user (save_user {} c1uW).1 c1uW).1.users = (save_user {} c1uW).1.users ∧
      countKey (save_user (save_user {} c1uW).1 c1uW).1.users ["id"]
        (keyOf ["id"] (user_to_save c1uW)) = 1) ∧
    ((save_repo (save_repo {} c1repoW).1 c1repoW).1.repos =
        (save_repo {} c1repoW).1.repos ∧
      countKey (save_repo (save_repo {} c1repoW).1 c1repoW).1.repos ["id"]
        (keyOf ["id"] (repo_to_save c1repoW)) = 1) ∧
    ((save_issues (save_issues {} [c1issueW] c1repoW) [c1issueW] c1repoW).issues =
        (save_issues {} [c1issueW] c1repoW).issues ∧
      countKey (save_issues (save_issues {} [c1issueW] c1repoW) [c1issueW]
          c1repoW).issues ["id"]
        (keyOf ["id"] (issue_row c1issueW (getFD (objFields c1repoW) "id"))) = 1) ∧
    ((save_pull_requests (save_pull_requests {} [c1prW] c1repoW) [c1prW]
          c1repoW).pull_requests =
        (save_pull_requests {} [c1prW] c1repoW).pull_requests ∧
      countKey (save_pull_requests (save_pull_requests {} [c1prW] c1repoW) [c1prW]
          c1repoW).pull_requests ["id"]
        (keyOf ["id"] (pull_request_row c1prW (getFD (objFields c1repoW) "id"))) = 1) ∧
    ((save_commits (save_commits {} [c1commitW] (J.num 2)) [c1commitW] (J.num 2)).commits =
        (save_commits {} [c1commitW] (J.num 2)).commits ∧
      countKey (save_commits (save_commits {} [c1commitW] (J.num 2)) [c1commitW]
          (J.num 2)).commits ["sha"]
        (keyOf ["sha"] (commit_row c1commitW (J.num 2))) = 1) ∧
    ((save_releases (save_releases {} [c1releaseW] (J.num 2)) [c1releaseW]
          (J.num 2)).releases =
        (save_releases {} [c1releaseW] (J.num 2)).releases ∧
      countKey (save_releases (save_releases {} [c1releaseW] (J.num 2)) [c1releaseW]
          (J.num 2)).releases ["id"]
        (keyOf ["id"] (release_row c1releaseW (J.num 2))) = 1) ∧
    (save_workflow (save_workflow {} (J.num 2) "ci" []) (J.num 2) "ci" [] =
        save_workflow {} (J.num 2) "ci" [] ∧
      countKey (save_workflow (save_workflow {} (J.num 2) "ci" []) (J.num 2) "ci"
          []).workflows
        ["id"] [some (J.num (allocId (workflow_delete_phase {} (J.num 2) "ci").workflows))] =
          1) :=
  idempotent_reingestion {} c1uW c1repoW c1repoW c1issueW c1prW c1commitW c1releaseW
    (J.num 2) (J.num 2) (J.num 2) "ci" [] (by decide) (by decide) (by decide) (by decide)
    (by decide) (by decide) (by decide)

lemma contains_true_iff {α : Type} [BEq α] [LawfulBEq α] (l : List α) (a : α) :
    l.contains a = true ↔ a ∈ l := by
  show l.elem a = true ↔ a ∈ l
  simp

/-- The schema side of one `ensure_db_shape` run, with the vec outcome
already resolved. -/
def shape_pipeline (b : Bool) (s : Schema) : Schema :=
  views_pass (fts_pass (ensure_embedding_tables b (index_foreign_keys (ensure_foreign_keys s))))

lemma ensure_db_shape_eq (env : VecEnv) (conn : Nat) (p : VecProc) (s : Schema) :
    ensure_db_shape env conn p s =
      ((maybe_load_sqlite_vec env conn p).1,
        shape_pipeline (maybe_load_sqlite_vec env conn p).2 s) := rfl

lemma maybe_load_cached {env : VecEnv} {c : Nat} {p : VecProc} {b : Bool}
    (h : p.cache = some b) : maybe_load_sqlite_vec env c p = (p, b) := by
  unfold maybe_load_sqlite_vec
  rw [h]

lemma efk_eq (s : Schema) : ensure_foreign_keys s =
    (if !(s.fks.contains ("repos", "license", "licenses", "key")) &&
        s.tables.contains "repos" && s.tables.contains "licenses" &&
        (colsOf s "repos").contains "license" && (colsOf s "licenses").contains "key"
      then { s with fks := s.fks ++ [("repos", "license", "licenses", "key")] }
      else s) := rfl

lemma efk_noop {s : Schema}
    (h : (!(s.fks.contains ("repos", "license", "licenses", "key")) &&
        s.tables.contains "repos" && s.tables.contains "licenses" &&
        (colsOf s "repos").contains "license" && (colsOf s "licenses").contains "key") = false) :
    ensure_foreign_keys s = s := by
  rw [efk_eq, h]
  rfl

lemma efk_tables (s : Schema) : (ensure_foreign_keys s).tables = s.tables := by
  rw [efk_eq]
  split <;> rfl

lemma efk_cols (s : Schema) : (ensure_foreign_keys s).cols = s.cols := by
  rw [efk_eq]
  split <;> rfl

lemma efk_fkIndexes (s : Schema) : (ensure_foreign_keys s).fkIndexes = s.fkIndexes := by
  rw [efk_eq]
  split <;> rfl

lemma efk_otherIndexes (s : Schema) : (ensure_foreign_keys s).otherIndexes = s.otherIndexes := by
  rw [efk_eq]
  split <;> rfl

lemma efk_views (s : Schema) : (ensure_foreign_keys s).views = s.views := by
  rw [efk_eq]
  split <;> rfl

lemma ifk_tables (s : Schema) : (index_foreign_keys s).tables = s.tables := rfl

lemma ifk_cols (s : Schema) : (index_foreign_keys s).cols = s.cols := rfl

lemma ifk_fks (s : Schema) : (index_foreign_keys s).fks = s.fks := rfl

lemma ifk_otherIndexes (s : Schema) : (index_foreign_keys s).otherIndexes = s.otherIndexes := rfl

lemma ifk_views (s : Schema) : (index_foreign_keys s).views = s.views := rfl

lemma addM_mono {x : String × String} {acc : List (String × String)}
    (L : List (String × String × String × String)) (h : x ∈ acc) :
    x ∈ L.foldl
      (fun idxs fk => if idxs.contains (fk.1, fk.2.1) then idxs else idxs ++ [(fk.1, fk.2.1)])
      acc := by
  induction L generalizing acc with
  | nil => exact h
  | cons g L ih =>
    rw [List.foldl_cons]
    apply ih
    by_cases hc : acc.contains (g.1, g.2.1) = true
    · rw [if_pos hc]; exact h
    · rw [if_neg hc]; exact List.mem_append_left _ h

lemma addM_mem (L : List (String × String × String × String)) :
    ∀ (acc : List (String × String)) (fk : String × String × String × String), fk ∈ L →
      (fk.1, fk.2.1) ∈ L.foldl
        (fun idxs fk => if idxs.contains (fk.1, fk.2.1) then idxs else idxs ++ [(fk.1, fk.2.1)])
        acc := by
  induction L with
  | nil => intro acc fk hm; cases hm
  | cons g L ih =>
    intro acc fk hm
    rw [List.foldl_cons]
    rcases List.mem_cons.mp hm with he | hm2
    · subst he
      apply addM_mono
      by_cases hc : acc.contains (fk.1, fk.2.1) = true
      · rw [if_pos hc]; exact (contains_true_iff _ _).mp hc
      · rw [if_neg hc]; exact List.mem_append_right _ (by simp)
    · exact ih _ fk hm2

lemma addM_noop (L : List (String × String × String × String))
    (acc : List (String × String)) (h : ∀ fk ∈ L, (fk.1, fk.2.1) ∈ acc) :
    L.foldl
      (fun idxs fk => if idxs.contains (fk.1, fk.2.1) then idxs else idxs ++ [(fk.1, fk.2.1)])
      acc = acc := by
  induction L with
  | nil => rfl
  | cons g L ih =>
    rw [List.foldl_cons, if_pos ((contains_true_iff _ _).mpr (h g (by simp)))]
    exact ih (fun fk hm => h fk (by simp [hm]))

lemma ifk_noop {s : Schema} (h : ∀ fk ∈ s.fks, (fk.1, fk.2.1) ∈ s.fkIndexes) :
    index_foreign_keys s = s := by
  unfold index_foreign_keys
  rw [addM_noop s.fks s.fkIndexes h]

lemma emb_step1_tables (uv : Bool) (ts0 : List String) (s : Schema) :
    (emb_step1 uv ts0 s).tables =
      if ts0.contains "repo_embeddings" then s.tables
      else s.tables ++ ["repo_embeddings"] := by
  unfold emb_step1
  split_ifs <;> simp_all

lemma emb_step2_tables (uv : Bool) (ts0 : List String) (s : Schema) :
    (emb_step2 uv ts0 s).tables =
      if ts0.contains "readme_chunk_embeddings" then s.tables
      else s.tables ++ ["readme_chunk_embeddings"] := by
  unfold emb_step2
  dsimp only
  split_ifs <;> simp_all

lemma emb_step3_tables (ts0 : List String) (s : Schema) :
    (emb_step3 ts0 s).tables =
      if ts0.contains "repo_build_files" then s.tables
      else s.tables ++ ["repo_build_files"] := by
  unfold emb_step3
  split_ifs <;> simp_all

lemma emb_step4_tables (ts0 : List String) (s : Schema) :
    (emb_step4 ts0 s).tables =
      if ts0.contains "repo_metadata" then s.tables
      else s.tables ++ ["repo_metadata"] := by
  unfold emb_step4
  split_ifs <;> simp_all

lemma emb_step1_fks (uv : Bool) (ts0 : List String) (s : Schema) :
    (emb_step1 uv ts0 s).fks =
      if !(ts0.contains "repo_embeddings") && !uv && ts0.contains "repos" then
        s.fks ++ [("repo_embeddings", "repo_id", "repos", "id")]
      else s.fks := by
  unfold emb_step1
  split_ifs <;> simp_all

lemma emb_step2_fks (uv : Bool) (ts0 : List String) (s : Schema) :
    (emb_step2 uv ts0 s).fks =
      if !(ts0.contains "readme_chunk_embeddings") && !uv && ts0.contains "repos" then
        s.fks ++ [("readme_chunk_embeddings", "repo_id", "repos", "id")]
      else s.fks := by
  unfold emb_step2
  dsimp only
  split_ifs <;> simp_all

lemma emb_step3_fks (ts0 : List String) (s : Schema) :
    (emb_step3 ts0 s).fks =
      if !(ts0.contains "repo_build_files") && ts0.contains "repos" then
        s.fks ++ [("repo_build_files", "repo_id", "repos", "id")]
      else s.fks := by
  unfold emb_step3
  split_ifs <;> simp_all

lemma emb_step4_fks (ts0 : List String) (s : Schema) :
    (emb_step4 ts0 s).fks =
      if !(ts0.contains "repo_metadata") && ts0.contains "repos" then
        s.fks ++ [("repo_metadata", "repo_id", "repos", "id")]
      else s.fks := by
  unfold emb_step4
  split_ifs <;> simp_all

lemma emb_step1_otherIndexes (uv : Bool) (ts0 : List String) (s : Schema) :
    (emb_step1 uv ts0 s).otherIndexes = s.otherIndexes := by
  unfold emb_step1
  split_ifs <;> rfl

lemma emb_step2_otherIndexes (uv : Bool) (ts0 : List String) (s : Schema) :
    (emb_step2 uv ts0 s).otherIndexes =
      if !(ts0.contains "readme_chunk_embeddings") && uv &&
          !(s.otherIndexes.contains "readme_chunk_idx") then
        s.otherIndexes ++ ["readme_chunk_idx"]
      else s.otherIndexes := by
  unfold emb_step2
  dsimp only
  split_ifs <;> simp_all

lemma emb_step3_otherIndexes (ts0 : List String) (s : Schema) :
    (emb_step3 ts0 s).otherIndexes = s.otherIndexes := by
  unfold emb_step3
  split_ifs <;> rfl

lemma emb_step4_otherIndexes (ts0 : List String) (s : Schema) :
    (emb_step4 ts0 s).otherIndexes = s.otherIndexes := by
  unfold emb_step4
  split_ifs <;> rfl

lemma emb_step1_cols (uv : Bool) (ts0 : List String) (s : Schema) :
    (emb_step1 uv ts0 s).cols = s.cols := by
  unfold emb_step1
  split_ifs <;> rfl

lemma emb_step2_cols (uv : Bool) (ts0 : List String) (s : Schema) :
    (emb_step2 uv ts0 s).cols = s.cols := by
  unfold emb_step2
  dsimp only
  split_ifs <;> rfl

lemma emb_step3_cols (ts0 : List String) (s : Schema) :
    (emb_step3 ts0 s).cols = s.cols := by
  unfold emb_step3
  split_ifs <;> rfl

lemma emb_step4_cols (ts0 : List String) (s : Schema) :
    (emb_step4 ts0 s).cols = s.cols := by
  unfold emb_step4
  split_ifs <;> rfl

lemma emb_step1_fkIndexes (uv : Bool) (ts0 : List String) (s : Schema) :
    (emb_step1 uv ts0 s).fkIndexes = s.fkIndexes := by
  unfold emb_step1
  split_ifs <;> rfl

lemma emb_step2_fkIndexes (uv : Bool) (ts0 : List String) (s : Schema) :
    (emb_step2 uv ts0 s).fkIndexes = s.fkIndexes := by
  unfold emb_step2
  dsimp only
  split_ifs <;> rfl

lemma emb_step3_fkIndexes (ts0 : List String) (s : Schema) :
    (emb_step3 ts0 s).fkIndexes = s.fkIndexes := by
  unfold emb_step3
  split_ifs <;> rfl

lemma emb_step4_fkIndexes (ts0 : List String) (s : Schema) :
    (emb_step4 ts0 s).fkIndexes = s.fkIndexes := by
  unfold emb_step4
  split_ifs <;> rfl

lemma emb_step1_views (uv : Bool) (ts0 : List String) (s : Schema) :
    (emb_step1 uv ts0 s).views = s.views := by
  unfold emb_step1
  split_ifs <;> rfl

lemma emb_step2_views (uv : Bool) (ts0 : List String) (s : Schema) :
    (emb_step2 uv ts0 s).views = s.views := by
  unfold emb_step2
  dsimp only
  split_ifs <;> rfl

lemma emb_step3_views (ts0 : List String) (s : Schema) :
    (emb_step3 ts0 s).views = s.views := by
  unfold emb_step3
  split_ifs <;> rfl

lemma emb_step4_views (ts0 : List String) (s : Schema) :
    (emb_step4 ts0 s).views = s.views := by
  unfold emb_step4
  split_ifs <;> rfl

lemma emb_step1_noop (uv : Bool) (ts0 : List String) (s : Schema)
    (h : ts0.contains "repo_embeddings" = true) : emb_step1 uv ts0 s = s := by
  unfold emb_step1
  rw [if_pos h]

lemma emb_step2_noop (uv : Bool) (ts0 : List String) (s : Schema)
    (h : ts0.contains "readme_chunk_embeddings" = true) : emb_step2 uv ts0 s = s := by
  unfold emb_step2
  rw [if_pos h]

lemma emb_step3_noop (ts0 : List String) (s : Schema)
    (h : ts0.contains "repo_build_files" = true) : emb_step3 ts0 s = s := by
  unfold emb_step3
  rw [if_pos h]

lemma emb_step4_noop (ts0 : List String) (s : Schema)
    (h : ts0.contains "repo_metadata" = true) : emb_step4 ts0 s = s := by
  unfold emb_step4
  rw [if_pos h]

lemma emb_cols (b : Bool) (s : Schema) : (ensure_embedding_tables b s).cols = s.cols := by
  unfold ensure_embedding_tables
  rw [emb_step4_cols, emb_step3_cols, emb_step2_cols, emb_step1_cols]

lemma emb_fkIndexes (b : Bool) (s : Schema) :
    (ensure_embedding_tables b s).fkIndexes = s.fkIndexes := by
  unfold ensure_embedding_tables
  rw [emb_step4_fkIndexes, emb_step3_fkIndexes, emb_step2_fkIndexes, emb_step1_fkIndexes]

lemma emb_views (b : Bool) (s : Schema) : (ensure_embedding_tables b s).views = s.views := by
  unfold ensure_embedding_tables
  rw [emb_step4_views, emb_step3_views, emb_step2_views, emb_step1_views]

lemma emb_tables_eq (b : Bool) (s : Schema) :
    (ensure_embedding_tables b s).tables = s.tables ++
      ((if s.tables.contains "repo_embeddings" then [] else ["repo_embeddings"]) ++
        (if s.tables.contains "readme_chunk_embeddings" then []
          else ["readme_chunk_embeddings"]) ++
        (if s.tables.contains "repo_build_files" then [] else ["repo_build_files"]) ++
        (if s.tables.contains "repo_metadata" then [] else ["repo_metadata"])) := by
  unfold ensure_embedding_tables
  rw [emb_step4_tables, emb_step3_tables, emb_step2_tables, emb_step1_tables]
  split_ifs <;> simp

lemma emb_fks_eq (b : Bool) (s : Schema) :
    (ensure_embedding_tables b s).fks = s.fks ++
      ((if !(s.tables.contains "repo_embeddings") && !b && s.tables.contains "repos" then
          [("repo_embeddings", "repo_id", "repos", "id")]
        else []) ++
        (if !(s.tables.contains "readme_chunk_embeddings") && !b &&
            s.tables.contains "repos" then
          [("readme_chunk_embeddings", "repo_id", "repos", "id")]
        else []) ++
        (if !(s.tables.contains "repo_build_files") && s.tables.contains "repos" then
          [("repo_build_files", "repo_id", "repos", "id")]
        else []) ++
        (if !(s.tables.contains "repo_metadata") && s.tables.contains "repos" then
          [("repo_metadata", "repo_id", "repos", "id")]
        else [])) := by
  unfold ensure_embedding_tables
  rw [emb_step4_fks, emb_step3_fks, emb_step2_fks, emb_step1_fks]
  split_ifs <;> simp

lemma emb_otherIndexes_eq (b : Bool) (s : Schema) :
    (ensure_embedding_tables b s).otherIndexes =
      if !(s.tables.contains "readme_chunk_embeddings") && b &&
          !(s.otherIndexes.contains "readme_chunk_idx") then
        s.otherIndexes ++ ["readme_chunk_idx"]
      else s.otherIndexes := by
  unfold ensure_embedding_tables
  rw [emb_step4_otherIndexes, emb_step3_otherIndexes, emb_step2_otherIndexes,
    emb_step1_otherIndexes]

lemma emb_tables_mono (b : Bool) (s : Schema) {x : String} (hx : x ∈ s.tables) :
    x ∈ (ensure_embedding_tables b s).tables := by
  rw [emb_tables_eq]
  exact List.mem_append_left _ hx

lemma mem_if_nil_singleton {α : Type} {c : Prop} [Decidable c] {t x : α}
    (h : x ∈ (if c then ([] : List α) else [t])) : ¬c ∧ x = t := by
  split_ifs at h with hc
  · cases h
  · exact ⟨hc, by simpa using h⟩

lemma mem_if_singleton_nil {α : Type} {c : Prop} [Decidable c] {t x : α}
    (h : x ∈ (if c then [t] else ([] : List α))) : c ∧ x = t := by
  split_ifs at h with hc
  · exact ⟨hc, by simpa using h⟩
  · cases h

lemma emb_tables_cases (b : Bool) (s : Schema) {x : String}
    (hx : x ∈ (ensure_embedding_tables b s).tables) :
    x ∈ s.tables ∨
      x ∈ (["repo_embeddings", "readme_chunk_embeddings", "repo_build_files",
        "repo_metadata"] : List String) := by
  rw [emb_tables_eq] at hx
  rcases List.mem_append.mp hx with h | h
  · exact Or.inl h
  · right
    rcases List.mem_append.mp h with h2 | h2
    · rcases List.mem_append.mp h2 with h3 | h3
      · rcases List.mem_append.mp h3 with h4 | h4
        · rw [(mem_if_nil_singleton h4).2]
          simp
        · rw [(mem_if_nil_singleton h4).2]
          simp
      · rw [(mem_if_nil_singleton h3).2]
        simp
    · rw [(mem_if_nil_singleton h2).2]
      simp

lemma emb_fks_mono (b : Bool) (s : Schema) {fk : String × String × String × String}
    (hfk : fk ∈ s.fks) : fk ∈ (ensure_embedding_tables b s).fks := by
  rw [emb_fks_eq]
  exact List.mem_append_left _ hfk

lemma emb_fks_cases (b : Bool) (s : Schema) {fk : String × String × String × String}
    (hfk : fk ∈ (ensure_embedding_tables b s).fks) :
    fk ∈ s.fks ∨
      fk ∈ ([("repo_embeddings", "repo_id", "repos", "id"),
        ("readme_chunk_embeddings", "repo_id", "repos", "id"),
        ("repo_build_files", "repo_id", "repos", "id"),
        ("repo_metadata", "repo_id", "repos", "id")] :
          List (String × String × String × String)) := by
  rw [emb_fks_eq] at hfk
  rcases List.mem_append.mp hfk with h | h
  · exact Or.inl h
  · right
    rcases List.mem_append.mp h with h2 | h2
    · rcases List.mem_append.mp h2 with h3 | h3
      · rcases List.mem_append.mp h3 with h4 | h4
        · rw [(mem_if_singleton_nil h4).2]
          simp
        · rw [(mem_if_singleton_nil h4).2]
          simp
      · rw [(mem_if_singleton_nil h3).2]
        simp
    · rw [(mem_if_singleton_nil h2).2]
      simp

lemma emb_otherIndexes_cases (b : Bool) (s : Schema) {x : String}
    (hx : x ∈ (ensure_embedding_tables b s).otherIndexes) :
    x ∈ s.otherIndexes ∨ x = "readme_chunk_idx" := by
  rw [emb_otherIndexes_eq] at hx
  split_ifs at hx
  · rcases List.mem_append.mp hx with h | h
    · exact Or.inl h
    · exact Or.inr (by simpa using h)
  · exact Or.inl hx

lemma emb_p1 (b : Bool) (s : Schema) :
    "repo_embeddings" ∈ (ensure_embedding_tables b s).tables := by
  rw [emb_tables_eq]
  by_cases h1 : s.tables.contains "repo_embeddings" = true
  · exact List.mem_append_left _ ((contains_true_iff _ _).mp h1)
  · apply List.mem_append_right
    apply List.mem_append_left
    apply List.mem_append_left
    apply List.mem_append_left
    rw [if_neg h1]
    simp

lemma emb_p2 (b : Bool) (s : Schema) :
    "readme_chunk_embeddings" ∈ (ensure_embedding_tables b s).tables := by
  rw [emb_tables_eq]
  by_cases h2 : s.tables.contains "readme_chunk_embeddings" = true
  · exact List.mem_append_left _ ((contains_true_iff _ _).mp h2)
  · apply List.mem_append_right
    apply List.mem_append_left
    apply List.mem_append_left
    apply List.mem_append_right
    rw [if_neg h2]
    simp

lemma emb_p3 (b : Bool) (s : Schema) :
    "repo_build_files" ∈ (ensure_embedding_tables b s).tables := by
  rw [emb_tables_eq]
  by_cases h3 : s.tables.contains "repo_build_files" = true
  · exact List.mem_append_left _ ((contains_true_iff _ _).mp h3)
  · apply List.mem_append_right
    apply List.mem_append_left
    apply List.mem_append_right
    rw [if_neg h3]
    simp

lemma emb_p4 (b : Bool) (s : Schema) :
    "repo_metadata" ∈ (ensure_embedding_tables b s).tables := by
  rw [emb_tables_eq]
  by_cases h4 : s.tables.contains "repo_metadata" = true
  · exact List.mem_append_left _ ((contains_true_iff _ _).mp h4)
  · apply List.mem_append_right
    apply List.mem_append_right
    rw [if_neg h4]
    simp

lemma emb_noop (b : Bool) {s : Schema}
    (h1 : s.tables.contains "repo_embeddings" = true)
    (h2 : s.tables.contains "readme_chunk_embeddings" = true)
    (h3 : s.tables.contains "repo_build_files" = true)
    (h4 : s.tables.contains "repo_metadata" = true) :
    ensure_embedding_tables b s = s := by
  unfold ensure_embedding_tables
  rw [emb_step1_noop _ _ _ h1, emb_step2_noop _ _ _ h2, emb_step3_noop _ _ h3,
    emb_step4_noop _ _ h4]

lemma fts_tables (s : Schema) : (fts_pass s).tables = s.tables ++
    ((FTS_CONFIG.filter
      (fun tc => s.tables.contains tc.1 && !s.tables.contains (tc.1 ++ "_fts"))).map
      (fun tc => tc.1 ++ "_fts")) := rfl

lemma fts_noop {s : Schema}
    (h : ∀ tc ∈ FTS_CONFIG,
      (s.tables.contains tc.1 && !s.tables.contains (tc.1 ++ "_fts")) = false) :
    fts_pass s = s := by
  unfold fts_pass
  dsimp only
  have hf : FTS_CONFIG.filter
      (fun tc => s.tables.contains tc.1 && !s.tables.contains (tc.1 ++ "_fts")) = [] := by
    rw [List.filter_eq_nil_iff]
    intro a ha
    rw [h a ha]
    simp
  rw [hf, List.map_nil, List.append_nil]

lemma fts_tables_mono (s : Schema) {x : String} (hx : x ∈ s.tables) :
    x ∈ (fts_pass s).tables :=
  List.mem_append_left _ hx

lemma fts_tables_cases (s : Schema) {x : String} (hx : x ∈ (fts_pass s).tables) :
    x ∈ s.tables ∨ x ∈ FTS_CONFIG.map (fun tc => tc.1 ++ "_fts") := by
  rcases List.mem_append.mp hx with h | h
  · exact Or.inl h
  · rcases List.mem_map.mp h with ⟨tc, htc, he⟩
    exact Or.inr (List.mem_map.mpr ⟨tc, (List.mem_filter.mp htc).1, he⟩)

/-- Every entry of a view list carrying this name carries this definition. -/
def allKey (vs : List (String × Nat)) (n : String) (d : Nat) : Prop :=
  ∀ kv ∈ vs, kv.1 = n → kv = (n, d)

lemma setView_hasName_self (vs : List (String × Nat)) (n : String) (d : Nat) :
    (setView vs n d).any (fun kv => kv.1 == n) = true := by
  unfold setView
  by_cases h : vs.any (fun kv => kv.1 == n) = true
  · rw [if_pos h]
    rcases List.any_eq_true.mp h with ⟨kv, hm, hp⟩
    exact List.any_eq_true.mpr ⟨(n, d), List.mem_map.mpr ⟨kv, hm, by rw [if_pos hp]⟩, by simp⟩
  · rw [if_neg h]
    exact List.any_eq_true.mpr ⟨(n, d), List.mem_append_right _ (by simp), by simp⟩

lemma setView_hasName_mono (vs : List (String × Nat)) {n n2 : String} (d2 : Nat)
    (hne : n2 ≠ n) (h : vs.any (fun kv => kv.1 == n) = true) :
    (setView vs n2 d2).any (fun kv => kv.1 == n) = true := by
  unfold setView
  rcases List.any_eq_true.mp h with ⟨kv, hm, hp⟩
  by_cases h2 : vs.any (fun kv => kv.1 == n2) = true
  · rw [if_pos h2]
    refine List.any_eq_true.mpr ⟨kv, List.mem_map.mpr ⟨kv, hm, ?_⟩, hp⟩
    rw [if_neg (by rw [beq_iff_eq] at hp ⊢; rw [hp]; exact fun hc => hne hc.symm)]
  · rw [if_neg h2]
    exact List.any_eq_true.mpr ⟨kv, List.mem_append_left _ hm, hp⟩

lemma setView_allKey_self (vs : List (String × Nat)) (n : String) (d : Nat) :
    allKey (setView vs n d) n d := by
  unfold setView allKey
  by_cases h : vs.any (fun kv => kv.1 == n) = true
  · rw [if_pos h]
    intro kv hm hk
    rcases List.mem_map.mp hm with ⟨kv0, hm0, he⟩
    by_cases hp : kv0.1 == n
    · rw [if_pos hp] at he
      exact he.symm
    · rw [if_neg hp] at he
      subst he
      exact absurd hk (by simpa using hp)
  · rw [if_neg h]
    intro kv hm hk
    rcases List.mem_append.mp hm with hm2 | hm2
    · refine absurd ?_ h
      exact List.any_eq_true.mpr ⟨kv, hm2, beq_iff_eq.mpr hk⟩
    · simpa using hm2

lemma setView_allKey_mono (vs : List (String × Nat)) {n n2 : String} (d2 : Nat) {d : Nat}
    (hne : n2 ≠ n) (h : allKey vs n d) : allKey (setView vs n2 d2) n d := by
  unfold setView
  by_cases h2 : vs.any (fun kv => kv.1 == n2) = true
  · rw [if_pos h2]
    intro kv hm hk
    rcases List.mem_map.mp hm with ⟨kv0, hm0, he⟩
    by_cases hp : kv0.1 == n2
    · rw [if_pos hp] at he
      subst he
      exact absurd hk (fun hc => hne hc)
    · rw [if_neg hp] at he
      subst he
      exact h kv0 hm0 hk
  · rw [if_neg h2]
    intro kv hm hk
    rcases List.mem_append.mp hm with hm2 | hm2
    · exact h kv hm2 hk
    · have he : kv = (n2, d2) := by simpa using hm2
      subst he
      exact absurd hk hne

lemma setView_id {vs : List (String × Nat)} {n : String} {d : Nat}
    (hH : vs.any (fun kv => kv.1 == n) = true) (hA : allKey vs n d) :
    setView vs n d = vs := by
  unfold setView
  rw [if_pos hH]
  apply map_eq_self_of_eq
  intro kv hm
  by_cases hp : kv.1 == n
  · rw [if_pos hp]
    exact (hA kv hm (by simpa using hp)).symm
  · rw [if_neg hp]

lemma vfold_tables (l : List (Nat × String × List String)) (s : Schema) :
    (l.foldl
      (fun s iv =>
        if iv.2.2.all (fun t => s.tables.contains t) then
          { s with views := setView s.views iv.2.1 iv.1 }
        else s)
      s).tables = s.tables := by
  induction l generalizing s with
  | nil => rfl
  | cons iv l ih =>
    rw [List.foldl_cons]
    by_cases hc : (iv.2.2.all (fun t => s.tables.contains t)) = true
    · rw [if_pos hc, ih]
    · rw [if_neg hc, ih]

lemma vfold_cols (l : List (Nat × String × List String)) (s : Schema) :
    (l.foldl
      (fun s iv =>
        if iv.2.2.all (fun t => s.tables.contains t) then
          { s with views := setView s.views iv.2.1 iv.1 }
        else s)
      s).cols = s.cols := by
  induction l generalizing s with
  | nil => rfl
  | cons iv l ih =>
    rw [List.foldl_cons]
    by_cases hc : (iv.2.2.all (fun t => s.tables.contains t)) = true
    · rw [if_pos hc, ih]
    · rw [if_neg hc, ih]

lemma vfold_fks (l : List (Nat × String × List String)) (s : Schema) :
    (l.foldl
      (fun s iv =>
        if iv.2.2.all (fun t => s.tables.contains t) then
          { s with views := setView s.views iv.2.1 iv.1 }
        else s)
      s).fks = s.fks := by
  induction l generalizing s with
  | nil => rfl
  | cons iv l ih =>
    rw [List.foldl_cons]
    by_cases hc : (iv.2.2.all (fun t => s.tables.contains t)) = true
    · rw [if_pos hc, ih]
    · rw [if_neg hc, ih]

lemma vfold_fkIndexes (l : List (Nat × String × List String)) (s : Schema) :
    (l.foldl
      (fun s iv =>
        if iv.2.2.all (fun t => s.tables.contains t) then
          { s with views := setView s.views iv.2.1 iv.1 }
        else s)
      s).fkIndexes = s.fkIndexes := by
  induction l generalizing s with
  | nil => rfl
  | cons iv l ih =>
    rw [List.foldl_cons]
    by_cases hc : (iv.2.2.all (fun t => s.tables.contains t)) = true
    · rw [if_pos hc, ih]
    · rw [if_neg hc, ih]

lemma vfold_otherIndexes (l : List (Nat × String × List String)) (s : Schema) :
    (l.foldl
      (fun s iv =>
        if iv.2.2.all (fun t => s.tables.contains t) then
          { s with views := setView s.views iv.2.1 iv.1 }
        else s)
      s).otherIndexes = s.otherIndexes := by
  induction l generalizing s with
  | nil => rfl
  | cons iv l ih =>
    rw [List.foldl_cons]
    by_cases hc : (iv.2.2.all (fun t => s.tables.contains t)) = true
    · rw [if_pos hc, ih]
    · rw [if_neg hc, ih]

lemma views_pass_tables (s : Schema) : (views_pass s).tables = s.tables :=
  vfold_tables VIEWS.enum s

lemma views_pass_cols (s : Schema) : (views_pass s).cols = s.cols :=
  vfold_cols VIEWS.enum s

lemma views_pass_fks (s : Schema) : (views_pass s).fks = s.fks :=
  vfold_fks VIEWS.enum s

lemma views_pass_fkIndexes (s : Schema) : (views_pass s).fkIndexes = s.fkIndexes :=
  vfold_fkIndexes VIEWS.enum s

lemma views_pass_otherIndexes (s : Schema) : (views_pass s).otherIndexes = s.otherIndexes :=
  vfold_otherIndexes VIEWS.enum s

lemma vfold_preserve (l : List (Nat × String × List String)) (s : Schema) (n : String)
    (d : Nat) (hn : ∀ iv ∈ l, iv.2.1 ≠ n) (hA : allKey s.views n d)
    (hH : s.views.any (fun kv => kv.1 == n) = true) :
    allKey (l.foldl
      (fun s iv =>
        if iv.2.2.all (fun t => s.tables.contains t) then
          { s with views := setView s.views iv.2.1 iv.1 }
        else s)
      s).views n d ∧
    ((l.foldl
      (fun s iv =>
        if iv.2.2.all (fun t => s.tables.contains t) then
          { s with views := setView s.views iv.2.1 iv.1 }
        else s)
      s).views.any (fun kv => kv.1 == n)) = true := by
  induction l generalizing s with
  | nil => exact ⟨hA, hH⟩
  | cons iv l ih =>
    rw [List.foldl_cons]
    by_cases hc : (iv.2.2.all (fun t => s.tables.contains t)) = true
    · rw [if_pos hc]
      exact ih _ (fun iv2 hm => hn iv2 (by simp [hm]))
        (setView_allKey_mono s.views iv.1 (hn iv (by simp)) hA)
        (setView_hasName_mono s.views iv.1 (hn iv (by simp)) hH)
    · rw [if_neg hc]
      exact ih _ (fun iv2 hm => hn iv2 (by simp [hm])) hA hH

lemma vfold_good (l : List (Nat × String × List String)) (s : Schema)
    (hnd : (l.map (fun iv => iv.2.1)).Nodup) :
    ∀ iv ∈ l, (iv.2.2.all (fun t => s.tables.contains t)) = true →
      allKey (l.foldl
        (fun s iv =>
          if iv.2.2.all (fun t => s.tables.contains t) then
            { s with views := setView s.views iv.2.1 iv.1 }
          else s)
        s).views iv.2.1 iv.1 ∧
      ((l.foldl
        (fun s iv =>
          if iv.2.2.all (fun t => s.tables.contains t) then
            { s with views := setView s.views iv.2.1 iv.1 }
          else s)
        s).views.any (fun kv => kv.1 == iv.2.1)) = true := by
  induction l generalizing s with
  | nil => intro iv hm; cases hm
  | cons iv0 l ih =>
    rw [List.map_cons, List.nodup_cons] at hnd
    intro iv hm hc
    rw [List.foldl_cons]
    rcases List.mem_cons.mp hm with he | hm2
    · subst he
      rw [if_pos hc]
      exact vfold_preserve l _ iv.2.1 iv.1
        (fun iv2 hm2 hne => hnd.1 (List.mem_map.mpr ⟨iv2, hm2, hne⟩))
        (setView_allKey_self s.views iv.2.1 iv.1)
        (setView_hasName_self s.views iv.2.1 iv.1)
    · by_cases hc0 : (iv0.2.2.all (fun t => s.tables.contains t)) = true
      · rw [if_pos hc0]
        exact ih _ hnd.2 iv hm2 hc
      · rw [if_neg hc0]
        exact ih _ hnd.2 iv hm2 hc

lemma vfold_noop (l : List (Nat × String × List String)) (s : Schema)
    (h : ∀ iv ∈ l, (iv.2.2.all (fun t => s.tables.contains t)) = true →
      allKey s.views iv.2.1 iv.1 ∧
        (s.views.any (fun kv => kv.1 == iv.2.1)) = true) :
    l.foldl
      (fun s iv =>
        if iv.2.2.all (fun t => s.tables.contains t) then
          { s with views := setView s.views iv.2.1 iv.1 }
        else s)
      s = s := by
  induction l with
  | nil => rfl
  | cons iv0 l ih =>
    rw [List.foldl_cons]
    by_cases hc0 : (iv0.2.2.all (fun t => s.tables.contains t)) = true
    · rw [if_pos hc0]
      have hid := setView_id (h iv0 (by simp) hc0).2 (h iv0 (by simp) hc0).1
      rw [hid]
      exact ih (fun iv hm => h iv (by simp [hm]))
    · rw [if_neg hc0]
      exact ih (fun iv hm => h iv (by simp [hm]))

lemma views_pass_idem (s : Schema) : views_pass (views_pass s) = views_pass s := by
  unfold views_pass
  apply vfold_noop
  intro iv hm hc
  have htab := vfold_tables VIEWS.enum s
  rw [htab] at hc
  exact vfold_good VIEWS.enum s (by decide) iv hm hc

lemma fts_cols (s : Schema) : (fts_pass s).cols = s.cols := rfl

lemma fts_fks (s : Schema) : (fts_pass s).fks = s.fks := rfl

lemma fts_fkIndexes (s : Schema) : (fts_pass s).fkIndexes = s.fkIndexes := rfl

lemma fts_otherIndexes (s : Schema) : (fts_pass s).otherIndexes = s.otherIndexes := rfl

lemma fts_views (s : Schema) : (fts_pass s).views = s.views := rfl

lemma pipeline_cols (b : Bool) (s : Schema) : (shape_pipeline b s).cols = s.cols := by
  unfold shape_pipeline
  rw [views_pass_cols, fts_cols, emb_cols, ifk_cols, efk_cols]

lemma pipeline_fks (b : Bool) (s : Schema) :
    (shape_pipeline b s).fks =
      (ensure_embedding_tables b (index_foreign_keys (ensure_foreign_keys s))).fks := by
  unfold shape_pipeline
  rw [views_pass_fks, fts_fks]

lemma pipeline_fkIndexes (b : Bool) (s : Schema) :
    (shape_pipeline b s).fkIndexes =
      (index_foreign_keys (ensure_foreign_keys s)).fkIndexes := by
  unfold shape_pipeline
  rw [views_pass_fkIndexes, fts_fkIndexes, emb_fkIndexes]

lemma pipeline_tables_mono (b : Bool) (s : Schema) {x : String} (hx : x ∈ s.tables) :
    x ∈ (shape_pipeline b s).tables := by
  unfold shape_pipeline
  rw [views_pass_tables]
  exact fts_tables_mono _ (emb_tables_mono _ _ (by rw [ifk_tables, efk_tables]; exact hx))

lemma pipeline_tables_cases (b : Bool) (s : Schema) {x : String}
    (hx : x ∈ (shape_pipeline b s).tables) :
    x ∈ s.tables ∨
      x ∈ (["repo_embeddings", "readme_chunk_embeddings", "repo_build_files",
        "repo_metadata"] : List String) ∨
      x ∈ FTS_CONFIG.map (fun tc => tc.1 ++ "_fts") := by
  unfold shape_pipeline at hx
  rw [views_pass_tables] at hx
  rcases fts_tables_cases _ hx with h | h
  · rcases emb_tables_cases _ _ h with h2 | h2
    · rw [ifk_tables, efk_tables] at h2
      exact Or.inl h2
    · exact Or.inr (Or.inl h2)
  · exact Or.inr (Or.inr h)

lemma pipeline_contains_stable (b : Bool) (s : Schema) (x : String)
    (h1 : x ∉ (["repo_embeddings", "readme_chunk_embeddings", "repo_build_files",
      "repo_metadata"] : List String))
    (h2 : x ∉ FTS_CONFIG.map (fun tc => tc.1 ++ "_fts")) :
    ((shape_pipeline b s).tables.contains x) = (s.tables.contains x) := by
  cases hc : s.tables.contains x
  · cases hc2 : (shape_pipeline b s).tables.contains x
    · rfl
    · exfalso
      rcases pipeline_tables_cases b s ((contains_true_iff _ _).mp hc2) with h | h | h
      · rw [(contains_true_iff s.tables x).mpr h] at hc
        cases hc
      · exact h1 h
      · exact h2 h
  · exact (contains_true_iff _ _).mpr (pipeline_tables_mono b s ((contains_true_iff _ _).mp hc))

lemma pipeline_efk_cond (b : Bool) (s : Schema) :
    (!((shape_pipeline b s).fks.contains ("repos", "license", "licenses", "key")) &&
      (shape_pipeline b s).tables.contains "repos" &&
      (shape_pipeline b s).tables.contains "licenses" &&
      (colsOf (shape_pipeline b s) "repos").contains "license" &&
      (colsOf (shape_pipeline b s) "licenses").contains "key") = false := by
  by_cases hc : (!(s.fks.contains ("repos", "license", "licenses", "key")) &&
      s.tables.contains "repos" && s.tables.contains "licenses" &&
      (colsOf s "repos").contains "license" && (colsOf s "licenses").contains "key") = true
  · have hm0 : ("repos", "license", "licenses", "key") ∈ (shape_pipeline b s).fks := by
      rw [pipeline_fks]
      apply emb_fks_mono
      rw [ifk_fks, efk_eq, if_pos hc]
      exact List.mem_append_right _ (by simp)
    rw [(contains_true_iff _ _).mpr hm0]
    rfl
  · have hcf : (!(s.fks.contains ("repos", "license", "licenses", "key")) &&
        s.tables.contains "repos" && s.tables.contains "licenses" &&
        (colsOf s "repos").contains "license" && (colsOf s "licenses").contains "key")
          = false := by
      revert hc
      cases (!(s.fks.contains ("repos", "license", "licenses", "key")) &&
        s.tables.contains "repos" && s.tables.contains "licenses" &&
        (colsOf s "repos").contains "license" && (colsOf s "licenses").contains "key")
      · intro _; rfl
      · intro hc; exact absurd rfl hc
    have hefk : ensure_foreign_keys s = s := efk_noop hcf
    have hcontfk : ((shape_pipeline b s).fks.contains ("repos", "license", "licenses", "key"))
        = (s.fks.contains ("repos", "license", "licenses", "key")) := by
      cases hc0 : s.fks.contains ("repos", "license", "licenses", "key")
      · cases hc2 : (shape_pipeline b s).fks.contains ("repos", "license", "licenses", "key")
        · rfl
        · exfalso
          have hm2 := (contains_true_iff _ _).mp hc2
          rw [pipeline_fks] at hm2
          rcases emb_fks_cases _ _ hm2 with h | h
          · rw [ifk_fks, hefk] at h
            rw [(contains_true_iff s.fks _).mpr h] at hc0
            cases hc0
          · simp at h
      · apply (contains_true_iff _ _).mpr
        rw [pipeline_fks]
        apply emb_fks_mono
        rw [ifk_fks, hefk]
        exact (contains_true_iff _ _).mp hc0
    have hcols : (shape_pipeline b s).cols = s.cols := pipeline_cols b s
    have hrep : ((shape_pipeline b s).tables.contains "repos") =
        (s.tables.contains "repos") :=
      pipeline_contains_stable b s "repos" (by decide) (by decide)
    have hlic : ((shape_pipeline b s).tables.contains "licenses") =
        (s.tables.contains "licenses") :=
      pipeline_contains_stable b s "licenses" (by decide) (by decide)
    have hco1 : colsOf (shape_pipeline b s) "repos" = colsOf s "repos" := by
      unfold colsOf
      rw [hcols]
    have hco2 : colsOf (shape_pipeline b s) "licenses" = colsOf s "licenses" := by
      unfold colsOf
      rw [hcols]
    rw [hcontfk, hrep, hlic, hco1, hco2]
    exact hcf

lemma efk_noop_after (b : Bool) (s : Schema) :
    ensure_foreign_keys (shape_pipeline b s) = shape_pipeline b s :=
  efk_noop (pipeline_efk_cond b s)

lemma colsOf_ifk (s : Schema) (t : String) :
    colsOf (index_foreign_keys s) t = colsOf s t := by
  unfold colsOf
  rw [ifk_cols]

lemma efk_noop_ifk (b : Bool) (s : Schema) :
    ensure_foreign_keys (index_foreign_keys (shape_pipeline b s)) =
      index_foreign_keys (shape_pipeline b s) := by
  apply efk_noop
  rw [ifk_fks, ifk_tables, colsOf_ifk _ "repos", colsOf_ifk _ "licenses"]
  exact pipeline_efk_cond b s

lemma ifk_idem (s : Schema) :
    index_foreign_keys (index_foreign_keys s) = index_foreign_keys s := by
  apply ifk_noop
  intro fk hm
  rw [ifk_fks] at hm
  have hfold : (index_foreign_keys s).fkIndexes =
      s.fks.foldl
        (fun idxs fk =>
          if idxs.contains (fk.1, fk.2.1) then idxs else idxs ++ [(fk.1, fk.2.1)])
        s.fkIndexes := rfl
  rw [hfold]
  exact addM_mem s.fks s.fkIndexes fk hm

lemma pipeline_contains_emb1 (b : Bool) (s : Schema) :
    (shape_pipeline b s).tables.contains "repo_embeddings" = true := by
  apply (contains_true_iff _ _).mpr
  unfold shape_pipeline
  rw [views_pass_tables]
  exact fts_tables_mono _ (emb_p1 _ _)

lemma pipeline_contains_emb2 (b : Bool) (s : Schema) :
    (shape_pipeline b s).tables.contains "readme_chunk_embeddings" = true := by
  apply (contains_true_iff _ _).mpr
  unfold shape_pipeline
  rw [views_pass_tables]
  exact fts_tables_mono _ (emb_p2 _ _)

lemma pipeline_contains_emb3 (b : Bool) (s : Schema) :
    (shape_pipeline b s).tables.contains "repo_build_files" = true := by
  apply (contains_true_iff _ _).mpr
  unfold shape_pipeline
  rw [views_pass_tables]
  exact fts_tables_mono _ (emb_p3 _ _)

lemma pipeline_contains_emb4 (b : Bool) (s : Schema) :
    (shape_pipeline b s).tables.contains "repo_metadata" = true := by
  apply (contains_true_iff _ _).mpr
  unfold shape_pipeline
  rw [views_pass_tables]
  exact fts_tables_mono _ (emb_p4 _ _)

lemma emb_noop_after (b b2 : Bool) (s : Schema) :
    ensure_embedding_tables b2 (shape_pipeline b s) = shape_pipeline b s :=
  emb_noop b2 (pipeline_contains_emb1 b s) (pipeline_contains_emb2 b s)
    (pipeline_contains_emb3 b s) (pipeline_contains_emb4 b s)

lemma emb_noop_ifk (b b2 : Bool) (s : Schema) :
    ensure_embedding_tables b2 (index_foreign_keys (shape_pipeline b s)) =
      index_foreign_keys (shape_pipeline b s) := by
  apply emb_noop
  · rw [ifk_tables]
    exact pipeline_contains_emb1 b s
  · rw [ifk_tables]
    exact pipeline_contains_emb2 b s
  · rw [ifk_tables]
    exact pipeline_contains_emb3 b s
  · rw [ifk_tables]
    exact pipeline_contains_emb4 b s

lemma pipeline_fts_conds (b : Bool) (s : Schema) :
    ∀ tc ∈ FTS_CONFIG,
      ((shape_pipeline b s).tables.contains tc.1 &&
        !(shape_pipeline b s).tables.contains (tc.1 ++ "_fts")) = false := by
  intro tc htc
  by_cases hsrc : (shape_pipeline b s).tables.contains tc.1 = true
  · have hfact : ∀ tc2 ∈ FTS_CONFIG,
        tc2.1 ∉ (["repo_embeddings", "readme_chunk_embeddings", "repo_build_files",
          "repo_metadata"] : List String) ∧
          tc2.1 ∉ FTS_CONFIG.map (fun tc3 => tc3.1 ++ "_fts") := by decide
    have hmem : tc.1 ∈ s.tables := by
      rcases pipeline_tables_cases b s ((contains_true_iff _ _).mp hsrc) with h | h | h
      · exact h
      · exact absurd h (hfact tc htc).1
      · exact absurd h (hfact tc htc).2
    have hmemC : tc.1 ∈ (ensure_embedding_tables b
        (index_foreign_keys (ensure_foreign_keys s))).tables :=
      emb_tables_mono _ _ (by rw [ifk_tables, efk_tables]; exact hmem)
    have hfts : (tc.1 ++ "_fts") ∈ (shape_pipeline b s).tables := by
      by_cases hf : (ensure_embedding_tables b
          (index_foreign_keys (ensure_foreign_keys s))).tables.contains (tc.1 ++ "_fts")
            = true
      · unfold shape_pipeline
        rw [views_pass_tables]
        exact fts_tables_mono _ ((contains_true_iff _ _).mp hf)
      · have hff : (ensure_embedding_tables b
            (index_foreign_keys (ensure_foreign_keys s))).tables.contains (tc.1 ++ "_fts")
              = false := by
          revert hf
          cases (ensure_embedding_tables b
            (index_foreign_keys (ensure_foreign_keys s))).tables.contains (tc.1 ++ "_fts")
          · intro _; rfl
          · intro hf; exact absurd rfl hf
        unfold shape_pipeline
        rw [views_pass_tables, fts_tables]
        apply List.mem_append_right
        apply List.mem_map.mpr
        refine ⟨tc, List.mem_filter.mpr ⟨htc, ?_⟩, rfl⟩
        rw [(contains_true_iff _ _).mpr hmemC, hff]
        rfl
    rw [hsrc, (contains_true_iff _ _).mpr hfts]
    rfl
  · have hsf : (shape_pipeline b s).tables.contains tc.1 = false := by
      revert hsrc
      cases (shape_pipeline b s).tables.contains tc.1
      · intro _; rfl
      · intro hsrc; exact absurd rfl hsrc
    rw [hsf]
    rfl

lemma fts_noop_after (b : Bool) (s : Schema) :
    fts_pass (shape_pipeline b s) = shape_pipeline b s :=
  fts_noop (pipeline_fts_conds b s)

lemma fts_noop_ifk (b : Bool) (s : Schema) :
    fts_pass (index_foreign_keys (shape_pipeline b s)) =
      index_foreign_keys (shape_pipeline b s) := by
  apply fts_noop
  intro tc htc
  rw [ifk_tables]
  exact pipeline_fts_conds b s tc htc

lemma views_noop_after (b : Bool) (s : Schema) :
    views_pass (shape_pipeline b s) = shape_pipeline b s := by
  unfold shape_pipeline
  exact views_pass_idem _

lemma pipeline_views_good (b : Bool) (s : Schema) :
    ∀ iv ∈ VIEWS.enum,
      (iv.2.2.all (fun t => (shape_pipeline b s).tables.contains t)) = true →
        allKey (shape_pipeline b s).views iv.2.1 iv.1 ∧
          ((shape_pipeline b s).views.any (fun kv => kv.1 == iv.2.1)) = true := by
  intro iv hm hc
  unfold shape_pipeline at hc ⊢
  rw [views_pass_tables] at hc
  unfold views_pass
  exact vfold_good VIEWS.enum
    (fts_pass (ensure_embedding_tables b (index_foreign_keys (ensure_foreign_keys s))))
    (by decide) iv hm hc

lemma views_noop_ifk (b : Bool) (s : Schema) :
    views_pass (index_foreign_keys (shape_pipeline b s)) =
      index_foreign_keys (shape_pipeline b s) := by
  unfold views_pass
  apply vfold_noop
  intro iv hm hc
  rw [ifk_tables] at hc
  rw [ifk_views]
  exact pipeline_views_good b s iv hm hc

lemma pipeline_second (b b2 : Bool) (s : Schema) :
    shape_pipeline b2 (shape_pipeline b s) = index_foreign_keys (shape_pipeline b s) := by
  have hstep : shape_pipeline b2 (shape_pipeline b s) =
      views_pass (fts_pass (ensure_embedding_tables b2 (index_foreign_keys
        (ensure_foreign_keys (shape_pipeline b s))))) := rfl
  rw [hstep, efk_noop_after b s, emb_noop_ifk b b2 s, fts_noop_ifk b s,
    views_noop_ifk b s]

lemma pipeline_third (b b3 : Bool) (s : Schema) :
    shape_pipeline b3 (index_foreign_keys (shape_pipeline b s)) =
      index_foreign_keys (shape_pipeline b s) := by
  have hstep : shape_pipeline b3 (index_foreign_keys (shape_pipeline b s)) =
      views_pass (fts_pass (ensure_embedding_tables b3 (index_foreign_keys
        (ensure_foreign_keys (index_foreign_keys (shape_pipeline b s)))))) := rfl
  rw [hstep, efk_noop_ifk b s, ifk_idem, emb_noop_ifk b b3 s, fts_noop_ifk b s,
    views_noop_ifk b s]

lemma efk_fks_nodup (s : Schema) (h : s.fks.Nodup) : (ensure_foreign_keys s).fks.Nodup := by
  rw [efk_eq]
  split
  case isTrue hc =>
    simp only [Bool.and_eq_true] at hc
    have hni : ("repos", "license", "licenses", "key") ∉ s.fks := by
      intro hm
      have := (contains_true_iff s.fks _).mpr hm
      rw [this] at hc
      simp at hc
    simp [List.nodup_append, h, hni]
  case isFalse hc => exact h

lemma addM_nodup (L : List (String × String × String × String))
    (acc : List (String × String)) (h : acc.Nodup) :
    (L.foldl
      (fun idxs fk => if idxs.contains (fk.1, fk.2.1) then idxs else idxs ++ [(fk.1, fk.2.1)])
      acc).Nodup := by
  induction L generalizing acc with
  | nil => exact h
  | cons g L ih =>
    rw [List.foldl_cons]
    by_cases hc : acc.contains (g.1, g.2.1) = true
    · rw [if_pos hc]
      exact ih acc h
    · rw [if_neg hc]
      apply ih
      have hni : (g.1, g.2.1) ∉ acc := fun hm => hc ((contains_true_iff _ _).mpr hm)
      simp [List.nodup_append, h, hni]

lemma emb_tables_nodup (b : Bool) (s : Schema) (h : s.tables.Nodup) :
    (ensure_embedding_tables b s).tables.Nodup := by
  rw [emb_tables_eq]
  refine List.Nodup.append h ?_ ?_
  · split_ifs <;> decide
  · intro x hx hx2
    rcases List.mem_append.mp hx2 with h2 | h2
    · rcases List.mem_append.mp h2 with h3 | h3
      · rcases List.mem_append.mp h3 with h4 | h4
        · obtain ⟨hnc, rfl⟩ := mem_if_nil_singleton h4
          exact hnc ((contains_true_iff _ _).mpr hx)
        · obtain ⟨hnc, rfl⟩ := mem_if_nil_singleton h4
          exact hnc ((contains_true_iff _ _).mpr hx)
      · obtain ⟨hnc, rfl⟩ := mem_if_nil_singleton h3
        exact hnc ((contains_true_iff _ _).mpr hx)
    · obtain ⟨hnc, rfl⟩ := mem_if_nil_singleton h2
      exact hnc ((contains_true_iff _ _).mpr hx)

lemma emb_otherIndexes_nodup (b : Bool) (s : Schema) (h : s.otherIndexes.Nodup) :
    (ensure_embedding_tables b s).otherIndexes.Nodup := by
  rw [emb_otherIndexes_eq]
  split_ifs with hd
  · simp only [Bool.and_eq_true] at hd
    have hni : "readme_chunk_idx" ∉ s.otherIndexes := by
      intro hm
      have hc := (contains_true_iff _ _).mpr hm
      rw [hc] at hd
      simp at hd
    simp [List.nodup_append, h, hni]
  · exact h

lemma emb_fks_nodup (b : Bool) (s : Schema) (h : s.fks.Nodup)
    (hwf : ∀ fk ∈ s.fks, fk.1 ∈ s.tables) :
    (ensure_embedding_tables b s).fks.Nodup := by
  rw [emb_fks_eq]
  refine List.Nodup.append h ?_ ?_
  · split_ifs <;> decide
  · intro x hx hx2
    rcases List.mem_append.mp hx2 with h2 | h2
    · rcases List.mem_append.mp h2 with h3 | h3
      · rcases List.mem_append.mp h3 with h4 | h4
        · obtain ⟨hc, rfl⟩ := mem_if_singleton_nil h4
          have hmem : "repo_embeddings" ∈ s.tables := hwf _ hx
          rw [(contains_true_iff _ _).mpr hmem] at hc
          simp at hc
        · obtain ⟨hc, rfl⟩ := mem_if_singleton_nil h4
          have hmem : "readme_chunk_embeddings" ∈ s.tables := hwf _ hx
          rw [(contains_true_iff _ _).mpr hmem] at hc
          simp at hc
      · obtain ⟨hc, rfl⟩ := mem_if_singleton_nil h3
        have hmem : "repo_build_files" ∈ s.tables := hwf _ hx
        rw [(contains_true_iff _ _).mpr hmem] at hc
        simp at hc
    · obtain ⟨hc, rfl⟩ := mem_if_singleton_nil h2
      have hmem : "repo_metadata" ∈ s.tables := hwf _ hx
      rw [(contains_true_iff _ _).mpr hmem] at hc
      simp at hc

lemma efk_wf (s : Schema) (hwf : ∀ fk ∈ s.fks, fk.1 ∈ s.tables) :
    ∀ fk ∈ (ensure_foreign_keys s).fks, fk.1 ∈ (ensure_foreign_keys s).tables := by
  rw [efk_eq]
  split
  case isTrue hc =>
    intro fk hm
    rcases List.mem_append.mp hm with h | h
    · exact hwf fk h
    · have he : fk = ("repos", "license", "licenses", "key") := by simpa using h
      subst he
      simp only [Bool.and_eq_true] at hc
      exact (contains_true_iff _ _).mp hc.1.1.1.2
  case isFalse _ => exact hwf

lemma ifk_nodup (s : Schema) (h : schemaNodup s) : schemaNodup (index_foreign_keys s) := by
  obtain ⟨ht, hf, hfi, ho, hv⟩ := h
  exact ⟨ht, hf, addM_nodup s.fks s.fkIndexes hfi, ho, hv⟩

lemma fts_tables_nodup (s : Schema) (h : s.tables.Nodup) : (fts_pass s).tables.Nodup := by
  rw [fts_tables]
  have htg : (FTS_CONFIG.map (fun tc => tc.1 ++ "_fts")).Nodup := by decide
  have hsub : ((FTS_CONFIG.filter
      (fun tc => s.tables.contains tc.1 && !s.tables.contains (tc.1 ++ "_fts"))).map
        (fun tc => tc.1 ++ "_fts")).Sublist (FTS_CONFIG.map (fun tc => tc.1 ++ "_fts")) :=
    (List.filter_sublist _).map _
  refine List.Nodup.append h (htg.sublist hsub) ?_
  intro x hx1 hx2
  rcases List.mem_map.mp hx2 with ⟨tc, htc, he⟩
  have hp := (List.mem_filter.mp htc).2
  simp only [Bool.and_eq_true] at hp
  have hnf : s.tables.contains (tc.1 ++ "_fts") = false := by
    cases hq : s.tables.contains (tc.1 ++ "_fts")
    · rfl
    · rw [hq] at hp
      simp at hp
  subst he
  rw [(contains_true_iff _ _).mpr hx1] at hnf
  cases hnf

lemma setView_names_nodup (vs : List (String × Nat)) (n : String) (d : Nat)
    (h : (vs.map (fun kv => kv.1)).Nodup) :
    ((setView vs n d).map (fun kv => kv.1)).Nodup := by
  unfold setView
  by_cases hh : vs.any (fun kv => kv.1 == n) = true
  · rw [if_pos hh]
    have he : (vs.map (fun kv => if kv.1 == n then (n, d) else kv)).map (fun kv => kv.1) =
        vs.map (fun kv => kv.1) := by
      rw [List.map_map]
      apply List.map_congr_left
      intro kv _
      simp only [Function.comp]
      by_cases hp : kv.1 == n
      · rw [if_pos hp]
        exact (beq_iff_eq.mp hp).symm
      · rw [if_neg hp]
    rw [he]
    exact h
  · rw [if_neg hh]
    have hni : n ∉ vs.map (fun kv => kv.1) := by
      intro hm
      rcases List.mem_map.mp hm with ⟨kv, hkv, he⟩
      exact hh (List.any_eq_true.mpr ⟨kv, hkv, beq_iff_eq.mpr he⟩)
    simp [List.nodup_append, h, hni]

lemma vfold_views_nodup (l : List (Nat × String × List String)) (s : Schema)
    (h : (s.views.map (fun kv => kv.1)).Nodup) :
    ((l.foldl
      (fun s iv =>
        if iv.2.2.all (fun t => s.tables.contains t) then
          { s with views := setView s.views iv.2.1 iv.1 }
        else s)
      s).views.map (fun kv => kv.1)).Nodup := by
  induction l generalizing s with
  | nil => exact h
  | cons iv l ih =>
    rw [List.foldl_cons]
    by_cases hc : (iv.2.2.all (fun t => s.tables.contains t)) = true
    · rw [if_pos hc]
      exact ih _ (setView_names_nodup s.views iv.2.1 iv.1 h)
    · rw [if_neg hc]
      exact ih _ h

lemma pipeline_nodup (b : Bool) (s : Schema) (h : schemaNodup s)
    (hwf : ∀ fk ∈ s.fks, fk.1 ∈ s.tables) :
    schemaNodup (shape_pipeline b s) := by
  obtain ⟨ht, hf, hfi, ho, hv⟩ := h
  refine ⟨?_, ?_, ?_, ?_, ?_⟩
  · unfold shape_pipeline
    rw [views_pass_tables]
    apply fts_tables_nodup
    apply emb_tables_nodup
    rw [ifk_tables, efk_tables]
    exact ht
  · rw [pipeline_fks]
    apply emb_fks_nodup
    · rw [ifk_fks]
      exact efk_fks_nodup s hf
    · intro fk hm
      rw [ifk_fks] at hm
      rw [ifk_tables]
      exact efk_wf s hwf fk hm
  · rw [pipeline_fkIndexes]
    have he : (index_foreign_keys (ensure_foreign_keys s)).fkIndexes =
        (ensure_foreign_keys s).fks.foldl
          (fun idxs fk =>
            if idxs.contains (fk.1, fk.2.1) then idxs else idxs ++ [(fk.1, fk.2.1)])
          (ensure_foreign_keys s).fkIndexes := rfl
    rw [he]
    apply addM_nodup
    rw [efk_fkIndexes]
    exact hfi
  · unfold shape_pipeline
    rw [views_pass_otherIndexes, fts_otherIndexes]
    apply emb_otherIndexes_nodup
    rw [ifk_otherIndexes, efk_otherIndexes]
    exact ho
  · unfold shape_pipeline views_pass
    apply vfold_views_nodup
    rw [fts_views, emb_views, ifk_views, efk_views]
    exact hv

/-- C5 (counterexample): on a store that already holds a `repos` table,
the second `ensure_db_shape` call is not a no-op — the first call created
the embedding tables with `repo_id` foreign keys to `repos.id` after its
own `index_foreign_keys` pass had already run, so the second call's
`index_foreign_keys` pass finds those columns unindexed and creates four
new indexes. -/
theorem schema_maintainer_second_call_not_noop :
    (ensure_db_shape { importOk := false, loadOk := false } 1 {}
        { tables := ["repos"] }).2.fkIndexes = [] ∧
      (ensure_db_shape { importOk := false, loadOk := false } 2
          (ensure_db_shape { importOk := false, loadOk := false } 1 {}
            { tables := ["repos"] }).1
          (ensure_db_shape { importOk := false, loadOk := false } 1 {}
            { tables := ["repos"] }).2).2.fkIndexes =
        [("repo_embeddings", "repo_id"), ("readme_chunk_embeddings", "repo_id"),
          ("repo_build_files", "repo_id"), ("repo_metadata", "repo_id")] := by
  decide

/-- C5 (amended): the Schema Maintainer converges in two calls rather
than one. The second call keeps the process state, creates no duplicate
views, indexes, or foreign keys, and changes the store in exactly one
way: it re-runs the foreign-key-index pass, which indexes the `repo_id`
columns of the embedding tables whose foreign keys the first call
declared after its own index pass had run. From the second call on the
store is a fixed point: a third call leaves it exactly as the second
call left it. The well-formedness hypotheses say the input store has no
duplicate schema entries and declares foreign keys only on existing
tables. -/
theorem schema_maintainer_converges (env : VecEnv) (c1 c2 c3 : Nat) (p : VecProc)
    (s : Schema) (hnd : schemaNodup s) (hwf : ∀ fk ∈ s.fks, fk.1 ∈ s.tables) :
    (ensure_db_shape env c2 (ensure_db_shape env c1 p s).1
        (ensure_db_shape env c1 p s).2).1 = (ensure_db_shape env c1 p s).1 ∧
    (ensure_db_shape env c2 (ensure_db_shape env c1 p s).1
        (ensure_db_shape env c1 p s).2).2 =
      index_foreign_keys (ensure_db_shape env c1 p s).2 ∧
    ensure_db_shape env c3
        (ensure_db_shape env c2 (ensure_db_shape env c1 p s).1
          (ensure_db_shape env c1 p s).2).1
        (ensure_db_shape env c2 (ensure_db_shape env c1 p s).1
          (ensure_db_shape env c1 p s).2).2 =
      ensure_db_shape env c2 (ensure_db_shape env c1 p s).1
        (ensure_db_shape env c1 p s).2 ∧
    schemaNodup (ensure_db_shape env c1 p s).2 ∧
    schemaNodup (ensure_db_shape env c2 (ensure_db_shape env c1 p s).1
        (ensure_db_shape env c1 p s).2).2 := by
  have h2 : ensure_db_shape env c2 (ensure_db_shape env c1 p s).1
      (ensure_db_shape env c1 p s).2 =
      ((ensure_db_shape env c1 p s).1,
        index_foreign_keys (ensure_db_shape env c1 p s).2) := by
    rw [ensure_db_shape_eq env c1 p s]
    dsimp only
    rw [ensure_db_shape_eq env c2 _ _]
    rw [maybe_load_cached (vec_cache_after env c1 p)]
    dsimp only
    rw [pipeline_second]
  have h3 : ensure_db_shape env c3
      ((ensure_db_shape env c1 p s).1,
        index_foreign_keys (ensure_db_shape env c1 p s).2).1
      ((ensure_db_shape env c1 p s).1,
        index_foreign_keys (ensure_db_shape env c1 p s).2).2 =
      ((ensure_db_shape env c1 p s).1,
        index_foreign_keys (ensure_db_shape env c1 p s).2) := by
    dsimp only
    rw [ensure_db_shape_eq env c1 p s]
    dsimp only
    rw [ensure_db_shape_eq env c3 _ _]
    rw [maybe_load_cached (vec_cache_after env c1 p)]
    dsimp only
    rw [pipeline_third]
  have hn1 : schemaNodup (ensure_db_shape env c1 p s).2 := by
    rw [ensure_db_shape_eq env c1 p s]
    exact pipeline_nodup _ s hnd hwf
  refine ⟨by rw [h2], by rw [h2], ?_, hn1, ?_⟩
  · rw [h2]
    exact h3
  · rw [h2]
    exact ifk_nodup _ hn1

/-- Witness for C5 on a store that already holds `repos`: the third call
fixes the schema the second call produced, and both are duplicate-free. -/
theorem schema_maintainer_converges_witness :
    ((ensure_db_shape { importOk := false, loadOk := false } 2
        (ensure_db_shape { importOk := false, loadOk := false } 1 {}
          { tables := ["repos"] }).1
        (ensure_db_shape { importOk := false, loadOk := false } 1 {}
          { tables := ["repos"] }).2).1 =
      (ensure_db_shape { importOk := false, loadOk := false } 1 {}
        { tables := ["repos"] }).1) ∧
    ((ensure_db_shape { importOk := false, loadOk := false } 2
        (ensure_db_shape { importOk := false, loadOk := false } 1 {}
          { tables := ["repos"] }).1
        (ensure_db_shape { importOk := false, loadOk := false } 1 {}
          { tables := ["repos"] }).2).2 =
      index_foreign_keys (ensure_db_shape { importOk := false, loadOk := false } 1 {}
        { tables := ["repos"] }).2) ∧
    (ensure_db_shape { importOk := false, loadOk := false } 3
        (ensure_db_shape { importOk := false, loadOk := false } 2
          (ensure_db_shape { importOk := false, loadOk := false } 1 {}
            { tables := ["repos"] }).1
          (ensure_db_shape { importOk := false, loadOk := false } 1 {}
            { tables := ["repos"] }).2).1
        (ensure_db_shape { importOk := false, loadOk := false } 2
          (ensure_db_shape { importOk := false, loadOk := false } 1 {}
            { tables := ["repos"] }).1
          (ensure_db_shape { importOk := false, loadOk := false } 1 {}
            { tables := ["repos"] }).2).2 =
      ensure_db_shape { importOk := false, loadOk := false } 2
        (ensure_db_shape { importOk := false, loadOk := false } 1 {}
          { tables := ["repos"] }).1
        (ensure_db_shape { importOk := false, loadOk := false } 1 {}
          { tables := ["repos"] }).2) ∧
    schemaNodup (ensure_db_shape { importOk := false, loadOk := false } 1 {}
      { tables := ["repos"] }).2 ∧
    schemaNodup (ensure_db_shape { importOk := false, loadOk := false } 2
        (ensure_db_shape { importOk := false, loadOk := false } 1 {}
          { tables := ["repos"] }).1
        (ensure_db_shape { importOk := false, loadOk := false } 1 {}
          { tables := ["repos"] }).2).2 :=
  schema_maintainer_converges { importOk := false, loadOk := false } 1 2 3 {}
    { tables := ["repos"] } (by decide) (by decide)

end GhSql
